import Mathlib

/-!
# taco LLVM backend and JIT module: a verification development

Shallow embedding of `src/codegen/codegen_llvm.cpp` (the `CodeGen_LLVM`
visitor and its `FindVars` helper) and of `src/codegen/module.cpp`
(`Module::compile` and friends).

* The lowered IR (`Expr`, `Stmt`) is an inductive type; node identity
  (the address of a node, which `ExprCompare` orders by) is the `ptr`
  field of the node kinds that are used as map keys.
* The LLVM `IRBuilder` is a state (`CodeGen_LLVM`) holding the module
  built so far, the current function, the insertion block and the symbol
  table; every `Create*` call appends one instruction to the insertion
  block and returns the new value.
* Errors (`taco_iassert`, `taco_uassert`, `throw logic_error`, a null
  dereference) are values of `Err` in the `Except` monad.
* Generated functions are run, basic block by basic block, by an
  interpreter over a block structured memory (`run`).
* What the two files use and is declared elsewhere (the IR node set, the
  datatypes, the symbol table, the target descriptor, the members of
  `Module`) is modelled from the design document; the portable-C generators,
  the toolchain and the loader are parameters (`Env`).
-/

namespace taco

deriving instance DecidableEq for Except

/-! ## Errors -/

/-- The ways a call into the code generator or the module can fail. -/
inductive Err where
  /-- Raised by `throw logic_error(msg)`. -/
  | logic_error (msg : String)
  /-- Raised by `taco_iassert` and `taco_ierror`: internal error. -/
  | ierror (msg : String)
  /-- Raised by `taco_tassert`: not yet supported. -/
  | terror (msg : String)
  /-- Raised by `taco_uassert`: user error. -/
  | uerror (msg : String)
  /-- dereference of a null pointer (undefined handle, failed `as<T>()`) -/
  | nullDeref (what : String)
  /-- a precondition of an LLVM builder call is violated -/
  | llvm (msg : String)
  deriving DecidableEq, Repr

/-! ## The lowered IR -/

/-- Modelled from the spec: the kinds of scalar datatype. The declaration
(`taco/type.h`) is not among the sources; the kinds are the ones the code asks
about through `isFloat`, `isUInt`, `isInt` and `isComplex`, which exclude each
other. -/
inductive DatatypeKind where
  | Bool | UInt | Int | Float | Complex | Undefined
  deriving DecidableEq, Repr

/-- Modelled from the spec: a scalar datatype, a kind and a bit width. -/
structure Datatype where
  kind : DatatypeKind
  bits : Nat
  deriving DecidableEq, Repr

namespace Datatype
def isComplex (t : Datatype) : Bool := t.kind == .Complex
def isFloat (t : Datatype) : Bool := t.kind == .Float
def isUInt (t : Datatype) : Bool := t.kind == .UInt
def isInt (t : Datatype) : Bool := t.kind == .Int
def getNumBits (t : Datatype) : Nat := t.bits
def Int32 : Datatype := ⟨.Int, 32⟩
def BoolT : Datatype := ⟨.Bool, 1⟩
end Datatype

/-- Modelled from the spec: the enumeration `TensorProperty` (declared in
`ir.h`, which is not among the sources), naming the fields of the tensor
runtime structure, in declaration order. -/
inductive TensorProperty where
  | Order | Dimension | ComponentSize | ModeOrdering | ModeTypes
  | Indices | Values | ValuesSize
  deriving DecidableEq, Repr

/-- The integer value of the enumerator, `(int) TensorProperty::P`. -/
def TensorProperty.toNat : TensorProperty → Nat
  | .Order => 0 | .Dimension => 1 | .ComponentSize => 2 | .ModeOrdering => 3
  | .ModeTypes => 4 | .Indices => 5 | .Values => 6 | .ValuesSize => 7

/-- Modelled from the spec: the expressions of the lowered IR (`ir.h` is not
among the sources), with the fields that the code generator reads. `ptr` is
the address of the node, which is what `ExprCompare` and the comparison of
handles go by; it is recorded for the two node kinds used as map keys. -/
inductive Expr where
  | Literal (type : Datatype) (value : Int)
  | Var (ptr : Nat) (name : String) (type : Datatype)
  | Neg (a : Expr)
  | Sqrt (a : Expr)
  | Add (type : Datatype) (a b : Expr)
  | Sub (a b : Expr)
  | Mul (type : Datatype) (a b : Expr)
  | Div (a b : Expr)
  | Rem (a b : Expr)
  | Min (a b : Expr)
  | Max (a b : Expr)
  | BitAnd (a b : Expr)
  | BitOr (a b : Expr)
  | Eq (a b : Expr)
  | Neq (a b : Expr)
  | Gt (a b : Expr)
  | Lt (a b : Expr)
  | Gte (a b : Expr)
  | Lte (a b : Expr)
  | And (a b : Expr)
  | Or (a b : Expr)
  | Cast (type : Datatype) (a : Expr)
  | Call (func : String) (type : Datatype) (a : Expr)
  | Load (arr loc : Expr)
  | Malloc (size : Expr)
  | Sizeof (type : Datatype)
  | GetProperty (ptr : Nat) (tensor : Expr) (property : TensorProperty)
      (mode : Int) (index : Int) (name : String) (type : Datatype)
  deriving DecidableEq, Repr

/-- The datatype of an expression, `Expr::type()`. -/
def Expr.type : Expr → Datatype
  | .Literal t _ => t
  | .Var _ _ t => t
  | .Neg a => a.type
  | .Sqrt a => a.type
  | .Add t _ _ => t
  | .Sub a _ => a.type
  | .Mul t _ _ => t
  | .Div a _ => a.type
  | .Rem a _ => a.type
  | .Min a _ => a.type
  | .Max a _ => a.type
  | .BitAnd a _ => a.type
  | .BitOr a _ => a.type
  | .Eq _ _ => Datatype.BoolT
  | .Neq _ _ => Datatype.BoolT
  | .Gt _ _ => Datatype.BoolT
  | .Lt _ _ => Datatype.BoolT
  | .Gte _ _ => Datatype.BoolT
  | .Lte _ _ => Datatype.BoolT
  | .And _ _ => Datatype.BoolT
  | .Or _ _ => Datatype.BoolT
  | .Cast t _ => t
  | .Call _ t _ => t
  | .Load arr _ => arr.type
  | .Malloc _ => ⟨.Undefined, 0⟩
  | .Sizeof _ => ⟨.UInt, 64⟩
  | .GetProperty _ _ _ _ _ _ t => t

/-- Modelled from the spec: the statements of the lowered IR, with the fields
that the code generator reads. `null` is the undefined statement handle
(`Stmt()`), which is what `op->otherwise` holds when there is no else. -/
inductive Stmt where
  | null
  | IfThenElse (cond : Expr) (then_ : Stmt) (otherwise : Stmt)
  | Case (guard : Expr) (body : Stmt)
  | Switch (control : Expr) (body : Stmt)
  | Store (arr loc data : Expr)
  | For (var start end_ increment : Expr) (contents : Stmt)
  | While (cond : Expr) (contents : Stmt)
  | Block (contents : List Stmt)
  | Scope (scopedStmt : Stmt)
  | Function (name : String) (body : Stmt) (inputs outputs : List Expr)
  | VarDecl (var rhs : Expr)
  | Assign (lhs rhs : Expr)
  | Yield (val : Expr)
  | Allocate (var num_elements : Expr) (is_realloc : Bool)
  | Free (var : Expr)
  | Comment (text : String)
  | BlankLine
  | Break
  | Print (fmt : String)

/-! ## The LLVM IR that the generator builds -/

/-- LLVM types. A named structure type is referred to by its name; its body
is recorded in the module. -/
inductive LType where
  | void
  | int (bits : Nat)
  | float
  | double
  | ptr (pointee : LType)
  | struct (name : String)
  deriving DecidableEq, Repr

def LType.isPointerTy : LType → Bool
  | .ptr _ => true
  | _ => false

def LType.isIntegerTy : LType → Bool
  | .int _ => true
  | _ => false

/-- Method `T->getPointerTo()`. -/
def LType.getPointerTo (t : LType) : LType := .ptr t

/-- A floating point constant: the literal it comes from, or a constant
folded from other constants (kept symbolic). -/
inductive FPConst where
  | lit (v : Int)
  | add (a b : FPConst)
  | mul (a b : FPConst)
  deriving DecidableEq, Repr

/-- An `llvm::Value*`. Instructions are identified by a number that is
unique within the generator; arguments by their function and position. -/
inductive LValue where
  | constInt (bits : Nat) (v : Nat)
  | constFP (ty : LType) (v : FPConst)
  | arg (func : Nat) (idx : Nat) (ty : LType)
  | inst (id : Nat) (ty : LType)
  deriving DecidableEq, Repr

/-- Method `V->getType()`. -/
def LValue.getType : LValue → LType
  | .constInt b _ => .int b
  | .constFP t _ => t
  | .arg _ _ t => t
  | .inst _ t => t

def LValue.isConstant : LValue → Bool
  | .constInt _ _ => true
  | .constFP _ _ => true
  | _ => false

/-- Opcode and operands of an instruction. Basic blocks are referred to by
their position in the function. -/
inductive Op where
  | load (p : LValue)
  | store (val p : LValue)
  | structGEP (p : LValue) (idx : Nat)
  | inBoundsGEP (p idx : LValue)
  | bitCast (v : LValue) (ty : LType)
  | add (a b : LValue)
  | fadd (a b : LValue)
  | mul (a b : LValue)
  | fmul (a b : LValue)
  | icmpSLT (a b : LValue)
  | phi (incoming : List (LValue × Nat))
  | br (dest : Nat)
  | condBr (cond : LValue) (ifTrue ifFalse : Nat)
  | ret (v : LValue)
  | alloca (ty : LType)
  | zext (v : LValue) (ty : LType)
  | call (callee : String) (args : List LValue)
  deriving DecidableEq, Repr

def Op.isTerminator : Op → Bool
  | .br _ => true
  | .condBr _ _ _ => true
  | .ret _ => true
  | _ => false

/-- An instruction: its identity, result type, operation and name hint. -/
structure Inst where
  id : Nat
  ty : LType
  op : Op
  name : String
  deriving DecidableEq, Repr

structure BasicBlock where
  name : String
  insts : List Inst
  deriving DecidableEq, Repr

inductive Attr where
  | NoCapture
  deriving DecidableEq, Repr

/-- A formal parameter of a generated function. -/
structure Argument where
  name : String
  ty : LType
  attrs : List Attr
  deriving DecidableEq, Repr

structure LFunction where
  name : String
  retTy : LType
  args : List Argument
  blocks : List BasicBlock
  deriving DecidableEq, Repr

/-- An external function declared through `getOrInsertFunction`. -/
structure Declaration where
  name : String
  retTy : LType
  argTys : List LType
  deriving DecidableEq, Repr

structure LModule where
  name : String
  structs : List (String × List LType)
  functions : List LFunction
  declarations : List Declaration
  deriving DecidableEq, Repr

/-! ## Symbol table -/

/-- Modelled from the spec: the scoped symbol table (`ScopedMap`, whose
header is not among the sources). A stack of scopes, innermost first, each a
name to value mapping; lookups search innermost to outermost; inserting a name
that the innermost scope already binds shadows the older binding. -/
structure ScopedMap where
  scopes : List (List (String × LValue))
  deriving DecidableEq, Repr

namespace ScopedMap

/-- A fresh table has one (outermost) scope. -/
def new : ScopedMap := ⟨[[]]⟩

def scope (m : ScopedMap) : ScopedMap := ⟨[] :: m.scopes⟩

def unscope (m : ScopedMap) : ScopedMap := ⟨m.scopes.tail⟩

def insert (name : String) (v : LValue) (m : ScopedMap) : Except Err ScopedMap :=
  match m.scopes with
  | [] => .error (.nullDeref "ScopedMap::insert without scope")
  | s :: rest => .ok ⟨((name, v) :: s) :: rest⟩

def removeFrom (name : String) :
    List (List (String × LValue)) → Option (List (List (String × LValue)))
  | [] => none
  | s :: rest =>
    if (s.lookup name).isSome then some (s.filter (fun kv => kv.1 != name) :: rest)
    else (removeFrom name rest).map (fun r => s :: r)

def remove (name : String) (m : ScopedMap) : Except Err ScopedMap :=
  match removeFrom name m.scopes with
  | some s => .ok ⟨s⟩
  | none => .error (.ierror "Not in scope")

def getFrom (name : String) : List (List (String × LValue)) → Option LValue
  | [] => none
  | s :: rest =>
    match s.lookup name with
    | some v => some v
    | none => getFrom name rest

def get (name : String) (m : ScopedMap) : Except Err LValue :=
  match getFrom name m.scopes with
  | some v => .ok v
  | none => .error (.ierror "Not in scope")

end ScopedMap

/-! ## Generator state and the IRBuilder -/

/-- The state of a `CodeGen_LLVM` object. `Module = none` is the null module
pointer of a generator on which `init_codegen` has not run; `Func` is the
position of the current function in the module, `insertBlock` the block the
builder appends to, and `nextValue` numbers the values created so far. -/
structure CodeGen_LLVM where
  Module : Option LModule
  tensorStruct : Option LType
  tensorStructPtr : Option LType
  Func : Option Nat
  insertBlock : Option Nat
  symbolTable : ScopedMap
  nextValue : Nat
  uniqueNameCounter : Nat
  deriving DecidableEq, Repr

/-- A newly constructed generator. -/
def CodeGen_LLVM.new : CodeGen_LLVM :=
  { Module := none, tensorStruct := none, tensorStructPtr := none, Func := none,
    insertBlock := none, symbolTable := ScopedMap.new, nextValue := 0,
    uniqueNameCounter := 0 }

/-- Replace element `i` of a list by its image under `f`; `none` when `i` is
out of range. -/
def modifyNth {α : Type} (f : α → α) : Nat → List α → Option (List α)
  | _, [] => none
  | 0, x :: xs => some (f x :: xs)
  | i + 1, x :: xs => (modifyNth f i xs).map (fun r => x :: r)

namespace CodeGen_LLVM

/-- The function being built. -/
def curFunc (g : CodeGen_LLVM) : Option LFunction :=
  match g.Module, g.Func with
  | some m, some fi => m.functions.get? fi
  | _, _ => none

/-- Apply `f` to the current function. -/
def modifyFunc (f : LFunction → LFunction) (g : CodeGen_LLVM) : Except Err CodeGen_LLVM :=
  match g.Module, g.Func with
  | some m, some fi =>
    match modifyNth f fi m.functions with
    | some fs => .ok { g with Module := some { m with functions := fs } }
    | none => .error (.nullDeref "Func")
  | _, _ => .error (.nullDeref "Func")

/-- Apply `f` to the block the builder inserts into. -/
def modifyInsertBlock (f : BasicBlock → BasicBlock) (g : CodeGen_LLVM) :
    Except Err CodeGen_LLVM :=
  match g.Module, g.Func, g.insertBlock with
  | some m, some fi, some bi =>
    match m.functions.get? fi with
    | none => .error (.nullDeref "Func")
    | some fn =>
      match modifyNth f bi fn.blocks with
      | none => .error (.nullDeref "insertion block")
      | some bs =>
        match modifyNth (fun _ => { fn with blocks := bs }) fi m.functions with
        | some fs => .ok { g with Module := some { m with functions := fs } }
        | none => .error (.nullDeref "Func")
  | _, _, _ => .error (.nullDeref "Builder insertion point")

/-- Append an instruction at the insertion point and return its value. -/
def emit (op : Op) (ty : LType) (name : String) (g : CodeGen_LLVM) :
    Except Err (LValue × CodeGen_LLVM) := do
  let i : Inst := { id := g.nextValue, ty := ty, op := op, name := name }
  let g1 ← g.modifyInsertBlock (fun b => { b with insts := b.insts ++ [i] })
  pure (.inst g.nextValue ty, { g1 with nextValue := g.nextValue + 1 })

/-- Call `llvm::BasicBlock::Create(Context, name, Func)`: a new empty block at the
end of the current function; returns its position. -/
def BasicBlockCreate (name : String) (g : CodeGen_LLVM) : Except Err (Nat × CodeGen_LLVM) :=
  match g.curFunc with
  | none => .error (.nullDeref "Func")
  | some fn => do
    let g1 ← g.modifyFunc (fun fn => { fn with blocks := fn.blocks ++ [⟨name, []⟩] })
    pure (fn.blocks.length, g1)

/-- Call `Builder->SetInsertPoint(bb)` -/
def SetInsertPoint (bb : Nat) (g : CodeGen_LLVM) : CodeGen_LLVM :=
  { g with insertBlock := some bb }

/-- Call `Builder->GetInsertBlock()` -/
def GetInsertBlock (g : CodeGen_LLVM) : Except Err Nat :=
  match g.insertBlock with
  | some b => .ok b
  | none => .error (.nullDeref "GetInsertBlock")

def CreateLoad (p : LValue) (name : String) (g : CodeGen_LLVM) :
    Except Err (LValue × CodeGen_LLVM) :=
  match p.getType with
  | .ptr t => g.emit (.load p) t name
  | _ => .error (.llvm "load from a value that is not a pointer")

def CreateStore (val p : LValue) (g : CodeGen_LLVM) : Except Err CodeGen_LLVM := do
  let (_, g1) ← g.emit (.store val p) .void ""
  pure g1

/-- Call `Builder->CreateStructGEP(p, idx, name)`: the address of field `idx` of
the structure `p` points to. -/
def CreateStructGEP (p : LValue) (idx : Nat) (name : String) (g : CodeGen_LLVM) :
    Except Err (LValue × CodeGen_LLVM) :=
  match p.getType, g.Module with
  | .ptr (.struct s), some m =>
    match m.structs.lookup s with
    | some fields =>
      match fields.get? idx with
      | some t => g.emit (.structGEP p idx) (.ptr t) name
      | none => .error (.llvm "struct field index out of range")
    | none => .error (.llvm "unknown struct type")
  | _, _ => .error (.llvm "struct GEP on a value that is not a pointer to a struct")

/-- Call `Builder->CreateInBoundsGEP(arr, loc)`: the address of element `loc`. -/
def CreateInBoundsGEP (arr loc : LValue) (g : CodeGen_LLVM) :
    Except Err (LValue × CodeGen_LLVM) :=
  match arr.getType with
  | .ptr t => g.emit (.inBoundsGEP arr loc) (.ptr t) ""
  | _ => .error (.llvm "GEP on a value that is not a pointer")

/-- Call `Builder->CreateBitCast(v, ty)`: no instruction when the type is already
`ty`. -/
def CreateBitCast (v : LValue) (ty : LType) (g : CodeGen_LLVM) :
    Except Err (LValue × CodeGen_LLVM) :=
  if v.getType = ty then .ok (v, g) else g.emit (.bitCast v ty) ty ""

/-- Call `Builder->CreateAdd(a, b)`: two constants are folded. -/
def CreateAdd (a b : LValue) (name : String) (g : CodeGen_LLVM) :
    Except Err (LValue × CodeGen_LLVM) :=
  match a, b with
  | .constInt w x, .constInt _ y => .ok (.constInt w ((x + y) % 2 ^ w), g)
  | _, _ => g.emit (.add a b) a.getType name

def CreateMul (a b : LValue) (name : String) (g : CodeGen_LLVM) :
    Except Err (LValue × CodeGen_LLVM) :=
  match a, b with
  | .constInt w x, .constInt _ y => .ok (.constInt w ((x * y) % 2 ^ w), g)
  | _, _ => g.emit (.mul a b) a.getType name

def CreateFAdd (a b : LValue) (g : CodeGen_LLVM) : Except Err (LValue × CodeGen_LLVM) :=
  match a, b with
  | .constFP t x, .constFP _ y => .ok (.constFP t (.add x y), g)
  | _, _ => g.emit (.fadd a b) a.getType ""

def CreateFMul (a b : LValue) (g : CodeGen_LLVM) : Except Err (LValue × CodeGen_LLVM) :=
  match a, b with
  | .constFP t x, .constFP _ y => .ok (.constFP t (.mul x y), g)
  | _, _ => g.emit (.fmul a b) a.getType ""

/-- The signed reading of a `w` bit pattern. -/
def toSigned (w : Nat) (x : Nat) : Int :=
  if 2 * (x % 2 ^ w) < 2 ^ w then ((x % 2 ^ w : Nat) : Int) else ((x % 2 ^ w : Nat) : Int) - 2 ^ w

def CreateICmpSLT (a b : LValue) (g : CodeGen_LLVM) : Except Err (LValue × CodeGen_LLVM) :=
  match a, b with
  | .constInt w x, .constInt _ y =>
    .ok (.constInt 1 (if toSigned w x < toSigned w y then 1 else 0), g)
  | _, _ => g.emit (.icmpSLT a b) (.int 1) ""

def CreateZExt (v : LValue) (ty : LType) (g : CodeGen_LLVM) :
    Except Err (LValue × CodeGen_LLVM) :=
  if v.getType = ty then .ok (v, g) else
  match v, ty with
  | .constInt _ x, .int w => .ok (.constInt w x, g)
  | _, _ => g.emit (.zext v ty) ty ""

def CreatePHI (ty : LType) (name : String) (g : CodeGen_LLVM) :
    Except Err (LValue × CodeGen_LLVM) :=
  g.emit (.phi []) ty name

def CreateBr (dest : Nat) (g : CodeGen_LLVM) : Except Err CodeGen_LLVM := do
  let (_, g1) ← g.emit (.br dest) .void ""
  pure g1

def CreateCondBr (c : LValue) (t f : Nat) (g : CodeGen_LLVM) : Except Err CodeGen_LLVM := do
  let (_, g1) ← g.emit (.condBr c t f) .void ""
  pure g1

def CreateRet (v : LValue) (g : CodeGen_LLVM) : Except Err CodeGen_LLVM := do
  let (_, g1) ← g.emit (.ret v) .void ""
  pure g1

def CreateAlloca (ty : LType) (g : CodeGen_LLVM) : Except Err (LValue × CodeGen_LLVM) :=
  g.emit (.alloca ty) (.ptr ty) ""

/-- Call `phi->addIncoming(v, bb)`: extends the incoming list of the PHI node with
identity `phiId`, wherever it is in the current function. -/
def addIncoming (phiId : Nat) (v : LValue) (bb : Nat) (g : CodeGen_LLVM) :
    Except Err CodeGen_LLVM :=
  g.modifyFunc (fun fn => { fn with blocks := fn.blocks.map (fun b =>
    { b with insts := b.insts.map (fun i =>
      match i.op with
      | .phi inc => if i.id = phiId then { i with op := .phi (inc ++ [(v, bb)]) } else i
      | _ => i) }) })

end CodeGen_LLVM

/-! ## FindVars -/

/-- The key of the canonical property map: tensor, property, mode, index.
The tensor of a `GetProperty` is a `Var` node, whose `ptr` is part of it, so
that equal keys have the same tensor node; mode and index are the integers of
the node. -/
abbrev PropertyKey := Expr × TensorProperty × Int × Int

/-- The state of a `FindVars` visitor. Maps ordered by `ExprCompare` are
keyed by the address of the node. -/
structure FindVars where
  varMap : List (Nat × String)
  varDecls : List (Nat × String)
  localVars : List Expr
  canonicalPropertyVar : List (PropertyKey × String)
  outputProperties : List (PropertyKey × String)
  inputTensors : List Expr
  outputTensors : List Expr
  inBlock : Bool
  deriving DecidableEq, Repr

/-- Modelled from the spec: `CodeGen::genUniqueName`, declared in a header
that is not among the sources: the hint followed by a counter that only
grows. Returns the name and the new counter. -/
def genUniqueName (name : String) (counter : Nat) : String × Nat :=
  (name ++ toString counter, counter + 1)

namespace FindVars

/-- Assignment `m[key] = v` on a map. -/
def assign {κ : Type} [DecidableEq κ] (key : κ) (v : String) (m : List (κ × String)) :
    List (κ × String) :=
  (key, v) :: m.filter (fun kv => decide (kv.1 ≠ key))

/-- The entry under a key, if there is one. -/
def find {κ : Type} [DecidableEq κ] (key : κ) (m : List (κ × String)) : Option String :=
  m.lookup key

/-- The number of entries under a key, `m.count(key)`. -/
def count {κ : Type} [DecidableEq κ] (key : κ) (m : List (κ × String)) : Nat :=
  if (find key m).isSome then 1 else 0

/-- The loop of the constructor over the inputs. -/
def addInputs : List Expr → FindVars → Except Err FindVars
  | [], fv => .ok fv
  | v :: rest, fv =>
    match v with
    | .Var p name _ =>
      if count p fv.varMap == 0 then
        addInputs rest { fv with inputTensors := fv.inputTensors ++ [v],
                                 varMap := assign p name fv.varMap }
      else .error (.ierror ("Duplicate input found in codegen: " ++ name))
    | _ => .error (.ierror "Inputs must be vars in codegen")

/-- The loop of the constructor over the outputs. -/
def addOutputs : List Expr → FindVars → Except Err FindVars
  | [], fv => .ok fv
  | v :: rest, fv =>
    match v with
    | .Var p name _ =>
      if count p fv.varMap == 0 then
        addOutputs rest { fv with outputTensors := fv.outputTensors ++ [v],
                                  varMap := assign p name fv.varMap }
      else .error (.ierror "Duplicate output found in codegen")
    | _ => .error (.ierror "Outputs must be vars in codegen")

/-- The constructor `FindVars(inputs, outputs, codeGen)`. -/
def new (inputs outputs : List Expr) : Except Err FindVars := do
  let fv0 : FindVars :=
    { varMap := [], varDecls := [], localVars := [], canonicalPropertyVar := [],
      outputProperties := [], inputTensors := [], outputTensors := [], inBlock := false }
  let fv1 ← addInputs inputs fv0
  let fv2 ← addOutputs outputs fv1
  pure { fv2 with inBlock := false }

/-- The handler `visit(const Var*)`; `c` is the counter of `genUniqueName`. -/
def visitVar (p : Nat) (name : String) (fv : FindVars) (c : Nat) : FindVars × Nat :=
  if count p fv.varMap == 0 && !fv.inBlock then
    let (u, c1) := genUniqueName name c
    ({ fv with varMap := assign p u fv.varMap }, c1)
  else (fv, c)

/-- The handler `visit(const GetProperty*)` on the node at address `p`. -/
def visitGetProperty (p : Nat) (tensor : Expr) (property : TensorProperty)
    (mode index : Int) (name : String) (fv : FindVars) (c : Nat) : FindVars × Nat :=
  if count p fv.varMap == 0 && !fv.inBlock then
    let key : PropertyKey := (tensor, property, mode, index)
    if count key fv.canonicalPropertyVar > 0 then
      ({ fv with varMap := assign p ((find key fv.canonicalPropertyVar).getD "") fv.varMap }, c)
    else
      let (unique_name, c1) := genUniqueName name c
      let fv1 := { fv with
        canonicalPropertyVar := assign key unique_name fv.canonicalPropertyVar,
        varMap := assign p unique_name fv.varMap,
        varDecls := assign p unique_name fv.varDecls }
      if fv1.outputTensors.contains tensor then
        ({ fv1 with outputProperties := assign key unique_name fv1.outputProperties }, c1)
      else (fv1, c1)
  else (fv, c)

/-- The part of `visit(const For*)` before it descends: the loop variable is
recorded as a local variable. -/
def visitForVar (var : Expr) (fv : FindVars) : FindVars :=
  if !fv.localVars.contains var then { fv with localVars := fv.localVars ++ [var] } else fv

/-- The part of `visit(const VarDecl*)` before it descends. -/
def visitVarDeclVar (var : Expr) (fv : FindVars) : FindVars :=
  if !fv.localVars.contains var && !fv.inBlock then
    { fv with localVars := fv.localVars ++ [var] } else fv

end FindVars

/-- One call of a handler of `FindVars` during a pass over a function body:
a `Var` node, a `GetProperty` node, or the loop variable of a `For` and the
variable of a `VarDecl` (whose handlers then descend into the children). -/
inductive FindVarsVisit where
  | var (p : Nat) (name : String)
  | getProperty (p : Nat) (tensor : Expr) (property : TensorProperty) (mode index : Int)
      (name : String)
  | forVar (var : Expr)
  | varDeclVar (var : Expr)
  deriving DecidableEq, Repr

/-- The effect of one handler call on the visitor and on the counter of
`genUniqueName`. -/
def FindVars.step (e : FindVarsVisit) (st : FindVars × Nat) : FindVars × Nat :=
  match e with
  | .var p name => FindVars.visitVar p name st.1 st.2
  | .getProperty p tensor property mode index name =>
    FindVars.visitGetProperty p tensor property mode index name st.1 st.2
  | .forVar var => (FindVars.visitForVar var st.1, st.2)
  | .varDeclVar var => (FindVars.visitVarDeclVar var st.1, st.2)

/-- A pass: the handler calls in the order in which they happen. -/
def FindVars.pass (es : List FindVarsVisit) (st : FindVars × Nat) : FindVars × Nat :=
  es.foldl (fun st e => FindVars.step e st) st

/-- The `GetProperty` nodes among the visits: address and tuple. -/
def gpNodes : List FindVarsVisit → List (Nat × PropertyKey)
  | [] => []
  | .getProperty p tensor property mode index _ :: rest =>
    (p, (tensor, property, mode, index)) :: gpNodes rest
  | _ :: rest => gpNodes rest

/-- The addresses of the `Var` nodes among the visits. -/
def varAddrs : List FindVarsVisit → List Nat
  | [] => []
  | .var p _ :: rest => p :: varAddrs rest
  | _ :: rest => varAddrs rest

/-! ## CodeGen_LLVM -/

namespace CodeGen_LLVM

def pushSymbol (name : String) (v : LValue) (g : CodeGen_LLVM) : Except Err CodeGen_LLVM := do
  let t ← g.symbolTable.insert name v
  pure { g with symbolTable := t }

def removeSymbol (name : String) (g : CodeGen_LLVM) : Except Err CodeGen_LLVM := do
  let t ← g.symbolTable.remove name
  pure { g with symbolTable := t }

def getSymbol (name : String) (g : CodeGen_LLVM) : Except Err LValue :=
  g.symbolTable.get name

def pushScope (g : CodeGen_LLVM) : CodeGen_LLVM :=
  { g with symbolTable := g.symbolTable.scope }

def popScope (g : CodeGen_LLVM) : CodeGen_LLVM :=
  { g with symbolTable := g.symbolTable.unscope }

/-- Convert from taco type to LLVM type. The LLVM context is created
together with the module by `init_codegen`. -/
def llvmTypeOf (t : Datatype) (g : CodeGen_LLVM) : Except Err LType :=
  if t.isComplex then .error (.terror "LLVM codegen for complex not yet supported")
  else if t.isFloat then
    match t.getNumBits with
    | 32 => if g.Module.isSome then .ok .float else .error (.nullDeref "Context")
    | 64 => if g.Module.isSome then .ok .double else .error (.nullDeref "Context")
    | _ => .error (.ierror "Unable to find LLVM type for ")
  else if t.isInt then
    if g.Module.isSome then .ok (.int t.getNumBits) else .error (.nullDeref "Context")
  else .error (.ierror "Unable to find llvm type for ")

/-- The function `init_codegen`: creates context, module, builder and the
tensor structure type, unless the module exists already. -/
def init_codegen (g : CodeGen_LLVM) : CodeGen_LLVM :=
  match g.Module with
  | some _ => g
  | none =>
    let i32 := LType.int 32
    let i32p := i32.getPointerTo
    let u8 := LType.int 8
    let u8p := u8.getPointerTo
    let u8ppp := u8.getPointerTo.getPointerTo.getPointerTo
    { g with
      Module := some
        { name := "taco_module",
          structs := [("tensorStruct",
            [ i32,   /- order -/
              i32p,  /- dimension -/
              i32,   /- csize -/
              i32p,  /- mode_ordering -/
              i32p,  /- mode_types -/
              u8ppp, /- indices -/
              u8p,   /- vals -/
              i32    /- vals_size -/ ])],
          functions := [],
          declarations := [] },
      insertBlock := none,
      tensorStruct := some (.struct "tensorStruct"),
      tensorStructPtr := some (LType.struct "tensorStruct").getPointerTo }

/-- The payload of a literal read as an unsigned C integer of `bits` bits,
`e->getValue<uintN_t>()`. -/
def getValueU (bits : Nat) (value : Int) : Nat := (value % (2 : Int) ^ bits).toNat

/-- The payload of a literal read as a signed C integer of `bits` bits. -/
def getValueS (bits : Nat) (value : Int) : Int := toSigned bits (getValueU bits value)

/-- Call `llvm::ConstantInt::get(ty, v)` for an unsigned 64 bit `v`. -/
def ConstantIntGet (ty : LType) (v : Nat) : Except Err LValue :=
  match ty with
  | .int w => .ok (.constInt w (v % 2 ^ w))
  | _ => .error (.llvm "ConstantInt of a type that is not an integer type")

/-- Call `llvm::ConstantInt::getSigned(ty, v)` for a signed 64 bit `v`. -/
def ConstantIntGetSigned (ty : LType) (v : Int) : Except Err LValue :=
  match ty with
  | .int w => .ok (.constInt w (v % (2 : Int) ^ w).toNat)
  | _ => .error (.llvm "ConstantInt of a type that is not an integer type")

/-- The handler `visit(const Literal*)`. -/
def visitLiteral (type : Datatype) (value : Int) (g : CodeGen_LLVM) : Except Err LValue :=
  if type.isFloat then do
    let ty ← llvmTypeOf type g
    pure (.constFP ty (.lit value))
  else if type.isUInt then
    match type.getNumBits with
    | 8 => do ConstantIntGet (← llvmTypeOf type g) (getValueU 8 value)
    | 16 => do ConstantIntGet (← llvmTypeOf type g) (getValueU 16 value)
    | 32 => do ConstantIntGet (← llvmTypeOf type g) (getValueU 32 value)
    | 64 => do ConstantIntGet (← llvmTypeOf type g) (getValueU 64 value)
    | 128 => do ConstantIntGet (← llvmTypeOf type g) (getValueU 64 value)
    | _ => .error (.ierror "Unable to generate LLVM for literal ")
  else if type.isInt then
    match type.getNumBits with
    | 8 => do ConstantIntGetSigned (← llvmTypeOf type g) (getValueS 8 value)
    | 16 => do ConstantIntGetSigned (← llvmTypeOf type g) (getValueS 16 value)
    | 32 => do ConstantIntGetSigned (← llvmTypeOf type g) (getValueS 32 value)
    | 64 => do ConstantIntGetSigned (← llvmTypeOf type g) (getValueS 64 value)
    | 128 => do ConstantIntGetSigned (← llvmTypeOf type g) (getValueS 64 value)
    | _ => .error (.ierror "Unable to generate LLVM for literal ")
  else .error (.ierror "Unable to generate LLVM for literal ")

/-- The handler `visit(const Var*)`. -/
def visitVar (name : String) (g : CodeGen_LLVM) : Except Err (LValue × CodeGen_LLVM) := do
  let v ← g.getSymbol name
  if v.getType.isPointerTy then g.CreateLoad v name else pure (v, g)

def tensorPropertyToString : TensorProperty → String
  | .Order => "Order"
  | .Dimension => "Dimension"
  | .ComponentSize => "ComponentSize"
  | .ModeOrdering => "ModeOrdering"
  | .ModeTypes => "ModeTypes"
  | .Indices => "Indices"
  | .Values => "Values"
  | .ValuesSize => "ValuesSize"

/-- The handler `visit(const GetProperty*)`. -/
def visitGetProperty (tensor : Expr) (property : TensorProperty) (type : Datatype)
    (g : CodeGen_LLVM) : Except Err (LValue × CodeGen_LLVM) :=
  match tensor with
  | .Var _ name _ => do
    let tensor ← g.getSymbol name
    let tensorType_pp := (← llvmTypeOf type g).getPointerTo.getPointerTo
    match property with
    | .Dimension =>
      let (dim, g) ← g.CreateStructGEP tensor TensorProperty.Dimension.toNat (name ++ ".gep.dim")
      let (p, g) ← g.CreateLoad dim ""
      g.CreateLoad p (name ++ ".dim")
    | .Values =>
      let (gep, g) ← g.CreateStructGEP tensor TensorProperty.Values.toNat ""
      let (bitcast, g) ← g.CreateBitCast gep tensorType_pp
      g.CreateLoad bitcast (name ++ ".vals")
    | .Order | .ComponentSize | .ModeOrdering | .ModeTypes | .Indices =>
      let (gep, g) ← g.CreateStructGEP tensor TensorProperty.Indices.toNat ""
      let (bitcast, g) ← g.CreateBitCast gep tensorType_pp
      g.CreateLoad bitcast (name ++ ".indices")
    | .ValuesSize =>
      .error (.logic_error ("GetProperty not implemented for " ++ tensorPropertyToString property))
  | _ => .error (.nullDeref "op->tensor.as<Var>()")

/-- The function `codegen(Expr)`: dispatch on the node kind; every handler
either yields a value or raises. -/
def codegenExpr : Expr → CodeGen_LLVM → Except Err (LValue × CodeGen_LLVM)
  | .Literal type value, g => do
    let v ← visitLiteral type value g
    pure (v, g)
  | .Var _ name _, g => visitVar name g
  | .Neg _, _ => .error (.logic_error "Not Implemented for Neg.")
  | .Sqrt _, _ => .error (.logic_error "Not Implemented for Sqrt.")
  | .Add type a b, g => do
    let (a, g) ← codegenExpr a g
    let (b, g) ← codegenExpr b g
    if type.isFloat then g.CreateFAdd a b else g.CreateAdd a b ""
  | .Sub _ _, _ => .error (.logic_error "Not Implemented for Sub.")
  | .Mul type a b, g => do
    let (a, g) ← codegenExpr a g
    let (b, g) ← codegenExpr b g
    if type.isFloat then g.CreateFMul a b else g.CreateMul a b ""
  | .Div _ _, _ => .error (.logic_error "Not Implemented for Div.")
  | .Rem _ _, _ => .error (.logic_error "Not Implemented for Rem.")
  | .Min _ _, _ => .error (.logic_error "Not Implemented for Min.")
  | .Max _ _, _ => .error (.logic_error "Not Implemented for Max.")
  | .BitAnd _ _, _ => .error (.logic_error "Not Implemented for BitAnd.")
  | .BitOr _ _, _ => .error (.logic_error "Not Implemented for BitOr.")
  | .Eq _ _, _ => .error (.logic_error "Not Implemented for Eq.")
  | .Neq _ _, _ => .error (.logic_error "Not Implemented for Neq.")
  | .Gt _ _, _ => .error (.logic_error "Not Implemented for Gt.")
  | .Lt _ _, _ => .error (.logic_error "Not Implemented for Lt.")
  | .Gte _ _, _ => .error (.logic_error "Not Implemented for Gte.")
  | .Lte _ _, _ => .error (.logic_error "Not Implemented for Lte.")
  | .And _ _, _ => .error (.logic_error "Not Implemented for And.")
  | .Or _ _, _ => .error (.logic_error "Not Implemented for Or.")
  | .Cast _ _, _ => .error (.logic_error "Not Implemented for Cast.")
  | .Call _ _ _, _ => .error (.logic_error "Not Implemented for Call.")
  | .Load arr loc, g => do
    let (loc, g) ← codegenExpr loc g
    let (arr, g) ← codegenExpr arr g
    let (gep, g) ← g.CreateInBoundsGEP arr loc
    g.CreateLoad gep ""
  | .Malloc _, _ => .error (.logic_error "Not Implemented for Malloc.")
  | .Sizeof _, _ => .error (.logic_error "Not Implemented for Sizeof.")
  | .GetProperty _ tensor property _ _ _ type, g => visitGetProperty tensor property type g

/-- The helper `emitExternalCall`: declares the callee in the module if it is
not declared yet, and calls it. -/
def emitExternalCall (funcName : String) (returnType : LType) (argTypes : List LType)
    (args : List LValue) (name : String) (g : CodeGen_LLVM) :
    Except Err (LValue × CodeGen_LLVM) :=
  match g.Module with
  | none => .error (.nullDeref "Module")
  | some m =>
    let decls :=
      if m.declarations.any (fun d => d.name == funcName) then m.declarations
      else m.declarations ++ [⟨funcName, returnType, argTypes⟩]
    emit (.call funcName args) returnType name
      { g with Module := some { m with declarations := decls } }

/-- Steps 1 to 5 of `visit(const Function*)`: the inputs and outputs are
checked by constructing a `FindVars`, and a function with one tensor structure
pointer per input and output, and an `entry` block, is created. -/
def createFunction (name : String) (inputs outputs : List Expr) (g : CodeGen_LLVM) :
    Except Err CodeGen_LLVM := do
  let _varFinder ← FindVars.new inputs outputs
  let n_args := inputs.length + outputs.length
  match g.Module, g.tensorStructPtr with
  | some m, some tsp =>
    let args := List.replicate n_args tsp
    let fn : LFunction :=
      { name := name, retTy := .int 32, args := args.map (fun t => ⟨"", t, []⟩), blocks := [] }
    let g1 : CodeGen_LLVM :=
      { g with Module := some { m with functions := m.functions ++ [fn] },
               Func := some m.functions.length }
    let (entry, g2) ← g1.BasicBlockCreate "entry"
    pure (g2.SetInsertPoint entry)
  | _, _ => .error (.nullDeref "Module")

/-- The calls `arg.setName(name)` and `arg.addAttr(NoCapture)` on argument
`idx` of a function. -/
def setArg (idx : Nat) (name : String) (fn : LFunction) : LFunction :=
  match modifyNth (fun a => { a with name := name, attrs := a.attrs ++ [Attr.NoCapture] })
      idx fn.args with
  | some args => { fn with args := args }
  | none => fn

/-- Step 6 of `visit(const Function*)`, the loop over the arguments of the new
function: argument `idx` is named after, and bound in the symbol table to,
output `idx` when there is one, and input `idx - outputs.size()` otherwise.
`remaining` counts the arguments still to go. -/
def bindArgs (inputs outputs : List Expr) : Nat → Nat → CodeGen_LLVM → Except Err CodeGen_LLVM
  | 0, _, g => .ok g
  | remaining + 1, idx, g =>
    let var := if idx < outputs.length then outputs.get? idx
               else inputs.get? (idx - outputs.length)
    match var, g.Func, g.curFunc with
    | some (.Var _ name _), some fi, some fn =>
      match fn.args.get? idx with
      | some a => do
        let g1 ← g.modifyFunc (setArg idx name)
        let g2 ← g1.pushSymbol name (.arg fi idx a.ty)
        bindArgs inputs outputs remaining (idx + 1) g2
      | none => .error (.nullDeref "arg")
    | _, _, _ => .error (.nullDeref "as<Var>()")

/-- Steps 1 to 6 of `visit(const Function*)`: everything before the body. -/
def functionPrologue (name : String) (inputs outputs : List Expr) (g : CodeGen_LLVM) :
    Except Err CodeGen_LLVM := do
  let g1 ← createFunction name inputs outputs g
  bindArgs inputs outputs (inputs.length + outputs.length) 0 g1.pushScope

/-- Steps 8 and 9 of `visit(const Function*)`: the exit block that returns 0.
The result of `llvm::verifyModule` is not looked at. -/
def functionEpilogue (g : CodeGen_LLVM) : Except Err CodeGen_LLVM := do
  let (exit, g) ← g.BasicBlockCreate "exit"
  let g ← g.CreateBr exit
  let g := g.SetInsertPoint exit
  g.CreateRet (.constInt 32 0)

mutual
/-- The statement handlers of `CodeGen_LLVM`, `stmt.accept(this)`. -/
def visit : Stmt → CodeGen_LLVM → Except Err CodeGen_LLVM
  | .null, _ => .error (.nullDeref "stmt.accept")
  | .IfThenElse cond then_ otherwise, g => do
    let (true_bb, g) ← g.BasicBlockCreate "true_bb"
    let (false_bb, g) ← g.BasicBlockCreate "false_ bb"
    let (after_bb, g) ← g.BasicBlockCreate "after_bb"
    let (c, g) ← codegenExpr cond g
    let g ← g.CreateCondBr c true_bb false_bb
    let g := g.SetInsertPoint true_bb
    let g ← visit then_ g
    let g ← g.CreateBr after_bb
    let g ← (match otherwise with
      | .null => pure g
      | _ => visit otherwise g)
    let g ← g.CreateBr after_bb
    pure (g.SetInsertPoint after_bb)
  | .Case _ _, _ => .error (.logic_error "Not Implemented for Case.")
  | .Switch _ _, _ => .error (.logic_error "Not Implemented for Switch.")
  | .Store arr loc data, g => do
    let (loc, g) ← codegenExpr loc g
    let (arr, g) ← codegenExpr arr g
    let (gep, g) ← g.CreateInBoundsGEP arr loc
    let (data, g) ← codegenExpr data g
    g.CreateStore data gep
  | .For var start end_ increment contents, g => do
    let (start, g) ← codegenExpr start g
    let (end_, g) ← codegenExpr end_ g
    if !start.getType.isIntegerTy then throw (Err.ierror "start->getType()->isIntegerTy()")
    if !end_.getType.isIntegerTy then throw (Err.ierror "end->getType()->isIntegerTy()")
    let pre_header ← g.GetInsertBlock
    let (header, g) ← g.BasicBlockCreate "for_header"
    let (body, g) ← g.BasicBlockCreate "for_body"
    let (latch, g) ← g.BasicBlockCreate "for_latch"
    let (exit, g) ← g.BasicBlockCreate "for_exit"
    let g ← g.CreateBr header
    let g := g.SetInsertPoint header
    match var with
    | .Var _ name _ =>
      let phiId := g.nextValue
      let (phi, g) ← g.CreatePHI start.getType name
      let g ← g.pushSymbol name phi
      let (cond, g) ← g.CreateICmpSLT phi end_
      let g ← g.CreateCondBr cond body exit
      let g := g.SetInsertPoint latch
      let (inc, g) ← codegenExpr increment g
      let (incr, g) ← g.CreateAdd phi inc ""
      let g ← g.CreateBr header
      let g ← g.addIncoming phiId start pre_header
      let g ← g.addIncoming phiId incr latch
      let g := g.SetInsertPoint body
      let g ← visit contents g
      let g ← g.CreateBr latch
      let g := g.SetInsertPoint exit
      g.removeSymbol name
    | _ => .error (.nullDeref "op->var.as<Var>()")
  | .While _ _, _ => .error (.logic_error "Not Implemented for While")
  | .Block contents, g => visitAll contents g
  | .Scope scopedStmt, g => do
    let g := g.pushScope
    let g ← visit scopedStmt g
    pure g.popScope
  | .Function name body inputs outputs, g => do
    let g ← functionPrologue name inputs outputs g
    let g ← visit body g
    functionEpilogue g
  | .VarDecl var rhs, g =>
    match var with
    | .Var _ name _ => do
      let rhs_llvm_type ← llvmTypeOf rhs.type g
      let (ptr, g) ← g.CreateAlloca rhs_llvm_type
      let (v, g) ← codegenExpr rhs g
      let g ← g.CreateStore v ptr
      g.pushSymbol name ptr
    | _ => .error (.nullDeref "op->var.as<Var>()")
  | .Assign _ _, _ => .error (.logic_error "Not Implemented for Assign.")
  | .Yield _, _ => .error (.logic_error "Not Implemented for Yield.")
  | .Allocate var num_elements is_realloc, g => do
    let voidptr := (LType.int 8).getPointerTo
    let i64 := LType.int 64
    let (var, g) ← codegenExpr var g
    let (n, g) ← codegenExpr num_elements g
    let (num_elements, g) ← g.CreateZExt n i64
    if is_realloc then
      let (size, g) ← g.CreateMul num_elements (.constInt 64 4) "realloc.size"
      let (_, g) ← g.emitExternalCall "realloc" voidptr [voidptr, i64] [var, size] "realloc.ret"
      pure g
    else
      let size := LValue.constInt 64 4
      let (_, g) ← g.emitExternalCall "calloc" voidptr [i64, i64] [num_elements, size] "calloc.ret"
      pure g
  | .Free _, _ => .error (.logic_error "Not Implemented for Free.")
  | .Comment _, _ => .error (.logic_error "Not Implemented for Comment.")
  | .BlankLine, g => .ok g
  | .Break, _ => .error (.logic_error "Not Implemented for Break.")
  | .Print _, _ => .error (.logic_error "Not Implemented for Print.")
/-- The loop of `visit(const Block*)` over the statements of a block. -/
def visitAll : List Stmt → CodeGen_LLVM → Except Err CodeGen_LLVM
  | [], g => .ok g
  | s :: rest, g => do
    let g ← visit s g
    visitAll rest g
end

/-- The entry point `compile(stmt, isFirst)`. -/
def compile (stmt : Stmt) (isFirst : Bool) (g : CodeGen_LLVM) : Except Err CodeGen_LLVM :=
  let _ := isFirst
  visit stmt g.init_codegen

end CodeGen_LLVM

/-! ## The dense addition kernel -/

/-- The tensor variable of a given address and name. -/
def tensorVar (p : Nat) (name : String) : Expr := .Var p name Datatype.Int32

/-- The three tensors of the addition kernel. -/
inductive KernelTensor where
  | A | B | C
  deriving DecidableEq, Repr

/-- The variable of a tensor of the kernel. -/
def KernelTensor.var : KernelTensor → Expr
  | .A => tensorVar 1 "A"
  | .B => tensorVar 2 "B"
  | .C => tensorVar 3 "C"

/-- The name of a tensor of the kernel. -/
def KernelTensor.name : KernelTensor → String
  | .A => "A"
  | .B => "B"
  | .C => "C"

/-- The position of a tensor among the parameters (outputs first). -/
def KernelTensor.index : KernelTensor → Nat
  | .A => 0
  | .B => 1
  | .C => 2

/-- The lowered kernel `for i in [0, n): A_vals[i] = B_vals[i] + C_vals[i]`,
with outputs `[A]`, inputs `[B, C]` and the bound read as the dimension of
mode 0 of the tensor `d`. -/
def addKernel (d : KernelTensor) : Stmt :=
  let A := tensorVar 1 "A"
  let B := tensorVar 2 "B"
  let C := tensorVar 3 "C"
  let i := Expr.Var 4 "i" Datatype.Int32
  let vals (p : Nat) (t : Expr) (n : String) : Expr :=
    .GetProperty p t .Values 0 0 n Datatype.Int32
  .Function "compute"
    (.For i (.Literal Datatype.Int32 0)
        (.GetProperty 5 d.var .Dimension 0 0 (d.name ++ "1_dimension") Datatype.Int32)
        (.Literal Datatype.Int32 1)
      (.Store (vals 6 A "A_vals") i
        (.Add Datatype.Int32 (.Load (vals 7 B "B_vals") i) (.Load (vals 8 C "C_vals") i))))
    [B, C] [A]

/-! ## Running generated code

Memory is a list of blocks, each a list of cells; a pointer is a block and
a cell offset into it. A tensor structure is a block of eight cells, an
array a block with one cell per element. Integers are bit patterns. -/

/-- Run time values. -/
inductive Val where
  | int (bits : Nat) (v : Nat)
  | ptr (block : Nat) (off : Nat)
  | undef
  deriving DecidableEq, Repr

/-- The state of a running function: memory and the values of the
instructions executed so far (most recent first). -/
structure Machine where
  mem : List (List Val)
  regs : List (Nat × Val)
  deriving DecidableEq, Repr

/-- What executing a basic block leads to. -/
inductive Outcome where
  | jump (dest : Nat) (m : Machine)
  | ret (v : Val) (m : Machine)
  deriving DecidableEq, Repr

/-- The value of an operand. -/
def evalOperand (args : List Val) (regs : List (Nat × Val)) : LValue → Option Val
  | .constInt w v => some (.int w v)
  | .constFP _ _ => none
  | .arg _ k _ => args[k]?
  | .inst id _ => regs.lookup id

/-- The cell a pointer points to. -/
def loadCell (mem : List (List Val)) (b o : Nat) : Option Val :=
  match mem[b]? with
  | some blk => blk[o]?
  | none => none

/-- Memory after writing a cell; `none` when the pointer is out of bounds. -/
def storeCell (mem : List (List Val)) (b o : Nat) (v : Val) : Option (List (List Val)) :=
  match mem[b]? with
  | some blk => if o < blk.length then some (mem.set b (blk.set o v)) else none
  | none => none

/-- The value computed by an instruction that is neither a terminator, a
store, an allocation nor a PHI node. Floating point arithmetic and external
calls are not interpreted. -/
def evalOp (args : List Val) (m : Machine) : Op → Option Val
  | .load p =>
    match evalOperand args m.regs p with
    | some (.ptr b o) => loadCell m.mem b o
    | _ => none
  | .structGEP p idx =>
    match evalOperand args m.regs p with
    | some (.ptr b o) => some (.ptr b (o + idx))
    | _ => none
  | .inBoundsGEP p idx =>
    match evalOperand args m.regs p, evalOperand args m.regs idx with
    | some (.ptr b o), some (.int w x) =>
      if 0 ≤ (o : Int) + CodeGen_LLVM.toSigned w x
      then some (.ptr b ((o : Int) + CodeGen_LLVM.toSigned w x).toNat) else none
    | _, _ => none
  | .bitCast v _ => evalOperand args m.regs v
  | .add a b =>
    match evalOperand args m.regs a, evalOperand args m.regs b with
    | some (.int w x), some (.int w2 y) =>
      if w = w2 then some (.int w ((x + y) % 2 ^ w)) else none
    | _, _ => none
  | .mul a b =>
    match evalOperand args m.regs a, evalOperand args m.regs b with
    | some (.int w x), some (.int w2 y) =>
      if w = w2 then some (.int w ((x * y) % 2 ^ w)) else none
    | _, _ => none
  | .icmpSLT a b =>
    match evalOperand args m.regs a, evalOperand args m.regs b with
    | some (.int w x), some (.int w2 y) =>
      if w = w2 then
        some (.int 1 (if CodeGen_LLVM.toSigned w x < CodeGen_LLVM.toSigned w y then 1 else 0))
      else none
    | _, _ => none
  | .zext v ty =>
    match evalOperand args m.regs v, ty with
    | some (.int _ x), .int w2 => some (.int w2 x)
    | _, _ => none
  | _ => none

/-- Execute the instructions of a block up to its first terminator. `prev`
is the block control came from and `regs0` the values on entry, which PHI
nodes read. A block that ends without terminator has no outcome. -/
def execInsts (args : List Val) (prev : Option Nat) (regs0 : List (Nat × Val)) :
    List Inst → Machine → Option Outcome
  | [], _ => none
  | i :: rest, m =>
    match i.op with
    | .br d => some (.jump d m)
    | .condBr c t f =>
      match evalOperand args m.regs c with
      | some (.int 1 1) => some (.jump t m)
      | some (.int 1 0) => some (.jump f m)
      | _ => none
    | .ret v =>
      match evalOperand args m.regs v with
      | some r => some (.ret r m)
      | none => none
    | .store val p =>
      match evalOperand args m.regs val, evalOperand args m.regs p with
      | some v, some (.ptr b o) =>
        match storeCell m.mem b o v with
        | some mem1 => execInsts args prev regs0 rest { m with mem := mem1 }
        | none => none
      | _, _ => none
    | .alloca _ =>
      execInsts args prev regs0 rest
        { mem := m.mem ++ [[Val.undef]], regs := (i.id, .ptr m.mem.length 0) :: m.regs }
    | .phi incoming =>
      match prev with
      | none => none
      | some pb =>
        match (incoming.find? (fun vb => vb.2 == pb)) with
        | some (v, _) =>
          match evalOperand args regs0 v with
          | some r => execInsts args prev regs0 rest { m with regs := (i.id, r) :: m.regs }
          | none => none
        | none => none
    | op =>
      match evalOp args m op with
      | some r => execInsts args prev regs0 rest { m with regs := (i.id, r) :: m.regs }
      | none => none

/-- Run a function from block `cur`, entered from `prev`, for at most `fuel`
blocks. The result is the returned value and the final memory. -/
def run (fn : LFunction) (args : List Val) :
    Nat → Nat → Option Nat → Machine → Option (Val × List (List Val))
  | 0, _, _, _ => none
  | fuel + 1, cur, prev, m =>
    match fn.blocks[cur]? with
    | none => none
    | some b =>
      match execInsts args prev m.regs b.insts m with
      | some (.jump d m1) => run fn args fuel d (some cur) m1
      | some (.ret v m1) => some (v, m1.mem)
      | none => none

/-- Call a function on arguments in a memory. -/
def callFunction (fn : LFunction) (args : List Val) (mem : List (List Val)) (fuel : Nat) :
    Option (Val × List (List Val)) :=
  run fn args fuel 0 none { mem := mem, regs := [] }

/-- An `int32_t` as a cell: its 32 bit pattern. -/
def i32 (x : Int) : Val := .int 32 (x % (2 : Int) ^ 32).toNat

/-- The tensor structure of a dense vector of `n` elements whose dimension
array is block `d`, whose values are block `v`, and whose mode ordering, mode
types and indices are blocks `mo`, `mt` and `ix`. -/
def tensorStructCells (n : Nat) (d mo mt ix v : Nat) : List Val :=
  [ i32 1, .ptr d 0, i32 32, .ptr mo 0, .ptr mt 0, .ptr ix 0, .ptr v 0, i32 n ]

/-- A memory holding three dense vectors `A`, `B`, `C` of dimension `n` with
values `a`, `b`, `c`: blocks 0 to 2 are the tensor structures, 3 to 5 the
dimension arrays, 6 to 8 the value arrays, 9 to 11 the mode orderings, 12 to 14
the mode types and 15 to 17 the (empty) index arrays. -/
def denseMemory (n : Nat) (a b c : List Val) : List (List Val) :=
  [ tensorStructCells n 3 9 12 15 6,
    tensorStructCells n 4 10 13 16 7,
    tensorStructCells n 5 11 14 17 8,
    [i32 n], [i32 n], [i32 n],
    a, b, c,
    [i32 0], [i32 0], [i32 0],
    [i32 0], [i32 0], [i32 0],
    [], [], [] ]

/-- The function of the module that `compile` builds for a statement with a
fresh generator. -/
def generatedFunction (stmt : Stmt) : Option LFunction :=
  match CodeGen_LLVM.compile stmt true CodeGen_LLVM.new with
  | .ok g => g.curFunc
  | .error _ => none

/-- The type of a pointer to the tensor structure. -/
def tensorStructPtrTy : LType := .ptr (.struct "tensorStruct")

/-- The code that `compile` builds for `addKernel d`, written out. -/
def addKernelCode (d : KernelTensor) : LFunction :=
  let tsp := tensorStructPtrTy
  let i32t := LType.int 32
  let p32 := LType.ptr (.int 32)
  let pp32 := LType.ptr (.ptr (.int 32))
  let pp8 := LType.ptr (.ptr (.int 8))
  { name := "compute",
    retTy := i32t,
    args := [⟨"A", tsp, [.NoCapture]⟩, ⟨"B", tsp, [.NoCapture]⟩, ⟨"C", tsp, [.NoCapture]⟩],
    blocks :=
      [ ⟨"entry",
          [ ⟨0, pp32, .structGEP (.arg 0 d.index tsp) 1, d.name ++ ".gep.dim"⟩,
            ⟨1, p32, .load (.inst 0 pp32), ""⟩,
            ⟨2, i32t, .load (.inst 1 p32), d.name ++ ".dim"⟩,
            ⟨3, .void, .br 1, ""⟩ ]⟩,
        ⟨"for_header",
          [ ⟨4, i32t, .phi [(.constInt 32 0, 0), (.inst 7 i32t, 3)], "i"⟩,
            ⟨5, .int 1, .icmpSLT (.inst 4 i32t) (.inst 2 i32t), ""⟩,
            ⟨6, .void, .condBr (.inst 5 (.int 1)) 2 4, ""⟩ ]⟩,
        ⟨"for_body",
          [ ⟨9, pp8, .structGEP (.arg 0 0 tsp) 6, ""⟩,
            ⟨10, pp32, .bitCast (.inst 9 pp8) pp32, ""⟩,
            ⟨11, p32, .load (.inst 10 pp32), "A.vals"⟩,
            ⟨12, p32, .inBoundsGEP (.inst 11 p32) (.inst 4 i32t), ""⟩,
            ⟨13, pp8, .structGEP (.arg 0 1 tsp) 6, ""⟩,
            ⟨14, pp32, .bitCast (.inst 13 pp8) pp32, ""⟩,
            ⟨15, p32, .load (.inst 14 pp32), "B.vals"⟩,
            ⟨16, p32, .inBoundsGEP (.inst 15 p32) (.inst 4 i32t), ""⟩,
            ⟨17, i32t, .load (.inst 16 p32), ""⟩,
            ⟨18, pp8, .structGEP (.arg 0 2 tsp) 6, ""⟩,
            ⟨19, pp32, .bitCast (.inst 18 pp8) pp32, ""⟩,
            ⟨20, p32, .load (.inst 19 pp32), "C.vals"⟩,
            ⟨21, p32, .inBoundsGEP (.inst 20 p32) (.inst 4 i32t), ""⟩,
            ⟨22, i32t, .load (.inst 21 p32), ""⟩,
            ⟨23, i32t, .add (.inst 17 i32t) (.inst 22 i32t), ""⟩,
            ⟨24, .void, .store (.inst 23 i32t) (.inst 12 p32), ""⟩,
            ⟨25, .void, .br 3, ""⟩ ]⟩,
        ⟨"for_latch",
          [ ⟨7, i32t, .add (.inst 4 i32t) (.constInt 32 1), ""⟩,
            ⟨8, .void, .br 1, ""⟩ ]⟩,
        ⟨"for_exit", [ ⟨26, .void, .br 5, ""⟩ ]⟩,
        ⟨"exit", [ ⟨27, .void, .ret (.constInt 32 0), ""⟩ ]⟩ ] }

/-- The arguments of the kernel: pointers to the structures of A, B and C. -/
def kernelArgs : List Val := [.ptr 0 0, .ptr 1 0, .ptr 2 0]

/-- The values the kernel has to leave in `A`. -/
def sums (B C : List Int) : List Val := List.zipWith (fun b c => i32 (b + c)) B C

/-- The values recorded by the body of the loop. -/
def bodyRegs (i x y : Nat) (regs : List (Nat × Val)) : List (Nat × Val) :=
  (23, .int 32 ((x + y) % 2 ^ 32)) :: (22, .int 32 y) :: (21, .ptr 8 i) :: (20, .ptr 8 0) ::
  (19, .ptr 2 6) :: (18, .ptr 2 6) :: (17, .int 32 x) :: (16, .ptr 7 i) :: (15, .ptr 7 0) ::
  (14, .ptr 1 6) :: (13, .ptr 1 6) :: (12, .ptr 6 i) :: (11, .ptr 6 0) :: (10, .ptr 0 6) ::
  (9, .ptr 0 6) :: regs

/-- Memory when the first `i` elements of `A` have been computed. -/
def memAt (n i : Nat) (a : List Val) (B C : List Int) : List (List Val) :=
  denseMemory n ((sums B C).take i ++ a.drop i) (B.map i32) (C.map i32)

/-- The bit pattern of element `i` of an array of `int32_t`. -/
def bitsAt (l : List Int) (i : Nat) : Nat := ((l.getD i 0) % (2 : Int) ^ 32).toNat

/-- The name of a variable node (empty for any other node). -/
def varName : Expr → String
  | .Var _ name _ => name
  | _ => ""

/-- Whether an expression is a `Var` node. -/
def isVar : Expr → Bool
  | .Var _ _ _ => true
  | _ => false

/-- The generator state in which the body of the kernel is visited: a fresh
generator after `init_codegen` and the prologue of the function. -/
def kernelPrologue : Except Err CodeGen_LLVM :=
  CodeGen_LLVM.functionPrologue "compute" [tensorVar 2 "B", tensorVar 3 "C"] [tensorVar 1 "A"]
    CodeGen_LLVM.new.init_codegen

/-- The state of `kernelPrologue` as a value. -/
def kernelEntryState : CodeGen_LLVM :=
  match kernelPrologue with
  | .ok g => g
  | .error _ => CodeGen_LLVM.new

/-- The node `GetProperty(A, Order, 0, 0)`. -/
def orderOfA : Expr := .GetProperty 9 (tensorVar 1 "A") .Order 0 0 "A_order" Datatype.Int32

/-- The generator state after visiting an expression (unchanged on error). -/
def stateAfter (e : Expr) (g : CodeGen_LLVM) : CodeGen_LLVM :=
  match CodeGen_LLVM.codegenExpr e g with
  | .ok (_, g1) => g1
  | .error _ => g

/-- The operations of the instructions of the current function, block by
block. -/
def emittedOps (g : CodeGen_LLVM) : Option (List (List Op)) :=
  g.curFunc.map (fun f => f.blocks.map (fun b => b.insts.map (fun i => i.op)))

/-- The state that the constructor of `FindVars` leaves for the inputs
`[B, C]` and the output `[A]`. -/
def exampleFindVars : FindVars :=
  match FindVars.new [tensorVar 2 "B", tensorVar 3 "C"] [tensorVar 1 "A"] with
  | .ok fv => fv
  | .error _ => ⟨[], [], [], [], [], [], [], false⟩

/-- A pass: the values of `A` are read through node 6, the loop variable is
visited, the values of `B` are read through node 7, the values of `A` again
through another node 10 and once more through node 6. -/
def exampleVisits : List FindVarsVisit :=
  [ .getProperty 6 (tensorVar 1 "A") .Values 0 0 "A_vals",
    .forVar (.Var 4 "i" Datatype.Int32),
    .var 4 "i",
    .getProperty 7 (tensorVar 2 "B") .Values 0 0 "B_vals",
    .getProperty 10 (tensorVar 1 "A") .Values 0 0 "A_vals",
    .getProperty 6 (tensorVar 1 "A") .Values 0 0 "A_vals" ]

/-- The invariant of a pass of `FindVars`: `G` are all `GetProperty` nodes
of the function, `seen` the ones visited so far. -/
structure FindVarsInv (G seen : List (Nat × PropertyKey)) (fv : FindVars) : Prop where
  inBlock : fv.inBlock = false
  sub : ∀ x ∈ seen, x ∈ G
  named : ∀ p k, (p, k) ∈ seen →
    ∃ u, FindVars.find p fv.varMap = some u ∧ FindVars.find k fv.canonicalPropertyVar = some u
  keys : ∀ k u, FindVars.find k fv.canonicalPropertyVar = some u → ∃ p, (p, k) ∈ seen
  addrs : ∀ p k, (p, k) ∈ G → ∀ u, FindVars.find p fv.varMap = some u → ∃ k1, (p, k1) ∈ seen

/-! ## Module: generation, toolchain, loading (`module.cpp`) -/

/-- Modelled from the spec: the target architectures. The declaration
(`taco/target.h`) is not among the sources; `module.cpp` distinguishes `C99`
from every other architecture. -/
inductive Arch where
  | C99
  | X86
  deriving DecidableEq, Repr

/-- Modelled from the spec: the target descriptor of a module (architecture,
compiler command and the environment variable that overrides it). -/
structure Target where
  arch : Arch
  compiler_env : String
  compiler : String
  deriving DecidableEq, Repr

/-- Modelled from the spec: the members of a `Module` object (`module.h` is
not among the sources). `header` and `source` are the contents of the two
string streams, `lib_handle = none` is the null handle. -/
structure Module where
  funcs : List Stmt
  tmpdir : String
  libname : String
  header : String
  source : String
  target : Target
  lib_handle : Option Nat
  moduleFromUserSource : Bool

/-- The files on disk: path and contents, most recently written first. -/
abbrev Files := List (String × String)

/-- Things a call into the module does that are visible from outside. -/
inductive Event where
  /-- A call of `sourcegen->compile`; `llvm` tells which generator ran. -/
  | generate (llvm : Bool)
  /-- A call of `headergen->compile`. -/
  | generateHeader
  /-- A call of `generateShim`. -/
  | generateShim
  /-- A file is opened for writing (truncated) and written. -/
  | writeFile (path : String)
  /-- A file is opened for appending and written. -/
  | appendFile (path : String)
  /-- A call of `system(cmd)`: the command, the files it finds, and the value
  the call returns (the termination status of the command, not its exit
  code). -/
  | system (cmd : String) (files : Files) (status : Int)
  | dlclose (handle : Nat)
  | dlopen (path : String)
  deriving DecidableEq, Repr

/-- Whether an event is a step of the external toolchain or of the loader. -/
def Event.isToolchain : Event → Bool
  | .system _ _ _ => true
  | .dlclose _ => true
  | .dlopen _ => true
  | _ => false

/-- The world outside the module: the files, the log of events, and the
state of the random engine `Module::gen`. -/
structure World where
  files : Files
  trace : List Event
  gen : Nat
  deriving DecidableEq, Repr

/-- What `module.cpp` uses and is defined elsewhere: the configuration
switches, the environment, the portable-C and header generators, the shim
generators, the bitcode writer, the process and loader interface, and the
random engine. -/
structure Env where
  should_use_CUDA_codegen : Bool
  should_use_LLVM_codegen : Bool
  USE_OPENMP : Bool
  getFromEnv : String → String → String
  get_default_CUDA_compiler_flags : String
  getTmpdir : String
  /-- The generator `CodeGen::init_default(source, ImplementationGen)` of the
  portable-C branch: the text it appends to `source` for a function. -/
  sourcegen_compile : Stmt → Bool → Except Err String
  /-- The generator `CodeGen::init_default(header, HeaderGen)`. -/
  headergen_compile : Stmt → Bool → Except Err String
  generateShim_C : Stmt → String
  generateShim_CUDA : Stmt → String
  WriteBitcodeToFile : LModule → String
  /-- What `system(cmd)` returns and the files the command leaves. The value
  returned is the termination status of the command in the format of
  `waitpid`, which is 0 when the command exits with code 0 and is not the exit
  code otherwise (see `WEXITSTATUS`). -/
  system : String → Files → Int × Files
  /-- The handle of the library loaded from a path, if it loads. -/
  dlopen : String → Files → Option Nat
  dlerror : String
  /-- The random engine: a state gives a number and the next state. -/
  engine : Nat → Nat × Nat

/-- Modelled from the spec: the exit code of a command that has terminated
normally, read from the value that `system` returns (the macro `WEXITSTATUS`
of `sys/wait.h`, which is not among the sources): bits 8 to 15 of the status. -/
def WEXITSTATUS (status : Int) : Int := (status / 256) % 256

/-- Modelled from the spec: the value that `system` returns for a command
that exits with the code `code` (below 256): the code in bits 8 to 15. -/
def exitedWith (code : Nat) : Int := 256 * (code : Int)

/-- Write a file, replacing its contents. -/
def writeFile (path content : String) (w : World) : World :=
  { w with files := (path, content) :: w.files.filter (fun f => f.1 != path),
           trace := w.trace ++ [.writeFile path] }

/-- Append to a file, creating it if it does not exist. -/
def appendFile (path content : String) (w : World) : World :=
  { w with files := (path, (w.files.lookup path).getD "" ++ content) ::
             w.files.filter (fun f => f.1 != path),
           trace := w.trace ++ [.appendFile path] }

/-- Add an event to the log. -/
def World.log (e : Event) (w : World) : World := { w with trace := w.trace ++ [e] }

namespace Module

/-- The alphabet of library names. -/
def chars : String := "abcdefghijkmnpqrstuvwxyz0123456789"

/-- The distribution `randint`, `uniform_int_distribution<int>(0,
chars.length() - 1)`, applied to the engine: a number between the two bounds
(inclusive) and the next state of the engine. -/
def randint (env : Env) (gen : Nat) : Nat × Nat :=
  let lo := 0
  let hi := chars.length - 1
  let (r, gen1) := env.engine gen
  (lo + r % (hi - lo + 1), gen1)

/-- The indices that `count` successive draws of `randint` give. -/
def draws (env : Env) : Nat → Nat → List Nat × Nat
  | 0, gen => ([], gen)
  | count + 1, gen =>
    let (i, gen1) := randint env gen
    let (rest, gen2) := draws env count gen1
    (i :: rest, gen2)

/-- The member `setJITTmpdir`. -/
def setJITTmpdir (env : Env) (m : Module) : Module := { m with tmpdir := env.getTmpdir }

/-- The member `setJITLibname`: twelve characters `chars[randint(gen)]`. -/
def setJITLibname (env : Env) (m : Module) (w : World) : Module × World :=
  let (idx, gen1) := draws env 12 w.gen
  ({ m with libname := String.mk (idx.map (fun i => chars.get ⟨i⟩)) }, { w with gen := gen1 })

/-- The member `addFunction`. -/
def addFunction (func : Stmt) (m : Module) : Module := { m with funcs := m.funcs ++ [func] }

/-- The member `setSource`. -/
def setSource (source : String) (m : Module) : Module :=
  { m with source := m.source ++ source, moduleFromUserSource := true }

/-- The member `getSource`. -/
def getSource (m : Module) : String := m.source

/-- The loop over the functions in the portable-C branch of
`compileToSource`. -/
def generateDefault (env : Env) :
    List Stmt → Bool → Module → World → Except Err Unit × Module × World
  | [], _, m, w => (.ok (), m, w)
  | func :: rest, didGenRuntime, m, w =>
    match env.sourcegen_compile func (!didGenRuntime) with
    | .error e => (.error e, m, w.log (.generate false))
    | .ok s =>
      match env.headergen_compile func (!didGenRuntime) with
      | .error e =>
        (.error e, { m with source := m.source ++ s },
          (w.log (.generate false)).log .generateHeader)
      | .ok h =>
        generateDefault env rest true
          { m with source := m.source ++ s, header := m.header ++ h }
          ((w.log (.generate false)).log .generateHeader)

/-- The loop over the functions in the LLVM branch of `compileToSource`. -/
def generateLLVM (env : Env) :
    List Stmt → Bool → CodeGen_LLVM → Module → World →
      Except Err CodeGen_LLVM × Module × World
  | [], _, g, m, w => (.ok g, m, w)
  | func :: rest, didGenRuntime, g, m, w =>
    match g.compile func (!didGenRuntime) with
    | .error e => (.error e, m, w.log (.generate true))
    | .ok g1 =>
      match env.headergen_compile func (!didGenRuntime) with
      | .error e => (.error e, m, (w.log (.generate true)).log .generateHeader)
      | .ok h =>
        generateLLVM env rest true g1 { m with header := m.header ++ h }
          ((w.log (.generate true)).log .generateHeader)

/-- The part of `compileToSource` that runs the code generators. -/
def generate (env : Env) (path pfx : String) (m : Module) (w : World) :
    Except Err Unit × Module × World :=
  if !m.moduleFromUserSource then
    let m := { m with header := "", source := "" }
    if m.target.arch == Arch.C99 || !env.should_use_LLVM_codegen then
      generateDefault env m.funcs false m w
    else
      match generateLLVM env m.funcs false CodeGen_LLVM.new m w with
      | (.error e, m1, w1) => (.error e, m1, w1)
      | (.ok sourcegen, m1, w1) =>
        let bc_filename := path ++ pfx ++ ".bc"
        match sourcegen.Module with
        | none => (.error (.nullDeref "Module"), m1, writeFile bc_filename "" w1)
        | some md => (.ok (), m1, writeFile bc_filename (env.WriteBitcodeToFile md) w1)
  else (.ok (), m, w)

/-- The member `compileToSource`. -/
def compileToSource (env : Env) (path pfx : String) (m : Module) (w : World) :
    Except Err Unit × Module × World :=
  match generate env path pfx m w with
  | (.error e, m1, w1) => (.error e, m1, w1)
  | (.ok (), m1, w1) =>
    let file_ending := if env.should_use_CUDA_codegen then ".cu" else ".c"
    let w2 := writeFile (path ++ pfx ++ file_ending) m1.source w1
    let w3 := writeFile (path ++ pfx ++ ".h") m1.header w2
    (.ok (), m1, w3)

/-- The text of the shims of a list of functions. -/
def shimsText (env : Env) : List Stmt → String
  | [] => ""
  | func :: rest =>
    (if env.should_use_CUDA_codegen then env.generateShim_CUDA func
     else env.generateShim_C func) ++ shimsText env rest

/-- The function `writeShims`. -/
def writeShims (env : Env) (funcs : List Stmt) (path pfx : String) (w : World) : World :=
  let w1 : World := { w with trace := w.trace ++ funcs.map (fun _ => Event.generateShim) }
  let text := "#include \"" ++ path ++ pfx ++ ".h\"\n" ++ shimsText env funcs
  if env.should_use_CUDA_codegen then writeFile (path ++ pfx ++ "_shims.cpp") text w1
  else appendFile (path ++ pfx ++ ".c") text w1

/-- The call `system(cmd)`. -/
def runSystem (env : Env) (cmd : String) (w : World) : Int × World :=
  let r := env.system cmd w.files
  (r.1, { w with files := r.2, trace := w.trace ++ [.system cmd w.files r.1] })

/-- The message of the failed assertion after a toolchain command. -/
def compilationFailed (cmd : String) (err : Int) : Err :=
  .uerror ("Compilation command failed:\n" ++ cmd ++ "\nreturned " ++ toString err)

/-- The command line of the compiler in `compile`. -/
def compileCommand (env : Env) (m : Module) : String :=
  let pfx := m.tmpdir ++ m.libname
  let fullpath := pfx ++ ".so"
  let (cc, cflags, file_ending, shims_file) :=
    if env.should_use_CUDA_codegen then
      (env.getFromEnv "TACO_NVCC" "nvcc",
       env.getFromEnv "TACO_NVCCFLAGS" env.get_default_CUDA_compiler_flags,
       ".cu", pfx ++ "_shims.cpp")
    else if env.should_use_LLVM_codegen && !m.moduleFromUserSource then
      (env.getFromEnv m.target.compiler_env m.target.compiler,
       env.getFromEnv "TACO_CFLAGS" "-O3 -ffast-math" ++ " -shared -fPIC",
       ".o", pfx ++ ".c")
    else
      (env.getFromEnv m.target.compiler_env m.target.compiler,
       (env.getFromEnv "TACO_CFLAGS" "-O3 -ffast-math -std=c99" ++ " -shared -fPIC") ++
         (if env.USE_OPENMP then " -fopenmp" else ""),
       ".c", "")
  cc ++ " " ++ cflags ++ " " ++ pfx ++ file_ending ++ " " ++ shims_file ++ " " ++
    "-o " ++ fullpath ++ " -lm"

/-- The command line of the object-file step of `compile`. -/
def objectCommand (m : Module) : String :=
  let pfx := m.tmpdir ++ m.libname
  "llc --filetype=obj " ++ (pfx ++ ".bc") ++ " -o " ++ (pfx ++ ".o")

/-- The last part of `compile`: the compiler is run, the library loaded. -/
def compileAndLoad (env : Env) (cmd fullpath : String) (m : Module) (w : World) :
    Except Err String × Module × World :=
  let (err, w1) := runSystem env cmd w
  if err != 0 then (.error (compilationFailed cmd err), m, w1)
  else
    let w2 := match m.lib_handle with
      | some h => w1.log (.dlclose h)
      | none => w1
    let lib_handle := env.dlopen fullpath w2.files
    let w3 := w2.log (.dlopen fullpath)
    match lib_handle with
    | none =>
      (.error (.uerror ("Failed to load generated code, error is: " ++ env.dlerror)),
        { m with lib_handle := none }, w3)
    | some h => (.ok fullpath, { m with lib_handle := some h }, w3)

/-- The member `compile`. -/
def compile (env : Env) (m : Module) (w : World) : Except Err String × Module × World :=
  let pfx := m.tmpdir ++ m.libname
  let fullpath := pfx ++ ".so"
  let cmd := compileCommand env m
  match compileToSource env m.tmpdir m.libname m w with
  | (.error e, m1, w1) => (.error e, m1, w1)
  | (.ok (), m1, w1) =>
    let w2 := writeShims env m1.funcs m1.tmpdir m1.libname w1
    if env.should_use_LLVM_codegen && !m1.moduleFromUserSource then
      let obj_cmd := objectCommand m1
      let (err, w3) := runSystem env obj_cmd w2
      if err != 0 then (.error (compilationFailed obj_cmd err), m1, w3)
      else compileAndLoad env cmd fullpath m1 w3
    else compileAndLoad env cmd fullpath m1 w2

/-- A log without any step of the toolchain or the loader. -/
def quiet (trace : List Event) : Prop := ∀ e ∈ trace, e.isToolchain = false

/-- What the generation phase leaves alone: the log stays free of toolchain
steps, and the handle, the mode and the identification of the module are as in
`m`. -/
def Frame {α : Type} (m : Module) (r : α × Module × World) : Prop :=
  quiet r.2.2.trace ∧ r.2.1.lib_handle = m.lib_handle ∧
    r.2.1.moduleFromUserSource = m.moduleFromUserSource ∧ r.2.1.funcs = m.funcs ∧
    r.2.1.tmpdir = m.tmpdir ∧ r.2.1.libname = m.libname

end Module

/-- The contents of the file `path` as each toolchain command of a log found
it (`none` when the file did not exist). -/
def handedToToolchain (path : String) (trace : List Event) : List (Option String) :=
  trace.filterMap (fun e =>
    match e with
    | .system _ files _ => some (files.lookup path)
    | _ => none)

/-- The command lines run through `system`, in order. -/
def commandsRun (trace : List Event) : List String :=
  trace.filterMap (fun e =>
    match e with
    | .system cmd _ _ => some cmd
    | _ => none)

/-- The files written or appended to, in order. -/
def filesWritten (trace : List Event) : List String :=
  trace.filterMap (fun e =>
    match e with
    | .writeFile path => some path
    | .appendFile path => some path
    | _ => none)

/-- The code generators run on functions, in order: `true` for the LLVM
generator, `false` for the default (portable C) one. -/
def generatorsRun (trace : List Event) : List Bool :=
  trace.filterMap (fun e =>
    match e with
    | .generate llvm => some llvm
    | _ => none)

/-- The steps of a log that the module performs itself: everything but the
toolchain commands and the loader calls. -/
def ownSteps (trace : List Event) : List Event :=
  trace.filterMap (fun e => if e.isToolchain then none else some e)

/-- An environment whose tools all succeed: every command exits with code 0,
for which `system` returns 0, and changes no file, and every library loads. -/
def okEnv (cuda llvm : Bool) : Env :=
  { should_use_CUDA_codegen := cuda,
    should_use_LLVM_codegen := llvm,
    USE_OPENMP := false,
    getFromEnv := fun _ d => d,
    get_default_CUDA_compiler_flags := "",
    getTmpdir := "/tmp/",
    sourcegen_compile := fun _ _ => .ok "int compute();",
    headergen_compile := fun _ _ => .ok "",
    generateShim_C := fun _ => "",
    generateShim_CUDA := fun _ => "",
    WriteBitcodeToFile := fun _ => "BC",
    system := fun _ files => (0, files),
    dlopen := fun _ _ => some 1,
    dlerror := "",
    engine := fun g => (g, g + 1) }

/-- An environment in which every toolchain command exits with code 1, for
which `system` returns 256. -/
def failingEnv : Env :=
  { okEnv false false with system := fun _ files => (exitedWith 1, files) }

/-- A module with the given functions and target architecture, in the
directory `/tmp/` under the name `x`, which has library 7 loaded. -/
def exampleModule (funcs : List Stmt) (arch : Arch) : Module :=
  { funcs := funcs, tmpdir := "/tmp/", libname := "x", header := "", source := "",
    target := ⟨arch, "TACO_CC", "cc"⟩, lib_handle := some 7, moduleFromUserSource := false }

/-- A world without files. -/
def emptyWorld : World := ⟨[], [], 0⟩

/-- Modelled from the spec: the schedule kinds of the OpenMP runtime
(`omp_sched_t` of `omp.h`, which is not among the sources). -/
inductive omp_sched_t where
  | omp_sched_static
  | omp_sched_dynamic
  | omp_sched_guided
  | omp_sched_auto
  deriving DecidableEq, Repr

/-- Modelled from the spec: the schedule the compiler is configured with
(`ParallelSchedule`, declared in a header that is not among the sources):
`Static`, `Dynamic`, or any other value of the enumeration. -/
inductive ParallelSchedule where
  | Static
  | Dynamic
  | other (n : Nat)
  deriving DecidableEq, Repr

/-- The process-wide parallel configuration: the schedule kind and chunk size
that `omp_get_schedule` reads and the thread count that `omp_get_max_threads`
reads. -/
structure OmpConfig where
  sched : omp_sched_t
  chunk : Int
  nthreads : Int
  deriving DecidableEq, Repr

/-- The state of the process a compiled function runs in: the parallel
configuration and the memory. -/
structure Process where
  omp : OmpConfig
  mem : List (List Val)
  deriving DecidableEq, Repr

/-- What `callFuncPackedRaw` uses and is defined elsewhere: the symbol lookup
of the loader (`none` is the null pointer), what the code at an address does
to the process and the status it returns, the two setters of the OpenMP
runtime, and the parallel settings of the compiler. -/
structure Runtime where
  dlsym : Option Nat → String → Option Nat
  invoke : Nat → List Val → Process → Int × Process
  omp_set_schedule : omp_sched_t → Int → OmpConfig → OmpConfig
  omp_set_num_threads : Int → OmpConfig → OmpConfig
  taco_get_parallel_schedule : ParallelSchedule × Int
  taco_get_num_threads : Int

/-- Modelled from the spec: the routine `omp_set_schedule` of the OpenMP
runtime (libgomp, which is not among the sources), as an effect on the
configuration. For the kinds static, dynamic and guided the kind and the chunk
size are set, a chunk size below 1 standing for 0 (static) or for 1 (dynamic
and guided). For the kind auto only the kind is set: the chunk size has no
meaning for it and stays as it is. -/
def omp_set_schedule (kind : omp_sched_t) (chunk_size : Int) (c : OmpConfig) : OmpConfig :=
  match kind with
  | .omp_sched_static =>
    { c with sched := kind, chunk := if chunk_size < 1 then 0 else chunk_size }
  | .omp_sched_dynamic =>
    { c with sched := kind, chunk := if chunk_size < 1 then 1 else chunk_size }
  | .omp_sched_guided =>
    { c with sched := kind, chunk := if chunk_size < 1 then 1 else chunk_size }
  | .omp_sched_auto => { c with sched := kind }

/-- Modelled from the spec: the routine `omp_set_num_threads` of the OpenMP
runtime (libgomp, which is not among the sources): the thread count is set, a
count below 1 standing for 1. -/
def omp_set_num_threads (n : Int) (c : OmpConfig) : OmpConfig :=
  { c with nthreads := if 0 < n then n else 1 }

/-- The member `getFuncPtr`. -/
def Module.getFuncPtr (rt : Runtime) (m : Module) (name : String) : Option Nat :=
  rt.dlsym m.lib_handle name

/-- The call `func_ptr(args)`: a call through a null pointer is not a call of
any function. -/
def Module.callThrough (rt : Runtime) (func_ptr : Option Nat) (args : List Val) (p : Process) :
    Except Err Int × Process :=
  match func_ptr with
  | none => (.error (.nullDeref "func_ptr"), p)
  | some f => ((.ok (rt.invoke f args p).1), (rt.invoke f args p).2)

/-- The part of `callFuncPackedRaw` before the call when `USE_OPENMP` is set:
the schedule and the thread count of the compiler are put in place. -/
def Module.overrideParallel (rt : Runtime) (p : Process) : Process :=
  let (tacoSched, tacoChunkSize) := rt.taco_get_parallel_schedule
  let omp1 :=
    match tacoSched with
    | .Static => rt.omp_set_schedule .omp_sched_static tacoChunkSize p.omp
    | .Dynamic => rt.omp_set_schedule .omp_sched_dynamic tacoChunkSize p.omp
    | _ => p.omp
  { p with omp := rt.omp_set_num_threads rt.taco_get_num_threads omp1 }

/-- The member `callFuncPackedRaw`. -/
def Module.callFuncPackedRaw (env : Env) (rt : Runtime) (m : Module) (name : String)
    (args : List Val) (p : Process) : Except Err Int × Process :=
  let func_ptr := Module.getFuncPtr rt m name
  if env.USE_OPENMP then
    let existingNumThreads := p.omp.nthreads
    let existingSched := p.omp.sched
    let existingChunkSize := p.omp.chunk
    let p1 := Module.overrideParallel rt p
    match Module.callThrough rt func_ptr args p1 with
    | (.error e, p2) => (.error e, p2)
    | (.ok ret, p2) =>
      let omp3 := rt.omp_set_schedule existingSched existingChunkSize p2.omp
      let omp4 := rt.omp_set_num_threads existingNumThreads omp3
      (.ok ret, { p2 with omp := omp4 })
  else
    Module.callThrough rt func_ptr args p

/-- The OpenMP runtime, a loader that knows the symbol `compute` of library 1
only, whose code stores 5 in cell 0 of block 0, asks for 8 threads and a
guided schedule, and returns the first cell of block 1 as its status. -/
def exampleRuntime : Runtime :=
  { dlsym := fun h name => if h = some 1 ∧ name = "compute" then some 64 else none,
    invoke := fun _ _ p =>
      (match p.mem with
        | _ :: (Val.int _ s :: _) :: _ => (s : Int)
        | _ => 0,
       { omp := ⟨.omp_sched_guided, 3, 8⟩, mem := [[i32 5]] ++ p.mem.drop 1 }),
    omp_set_schedule := omp_set_schedule,
    omp_set_num_threads := omp_set_num_threads,
    taco_get_parallel_schedule := (.Dynamic, 16),
    taco_get_num_threads := 4 }

/-- A process with a static schedule, two threads and two blocks of memory,
the second holding the status 1. -/
def exampleProcess : Process := { omp := ⟨.omp_sched_static, 0, 2⟩, mem := [[i32 0], [i32 1]] }

/-- The address of a variable node (0 for any other node). -/
def nodeAddr : Expr → Nat
  | .Var p _ _ => p
  | _ => 0

/-- The expression node kinds that the LLVM backend does not lower, with the
name of the operator. -/
def Expr.notLowered : Expr → Option String
  | .Neg _ => some "Neg"
  | .Sqrt _ => some "Sqrt"
  | .Sub _ _ => some "Sub"
  | .Div _ _ => some "Div"
  | .Rem _ _ => some "Rem"
  | .Min _ _ => some "Min"
  | .Max _ _ => some "Max"
  | .BitAnd _ _ => some "BitAnd"
  | .BitOr _ _ => some "BitOr"
  | .Eq _ _ => some "Eq"
  | .Neq _ _ => some "Neq"
  | .Gt _ _ => some "Gt"
  | .Lt _ _ => some "Lt"
  | .Gte _ _ => some "Gte"
  | .Lte _ _ => some "Lte"
  | .And _ _ => some "And"
  | .Or _ _ => some "Or"
  | .Cast _ _ => some "Cast"
  | .Call _ _ _ => some "Call"
  | .Malloc _ => some "Malloc"
  | .Sizeof _ => some "Sizeof"
  | _ => none

/-- The statement node kinds that the LLVM backend does not lower, with the
name of the operator. -/
def Stmt.notLowered : Stmt → Option String
  | .Case _ _ => some "Case"
  | .Switch _ _ => some "Switch"
  | .While _ _ => some "While"
  | .Assign _ _ => some "Assign"
  | .Yield _ => some "Yield"
  | .Free _ => some "Free"
  | .Comment _ => some "Comment"
  | .Break => some "Break"
  | .Print _ => some "Print"
  | _ => none

/-- The operators of the node kinds that are not lowered. -/
def notLoweredOperators : List String :=
  [ "Neg", "Sqrt", "Sub", "Div", "Rem", "Min", "Max", "BitAnd", "BitOr", "Eq", "Neq", "Gt",
    "Lt", "Gte", "Lte", "And", "Or", "Cast", "Call", "Case", "Switch", "Malloc", "Sizeof",
    "While", "Assign", "Yield", "Free", "Comment", "Break", "Print" ]

/-- The message raised for an operator that is not lowered; the one for
`While` has no full stop. -/
def notImplemented (op : String) : String :=
  if op = "While" then "Not Implemented for While" else "Not Implemented for " ++ op ++ "."

/-- Whether a word occurs in a message. -/
def mentions (word msg : String) : Bool := decide (word.toList <:+: msg.toList)

/-! ## Structure of the generated functions -/

/-- Whether a basic block is well formed: it has exactly one terminator
instruction, and that is its last instruction. -/
def BasicBlock.wellFormed (b : BasicBlock) : Bool :=
  match b.insts.reverse with
  | [] => false
  | last :: before => last.op.isTerminator && before.all (fun i => !i.op.isTerminator)

/-- Modelled from the spec: the structural self-verification of a module
(`llvm::verifyModule`, part of LLVM, which is not among the sources), as far
as the shape of the basic blocks goes. Like `llvm::verifyModule` it returns
`true` when the module is broken: here, when a block of a function is not
well formed. -/
def verifyModule (m : LModule) : Bool :=
  m.functions.any (fun f => f.blocks.any (fun b => !b.wellFormed))

/-- Names and operations of the blocks of a function. -/
def blockOps (fn : LFunction) : List (String × List Op) :=
  fn.blocks.map (fun b => (b.name, b.insts.map (fun i => i.op)))

/-- The lowered function `if (B_vals[0]) A_vals[0] = 1; else A_vals[0] = 2;`
with output `[A]` and input `[B]`; without the else branch when `withElse` is
`false`. -/
def ifKernel (withElse : Bool) : Stmt :=
  let A := tensorVar 1 "A"
  let B := tensorVar 2 "B"
  let zero := Expr.Literal Datatype.Int32 0
  let A_vals := Expr.GetProperty 6 A .Values 0 0 "A_vals" Datatype.Int32
  let B_vals := Expr.GetProperty 7 B .Values 0 0 "B_vals" Datatype.Int32
  .Function "choose"
    (.IfThenElse (.Load B_vals zero)
      (.Store A_vals zero (.Literal Datatype.Int32 1))
      (if withElse then .Store A_vals zero (.Literal Datatype.Int32 2) else .null))
    [B] [A]

/-- A function without inputs that reads the values of a tensor `B` which is
not among its parameters: `A_vals[0] = B_vals[0]` with output `[A]`. -/
def staleKernel : Stmt :=
  let A := tensorVar 11 "A"
  let B := tensorVar 2 "B"
  let zero := Expr.Literal Datatype.Int32 0
  .Function "second"
    (.Store (.GetProperty 12 A .Values 0 0 "A_vals" Datatype.Int32) zero
      (.Load (.GetProperty 13 B .Values 0 0 "B_vals" Datatype.Int32) zero))
    [] [A]

/-- The lowered function `A_vals[0] = B<mode+1>_dimension` with output `[A]`
and input `[B]`: the dimension of mode `mode` of `B` is stored in `A`. -/
def dimKernel (mode : Int) : Stmt :=
  let A := tensorVar 1 "A"
  let B := tensorVar 2 "B"
  .Function "dims"
    (.Store (.GetProperty 6 A .Values 0 0 "A_vals" Datatype.Int32) (.Literal Datatype.Int32 0)
      (.GetProperty 5 B .Dimension mode 0 "B_dimension" Datatype.Int32))
    [B] [A]

/-- A memory holding a vector `A` of one element `a` (structure in block 0,
dimensions in block 2, values in block 4) and a 3 by 4 matrix `B` (structure
in block 1, dimensions `[3, 4]` in block 3, values in block 5). -/
def matrixMemory (a : Val) : List (List Val) :=
  [ [ i32 1, .ptr 2 0, i32 32, .ptr 6 0, .ptr 6 0, .ptr 6 0, .ptr 4 0, i32 1 ],
    [ i32 2, .ptr 3 0, i32 32, .ptr 6 0, .ptr 6 0, .ptr 6 0, .ptr 5 0, i32 12 ],
    [ i32 1 ],
    [ i32 3, i32 4 ],
    [ a ],
    List.replicate 12 (i32 0),
    [] ]

/-! ## The shape of generated loops -/

/-- The basic blocks of the function being built (none when there is no
current function). -/
def CodeGen_LLVM.blocks (g : CodeGen_LLVM) : List BasicBlock :=
  match g.curFunc with
  | some fn => fn.blocks
  | none => []

/-- The blocks of a function after the instructions `extra` have been appended
to block `i` (the same blocks when there is no block `i`). -/
def appendInsts (extra : List Inst) : Nat → List BasicBlock → List BasicBlock
  | _, [] => []
  | 0, b :: bs => { b with insts := b.insts ++ extra } :: bs
  | i + 1, b :: bs => b :: appendInsts extra i bs

/-- The blocks of a function after the instructions `extra` have been appended
at the insertion point `ins`. -/
def appendAt (extra : List Inst) : Option Nat → List BasicBlock → List BasicBlock
  | none, bs => bs
  | some i, bs => appendInsts extra i bs

/-- A generator that is building a function: the block the builder inserts
into is a block of the current function, and the instructions of the function
are numbered below the next number to be given out. -/
def CodeGen_LLVM.Building (g : CodeGen_LLVM) : Prop :=
  (∃ bi, g.insertBlock = some bi ∧ bi < g.blocks.length) ∧
    ∀ b ∈ g.blocks, ∀ i ∈ b.insts, i.id < g.nextValue

/-- What the visit of an expression does to the function being built:
instructions with new numbers are appended at the insertion point, and nothing
else changes. -/
structure CodeGen_LLVM.Appends (g g1 : CodeGen_LLVM) : Prop where
  func : g1.Func = g.Func
  ins : g1.insertBlock = g.insertBlock
  sym : g1.symbolTable = g.symbolTable
  next : g.nextValue ≤ g1.nextValue
  blocks : ∃ extra, (∀ x ∈ extra, g.nextValue ≤ x.id ∧ x.id < g1.nextValue) ∧
    g1.blocks = appendAt extra g.insertBlock g.blocks

/-- What the visit of a statement does to the function being built:
instructions with new numbers are appended to the block that was the insertion
block, blocks are added at the end, the other blocks stay as they are, and the
insertion point stays or moves to a new block. -/
structure CodeGen_LLVM.Frame (g g1 : CodeGen_LLVM) : Prop where
  func : g1.Func = g.Func
  next : g.nextValue ≤ g1.nextValue
  ins : g1.insertBlock = g.insertBlock ∨ ∃ b, g1.insertBlock = some b ∧ g.blocks.length ≤ b
  blocks : ∃ extra added, (∀ x ∈ extra, g.nextValue ≤ x.id) ∧
    g1.blocks = appendAt extra g.insertBlock g.blocks ++ added

mutual
/-- Whether a statement contains no function definition. -/
def Stmt.noFunction : Stmt → Bool
  | .Function _ _ _ _ => false
  | .IfThenElse _ then_ otherwise => then_.noFunction && otherwise.noFunction
  | .Case _ body => body.noFunction
  | .Switch _ body => body.noFunction
  | .For _ _ _ _ contents => contents.noFunction
  | .While _ contents => contents.noFunction
  | .Block contents => Stmt.noFunctionAll contents
  | .Scope scopedStmt => scopedStmt.noFunction
  | _ => true
/-- Whether the statements of a list contain no function definition. -/
def Stmt.noFunctionAll : List Stmt → Bool
  | [] => true
  | s :: rest => s.noFunction && Stmt.noFunctionAll rest
end

/-- The effect of `addIncoming` on an instruction. -/
def addIncomingInst (phiId : Nat) (v : LValue) (bb : Nat) (i : Inst) : Inst :=
  match i.op with
  | .phi inc => if i.id = phiId then { i with op := .phi (inc ++ [(v, bb)]) } else i
  | _ => i

/-- The effect of `addIncoming` on a block. -/
def addIncomingBlock (phiId : Nat) (v : LValue) (bb : Nat) (b : BasicBlock) : BasicBlock :=
  { b with insts := b.insts.map (addIncomingInst phiId v bb) }

/-- The blocks `X` of a function are out of reach: the insertion point is in
a block after them. -/
def CodeGen_LLVM.Above (X : List BasicBlock) (g : CodeGen_LLVM) : Prop :=
  ∃ Y i, g.blocks = X ++ Y ∧ g.insertBlock = some i ∧ X.length ≤ i


/-- The header block of a lowered loop whose four blocks start at position
`n`: the PHI node (number `k`) of the loop variable with its two incoming
pairs, the start value from the pre-header `pre` and the incremented value
(number `a`) from the latch; the signed comparison with the end value; and the
conditional branch to the body, or else to the exit. -/
def forHeader (name : String) (T : LType) (vs ve : LValue) (pre n k a : Nat) : BasicBlock :=
  ⟨"for_header",
    [ ⟨k, T, .phi [(vs, pre), (.inst a T, n + 2)], name⟩,
      ⟨k + 1, .int 1, .icmpSLT (.inst k T) ve, ""⟩,
      ⟨k + 2, .void, .condBr (.inst (k + 1) (.int 1)) (n + 1) (n + 3), ""⟩ ]⟩

/-- The latch block of a lowered loop: the instructions `L` of the increment,
the addition (number `a`) of the increment to the loop variable, and the
branch back to the header. -/
def forLatch (T : LType) (vi : LValue) (n k a : Nat) (L : List Inst) : BasicBlock :=
  ⟨"for_latch", L ++ [⟨a, T, .add (.inst k T) vi, ""⟩, ⟨a + 1, .void, .br n, ""⟩]⟩

/-- The steps of `visit(const For*)` up to the visit of the contents, and what
follows it: `gb` is the generator when the contents are visited, `ga` the
generator after that visit. -/
structure CodeGen_LLVM.ForSteps (name : String) (start end_ increment : Expr) (contents : Stmt)
    (g g1 : CodeGen_LLVM) (vs ve vi : LValue) (pre j a : Nat) (E L : List Inst)
    (gb ga : CodeGen_LLVM) : Prop where
  start_ok : ∃ gs, CodeGen_LLVM.codegenExpr start g = .ok (vs, gs) ∧
    ∃ ge, CodeGen_LLVM.codegenExpr end_ gs = .ok (ve, ge) ∧ ge.nextValue = j
  start_int : vs.getType.isIntegerTy = true
  end_int : ve.getType.isIntegerTy = true
  pre_ins : g.insertBlock = some pre
  pre_lt : pre < g.blocks.length
  E_ids : ∀ x ∈ E, g.nextValue ≤ x.id ∧ x.id < j
  L_ids : ∀ x ∈ L, j + 4 ≤ x.id ∧ x.id < a
  a_ge : j + 4 ≤ a
  increment_ok : ∃ gl gl1, CodeGen_LLVM.codegenExpr increment gl = .ok (vi, gl1) ∧
    gl.insertBlock = some (g.blocks.length + 2) ∧ gl.symbolTable = gb.symbolTable
  blocks : gb.blocks =
    appendAt (E ++ [⟨j, .void, .br g.blocks.length, ""⟩]) (some pre) g.blocks ++
      [ forHeader name vs.getType vs ve pre g.blocks.length (j + 1) a,
        ⟨"for_body", []⟩,
        forLatch vs.getType vi g.blocks.length (j + 1) a L,
        ⟨"for_exit", []⟩ ]
  ins : gb.insertBlock = some (g.blocks.length + 1)
  func : gb.Func = g.Func
  next : gb.nextValue = a + 2
  sym : g.symbolTable.insert name (.inst (j + 1) vs.getType) = .ok gb.symbolTable
  building : gb.Building
  body : CodeGen_LLVM.visit contents gb = .ok ga
  final : ∃ gf t, ga.CreateBr (g.blocks.length + 2) = .ok gf ∧
    ga.symbolTable.remove name = .ok t ∧
    g1 = { gf.SetInsertPoint (g.blocks.length + 3) with symbolTable := t }

/-- The shape of a lowered loop: what `visit(const For*)` has made of the
function when it returns `g1`, having started in `g` with `n` blocks.

* The pre-header `pre` (the insertion block on entry) has got the
  instructions `E` of the start and end values and a branch to the header.
* Four blocks have been created at positions `n` to `n + 3`: `for_header`
  (`forHeader`: the PHI node with the incoming pairs (start, pre-header) and
  (variable + increment, latch), the signed comparison with the end value, the
  conditional branch to the body or else to the exit), `for_body`, `for_latch`
  (`forLatch`: the increment, the addition, the branch to the header) and
  `for_exit`, which is empty.
* Every other new block (`added`) is a block created during the visit `gb` to
  `ga` of the contents, which starts at `for_body` with the loop variable bound
  to the PHI node.
* The block in which the visit of the contents ended has a branch to the latch
  as its last instruction.
* The insertion point is left at `for_exit`, and the symbol table is the one
  after the contents with the loop variable removed. -/
def CodeGen_LLVM.ForLowered (name : String) (start end_ increment : Expr) (contents : Stmt)
    (g g1 : CodeGen_LLVM) : Prop :=
  ∃ (vs ve vi : LValue) (pre j a : Nat) (E L B : List Inst) (added : List BasicBlock)
    (gb ga : CodeGen_LLVM),
    g.insertBlock = some pre ∧
    (∃ gs ge, CodeGen_LLVM.codegenExpr start g = .ok (vs, gs) ∧
      CodeGen_LLVM.codegenExpr end_ gs = .ok (ve, ge)) ∧
    (∃ gl gl1, CodeGen_LLVM.codegenExpr increment gl = .ok (vi, gl1) ∧
      gl.insertBlock = some (g.blocks.length + 2) ∧ gl.symbolTable = gb.symbolTable) ∧
    g1.blocks =
      appendAt (E ++ [⟨j, .void, .br g.blocks.length, ""⟩]) (some pre) g.blocks ++
        [ forHeader name vs.getType vs ve pre g.blocks.length (j + 1) a,
          ⟨"for_body", B⟩,
          forLatch vs.getType vi g.blocks.length (j + 1) a L,
          ⟨"for_exit", []⟩ ] ++ added ∧
    gb.blocks.length = g.blocks.length + 4 ∧
    gb.insertBlock = some (g.blocks.length + 1) ∧
    gb.getSymbol name = .ok (.inst (j + 1) vs.getType) ∧
    CodeGen_LLVM.visit contents gb = .ok ga ∧
    ga.blocks.length = g.blocks.length + 4 + added.length ∧
    (∃ bi b, ga.insertBlock = some bi ∧ g1.blocks[bi]? = some b ∧
      b.insts.getLast? = some ⟨ga.nextValue, .void, .br (g.blocks.length + 2), ""⟩) ∧
    g1.insertBlock = some (g.blocks.length + 3) ∧
    ga.symbolTable.remove name = .ok g1.symbolTable

/-- The loop of the addition kernel: the body of the function. -/
def kernelLoop : Stmt :=
  match addKernel .B with
  | .Function _ body _ _ => body
  | s => s

/-- The generator state after the visit of a statement (unchanged on
error). -/
def stateAfterStmt (s : Stmt) (g : CodeGen_LLVM) : CodeGen_LLVM :=
  match CodeGen_LLVM.visit s g with
  | .ok g1 => g1
  | .error _ => g

/-! ## Allocation -/

/-- Modelled from the spec: the byte size of a type (`Datatype::getNumBytes`,
declared in a header that is not among the sources): its bits rounded up to
whole bytes. -/
def Datatype.getNumBytes (t : Datatype) : Nat := (t.getNumBits + 7) / 8

/-- The type `double`. -/
def Datatype.Float64 : Datatype := ⟨.Float, 64⟩

/-- The call that `visit(const Allocate*)` emits as instruction `id`, given
the values of the variable, of the extended number of elements and of the size
operand: `realloc(var, size)` for a reallocation, `calloc(num_elements, size)`
otherwise, both returning a pointer to bytes. -/
def allocationCall (is_realloc : Bool) (var num_elements size : LValue) (id : Nat) : Inst :=
  if is_realloc then ⟨id, .ptr (.int 8), .call "realloc" [var, size], "realloc.ret"⟩
  else ⟨id, .ptr (.int 8), .call "calloc" [num_elements, size], "calloc.ret"⟩

/-- The values array of the output tensor `A`, with elements of type `type`. -/
def valuesOfA (type : Datatype) : Expr :=
  .GetProperty 6 (tensorVar 1 "A") .Values 0 0 "A_vals" type

/-- The lowered function that allocates (or reallocates) the values of its
output `A`, whose elements have type `type`, for `num_elements` elements. -/
def allocKernel (type : Datatype) (num_elements : Expr) (is_realloc : Bool) : Stmt :=
  .Function "grow" (.Allocate (valuesOfA type) num_elements is_realloc) [] [tensorVar 1 "A"]

theorem generatedFunction_addKernel (d : KernelTensor) :
    generatedFunction (addKernel d) = some (addKernelCode d) := by
  cases d <;> decide

theorem toSigned_of_lt (x : Nat) (h : x < 2 ^ 31) : CodeGen_LLVM.toSigned 32 x = (x : Int) := by
  have h1 : x % 2 ^ 32 = x := Nat.mod_eq_of_lt (by omega)
  unfold CodeGen_LLVM.toSigned
  rw [h1, if_pos (by omega)]

theorem i32_add (b c : Int) :
    Val.int 32 (((b % (2 : Int) ^ 32).toNat + (c % (2 : Int) ^ 32).toNat) % 2 ^ 32) = i32 (b + c) := by
  unfold i32
  congr 1
  have hb : 0 ≤ b % (2 : Int) ^ 32 := Int.emod_nonneg _ (by norm_num)
  have hc : 0 ≤ c % (2 : Int) ^ 32 := Int.emod_nonneg _ (by norm_num)
  have hs : 0 ≤ (b + c) % (2 : Int) ^ 32 := Int.emod_nonneg _ (by norm_num)
  zify
  rw [Int.toNat_of_nonneg hb, Int.toNat_of_nonneg hc, Int.toNat_of_nonneg hs]
  rw [← Int.add_emod]

theorem i32_natCast (n : Nat) (h : n < 2 ^ 31) : i32 (n : Int) = .int 32 n := by
  unfold i32
  congr 1
  have : ((n : Int) % (2 : Int) ^ 32) = (n : Int) := Int.emod_eq_of_lt (by omega) (by norm_num; omega)
  rw [this]; simp

theorem run_entry (d : KernelTensor) (n : Nat) (hn : n < 2 ^ 31) (a b c : List Val) (fuel : Nat) :
    run (addKernelCode d) kernelArgs (fuel + 1) 0 none ⟨denseMemory n a b c, []⟩ =
      run (addKernelCode d) kernelArgs fuel 1 (some 0)
        ⟨denseMemory n a b c,
          [(2, .int 32 n), (1, .ptr (3 + d.index) 0), (0, .ptr d.index 1)]⟩ := by
  rw [run]
  cases d <;>
    simp [addKernelCode, execInsts, evalOp, evalOperand, kernelArgs, loadCell, denseMemory,
      tensorStructCells, List.lookup, i32_natCast n hn, KernelTensor.index]

theorem run_header_lt (d : KernelTensor) (n : Nat) (hn : n < 2 ^ 31) (mem : List (List Val))
    (regs : List (Nat × Val)) (prev i : Nat) (hi : i < n) (fuel : Nat)
    (hend : List.lookup 2 regs = some (.int 32 n))
    (hphi : (prev = 0 ∧ i = 0) ∨ (prev = 3 ∧ List.lookup 7 regs = some (.int 32 i))) :
    run (addKernelCode d) kernelArgs (fuel + 1) 1 (some prev) ⟨mem, regs⟩ =
      run (addKernelCode d) kernelArgs fuel 2 (some 1)
        ⟨mem, (5, .int 1 1) :: (4, .int 32 i) :: regs⟩ := by
  have hi2 : i < 2 ^ 31 := by omega
  rw [run]
  rcases hphi with ⟨rfl, rfl⟩ | ⟨rfl, h7⟩
  · simp [addKernelCode, execInsts, evalOp, evalOperand, List.lookup, hend,
      toSigned_of_lt n hn, toSigned_of_lt 0 (by norm_num), hi]
  · simp [addKernelCode, execInsts, evalOp, evalOperand, List.lookup, hend, h7,
      toSigned_of_lt n hn, toSigned_of_lt i hi2, hi]

theorem run_header_ge (d : KernelTensor) (n : Nat) (hn : n < 2 ^ 31) (mem : List (List Val))
    (regs : List (Nat × Val)) (prev i : Nat) (hi : ¬ i < n) (hi2 : i < 2 ^ 31) (fuel : Nat)
    (hend : List.lookup 2 regs = some (.int 32 n))
    (hphi : (prev = 0 ∧ i = 0) ∨ (prev = 3 ∧ List.lookup 7 regs = some (.int 32 i))) :
    run (addKernelCode d) kernelArgs (fuel + 1) 1 (some prev) ⟨mem, regs⟩ =
      run (addKernelCode d) kernelArgs fuel 4 (some 1)
        ⟨mem, (5, .int 1 0) :: (4, .int 32 i) :: regs⟩ := by
  rw [run]
  rcases hphi with ⟨rfl, rfl⟩ | ⟨rfl, h7⟩
  · simp [addKernelCode, execInsts, evalOp, evalOperand, List.lookup, hend,
      toSigned_of_lt n hn, toSigned_of_lt 0 (by norm_num), hi]
  · simp [addKernelCode, execInsts, evalOp, evalOperand, List.lookup, hend, h7,
      toSigned_of_lt n hn, toSigned_of_lt i hi2, hi]

theorem run_body (d : KernelTensor) (n i : Nat) (hi : i < 2 ^ 31) (blk bv cv : List Val) (x y : Nat)
    (hb : bv[i]? = some (.int 32 x)) (hc : cv[i]? = some (.int 32 y)) (hlen : i < blk.length)
    (regs : List (Nat × Val)) (h4 : List.lookup 4 regs = some (.int 32 i)) (fuel : Nat) :
    run (addKernelCode d) kernelArgs (fuel + 1) 2 (some 1) ⟨denseMemory n blk bv cv, regs⟩ =
      run (addKernelCode d) kernelArgs fuel 3 (some 2)
        ⟨denseMemory n (blk.set i (.int 32 ((x + y) % 2 ^ 32))) bv cv, bodyRegs i x y regs⟩ := by
  rw [run]
  simp [addKernelCode, execInsts, evalOp, evalOperand, List.lookup, h4, hb, hc, hlen,
    toSigned_of_lt i hi, kernelArgs, loadCell, storeCell, denseMemory, tensorStructCells,
    bodyRegs]

theorem run_latch (d : KernelTensor) (i : Nat) (hi : i + 1 < 2 ^ 31) (mem : List (List Val))
    (regs : List (Nat × Val)) (h4 : List.lookup 4 regs = some (.int 32 i)) (prev : Option Nat)
    (fuel : Nat) :
    run (addKernelCode d) kernelArgs (fuel + 1) 3 prev ⟨mem, regs⟩ =
      run (addKernelCode d) kernelArgs fuel 1 (some 3) ⟨mem, (7, .int 32 (i + 1)) :: regs⟩ := by
  have hmod : (i + 1) % 4294967296 = i + 1 := Nat.mod_eq_of_lt (by omega)
  rw [run]
  simp [addKernelCode, execInsts, evalOp, evalOperand, List.lookup, h4, hmod]

theorem run_tail (d : KernelTensor) (mem : List (List Val)) (regs : List (Nat × Val)) (prev : Option Nat)
    (fuel : Nat) :
    run (addKernelCode d) kernelArgs (fuel + 2) 4 prev ⟨mem, regs⟩ = some (.int 32 0, mem) := by
  simp [run, addKernelCode, execInsts, evalOperand]

theorem map_i32_getElem? (l : List Int) (i : Nat) (h : i < l.length) :
    (l.map i32)[i]? = some (.int 32 (bitsAt l i)) := by
  rw [List.getElem?_map, List.getElem?_eq_getElem h]
  simp [bitsAt, i32, List.getD, List.getElem?_eq_getElem h]

theorem sums_getElem? (B C : List Int) (i : Nat) (hB : i < B.length) (hC : i < C.length) :
    (sums B C)[i]? = some (.int 32 ((bitsAt B i + bitsAt C i) % 2 ^ 32)) := by
  unfold sums
  rw [List.getElem?_zipWith, List.getElem?_eq_getElem hB, List.getElem?_eq_getElem hC]
  simp only [bitsAt, List.getD, List.getElem?_eq_getElem hB, List.getElem?_eq_getElem hC,
    Option.getD_some, i32_add, List.get?_eq_getElem?]

theorem block_set (R a : List Val) (i : Nat) (v : Val) (hR : R[i]? = some v)
    (ha : i < a.length) :
    (R.take i ++ a.drop i).set i v = R.take (i + 1) ++ a.drop (i + 1) := by
  have hi : i < R.length := by
    by_contra h
    rw [List.getElem?_eq_none (by omega)] at hR
    cases hR
  have hlen : (R.take i).length = i := by simp; omega
  rw [List.set_append_right _ _ (by omega), hlen, Nat.sub_self, List.drop_eq_getElem_cons ha,
    List.take_succ, hR]
  simp only [List.set_cons_zero, Option.toList, List.append_assoc, List.singleton_append]

theorem run_loop (d : KernelTensor) (n : Nat) (hn : n < 2 ^ 31) (a : List Val) (B C : List Int)
    (ha : a.length = n) (hB : B.length = n) (hC : C.length = n) :
    ∀ k i, i + k = n → ∀ regs prev, List.lookup 2 regs = some (.int 32 n) →
      ((prev = 0 ∧ i = 0) ∨ (prev = 3 ∧ List.lookup 7 regs = some (.int 32 i))) →
      run (addKernelCode d) kernelArgs (3 * k + 3) 1 (some prev) ⟨memAt n i a B C, regs⟩ =
        some (.int 32 0, memAt n n a B C) := by
  intro k
  induction k with
  | zero =>
    intro i hi regs prev hend hphi
    have hin : i = n := by omega
    subst hin
    rw [show 3 * 0 + 3 = 2 + 1 from rfl,
      run_header_ge d i hn _ regs prev i (by omega) hn 2 hend hphi, run_tail]
  | succ k ih =>
    intro i hi regs prev hend hphi
    have hlt : i < n := by omega
    have hs := sums_getElem? B C i (by omega) (by omega)
    have hset := block_set (sums B C) a i _ hs (by omega)
    have hlen : i < ((sums B C).take i ++ a.drop i).length := by
      simp [sums]; omega
    rw [show 3 * (k + 1) + 3 = (3 * k + 3 + 1 + 1) + 1 from by ring,
      run_header_lt d n hn _ regs prev i hlt _ hend hphi]
    unfold memAt
    rw [run_body d n i (by omega) _ _ _ (bitsAt B i) (bitsAt C i)
        (map_i32_getElem? B i (by omega)) (map_i32_getElem? C i (by omega)) hlen _
        (by simp [List.lookup]), hset,
      run_latch d i (by omega) _ _ (by simp [List.lookup, bodyRegs])]
    exact ih (i + 1) (by omega) _ 3 (by simp [List.lookup, bodyRegs, hend])
      (Or.inr ⟨rfl, by simp [List.lookup]⟩)

theorem memAt_zero (n : Nat) (a : List Val) (B C : List Int) :
    memAt n 0 a B C = denseMemory n a (B.map i32) (C.map i32) := by
  simp [memAt]

theorem memAt_full (n : Nat) (a : List Val) (B C : List Int)
    (ha : a.length = n) (hB : B.length = n) (hC : C.length = n) :
    memAt n n a B C = denseMemory n (sums B C) (B.map i32) (C.map i32) := by
  have h1 : (sums B C).length = n := by simp [sums, hB, hC]
  have h2 : (sums B C).take n = sums B C := List.take_of_length_le (by omega)
  have h3 : a.drop n = [] := List.drop_of_length_le (by omega)
  simp [memAt, h2, h3]

/-- C1: for every length `n` that an `int32_t` dimension can hold and all
`int32_t` arrays `B` and `C` of length `n`, the function that the LLVM backend
generates for the dense addition kernel (whichever of the three tensors the
loop bound is read from), called on tensor structures holding `B` and `C` (and
any previous contents `a` of `A`), returns status 0 after `3 * n + 4` basic
blocks and leaves `A_vals[i] = B[i] + C[i]`, wrapped to 32 bits, in every
element of `A`, with the rest of memory as it was. -/
theorem add_kernel_correct (d : KernelTensor) (n : Nat) (hn : n < 2 ^ 31) (a : List Val)
    (B C : List Int) (ha : a.length = n) (hB : B.length = n) (hC : C.length = n) :
    ∃ fn, generatedFunction (addKernel d) = some fn ∧
      callFunction fn kernelArgs (denseMemory n a (B.map i32) (C.map i32)) (3 * n + 4) =
        some (i32 0, denseMemory n (List.zipWith (fun b c => i32 (b + c)) B C)
          (B.map i32) (C.map i32)) := by
  refine ⟨addKernelCode d, generatedFunction_addKernel d, ?_⟩
  unfold callFunction
  rw [run_entry d n hn, ← memAt_zero,
    run_loop d n hn a B C ha hB hC n 0 (by omega) _ 0 (by simp [List.lookup])
      (Or.inl ⟨rfl, rfl⟩),
    memAt_full n a B C ha hB hC]
  rfl

/-- C1, the test `TEST(llvm, add)`: `B = [1, 2, 3]` and `C = [4, 5, 6]` give
`A = [5, 7, 9]`. -/
theorem add_kernel_correct_witness :
    ∃ fn, generatedFunction (addKernel .B) = some fn ∧
      callFunction fn kernelArgs
          (denseMemory 3 [i32 0, i32 0, i32 0] ([1, 2, 3].map i32) ([4, 5, 6].map i32))
          (3 * 3 + 4) =
        some (i32 0, denseMemory 3 [i32 5, i32 7, i32 9]
          ([1, 2, 3].map i32) ([4, 5, 6].map i32)) :=
  add_kernel_correct .B 3 (by norm_num) [i32 0, i32 0, i32 0] [1, 2, 3] [4, 5, 6] rfl rfl rfl

namespace CodeGen_LLVM

theorem emit_spec {op : Op} {ty : LType} {name : String} {g g1 : CodeGen_LLVM} {v : LValue}
    (h : g.emit op ty name = .ok (v, g1)) :
    v = .inst g.nextValue ty ∧ g1.nextValue = g.nextValue + 1 := by
  unfold emit at h
  cases hm : g.modifyInsertBlock (fun b => { b with insts := b.insts ++ [⟨g.nextValue, ty, op, name⟩] }) with
  | error e => simp [hm, bind, Except.bind] at h
  | ok g2 =>
    simp [hm, bind, Except.bind, pure, Except.pure] at h
    obtain ⟨rfl, rfl⟩ := h
    exact ⟨rfl, rfl⟩

theorem CreateLoad_spec {p : LValue} {name : String} {g g1 : CodeGen_LLVM} {v : LValue}
    (h : g.CreateLoad p name = .ok (v, g1)) :
    (∃ ty, v = .inst g.nextValue ty) ∧ g1.nextValue = g.nextValue + 1 := by
  unfold CreateLoad at h
  split at h
  · exact ⟨⟨_, (emit_spec h).1⟩, (emit_spec h).2⟩
  · cases h

theorem CreateStructGEP_spec {p : LValue} {idx : Nat} {name : String} {g g1 : CodeGen_LLVM}
    {v : LValue} (h : g.CreateStructGEP p idx name = .ok (v, g1)) :
    g1.nextValue = g.nextValue + 1 := by
  unfold CreateStructGEP at h
  split at h
  · split at h
    · split at h
      · exact (emit_spec h).2
      · cases h
    · cases h
  · cases h

theorem CreateBitCast_spec {p : LValue} {ty : LType} {g g1 : CodeGen_LLVM}
    {v : LValue} (h : g.CreateBitCast p ty = .ok (v, g1)) :
    g.nextValue ≤ g1.nextValue := by
  unfold CreateBitCast at h
  split at h
  · cases h; exact Nat.le_refl _
  · rw [(emit_spec h).2]; exact Nat.le_succ _

/-- Every successful visit of a `GetProperty` node yields a load instruction
that the visit itself has created. -/
theorem visitGetProperty_fresh {tensor : Expr} {property : TensorProperty} {type : Datatype}
    {g g1 : CodeGen_LLVM} {v : LValue}
    (h : visitGetProperty tensor property type g = .ok (v, g1)) :
    ∃ id ty, v = .inst id ty ∧ g.nextValue ≤ id ∧ id < g1.nextValue := by
  unfold visitGetProperty at h
  split at h
  · rename_i p name t
    cases hs : g.getSymbol name with
    | error e => simp [hs, bind, Except.bind] at h
    | ok tv =>
      cases ht : llvmTypeOf type g with
      | error e => simp [hs, ht, bind, Except.bind] at h
      | ok lt =>
        simp only [hs, ht, bind, Except.bind] at h
        cases property with
        | Dimension =>
          simp only at h
          cases h1 : g.CreateStructGEP tv TensorProperty.Dimension.toNat (name ++ ".gep.dim") with
          | error e => simp [h1] at h
          | ok r1 =>
            obtain ⟨d, g2⟩ := r1
            simp only [h1] at h
            cases h2 : g2.CreateLoad d "" with
            | error e => simp [h2] at h
            | ok r2 =>
              obtain ⟨q, g3⟩ := r2
              simp only [h2] at h
              have e1 := CreateStructGEP_spec h1
              have e2 := CreateLoad_spec h2
              have e3 := CreateLoad_spec h
              obtain ⟨⟨ty, hv⟩, hn⟩ := e3
              exact ⟨_, ty, hv, by omega, by omega⟩
        | ValuesSize => simp at h
        | _ =>
          simp only at h
          split at h
          · cases h
          · rename_i r1 h1
            obtain ⟨gep, g2⟩ := r1
            simp only at h
            split at h
            · cases h
            · rename_i r2 h2
              obtain ⟨bc, g3⟩ := r2
              simp only at h
              have e1 := CreateStructGEP_spec h1
              have e2 := CreateBitCast_spec h2
              obtain ⟨⟨ty, hv⟩, hn⟩ := CreateLoad_spec h
              exact ⟨_, ty, hv, by omega, by omega⟩
  · cases h

end CodeGen_LLVM

theorem getElem?_append_length {α : Type} (l : List α) (x : α) :
    (l ++ [x])[l.length]? = some x := by
  simp

namespace FindVars

end FindVars

theorem modifyNth_of_getElem? {α : Type} (f : α → α) :
    ∀ (l : List α) (i : Nat) (x : α), l[i]? = some x →
      modifyNth f i l = some (l.set i (f x))
  | [], _, _, h => by simp at h
  | a :: l, 0, x, h => by
    simp only [List.getElem?_cons_zero, Option.some.injEq] at h
    subst h
    rfl
  | a :: l, i + 1, x, h => by
    simp only [List.getElem?_cons_succ] at h
    simp [modifyNth, modifyNth_of_getElem? f l i x h]

namespace CodeGen_LLVM

/-- C4 fails for `Order`: visiting `GetProperty(A, Order, 0, 0)` takes the
address of field 5 of the tensor structure (the position of `Indices`) and
loads from it, while `Order` is field 0. -/
theorem getProperty_order_reads_field_5 :
    (kernelPrologue.bind (codegenExpr orderOfA)).map (fun r => emittedOps r.2) =
        .ok (some [[ .structGEP (.arg 0 0 tensorStructPtrTy) 5,
                     .bitCast (.inst 0 (.ptr (.ptr (.ptr (.ptr (.int 8))))))
                       (.ptr (.ptr (.int 32))),
                     .load (.inst 1 (.ptr (.ptr (.int 32)))) ]]) ∧
      TensorProperty.Order.toNat = 0 ∧ TensorProperty.Indices.toNat = 5 := by
  decide

/-- C6: the tensor structure type that `init_codegen` creates has the eight
fields order `i32`, dimension `i32*`, component size `i32`, mode ordering
`i32*`, mode types `i32*`, indices `i8***`, values `i8*`, values size `i32`, in
this order, and a second call of `init_codegen` changes nothing. -/
theorem init_codegen_tensorStruct (g : CodeGen_LLVM) (h : g.Module = none) :
    g.init_codegen.tensorStruct = some (.struct "tensorStruct") ∧
      g.init_codegen.tensorStructPtr = some (.ptr (.struct "tensorStruct")) ∧
      g.init_codegen.Module.bind (fun m => m.structs.lookup "tensorStruct") =
        some [ .int 32, .ptr (.int 32), .int 32, .ptr (.int 32), .ptr (.int 32),
               .ptr (.ptr (.ptr (.int 8))), .ptr (.int 8), .int 32 ] ∧
      g.init_codegen.init_codegen = g.init_codegen := by
  simp [init_codegen, h, LType.getPointerTo, List.lookup]

/-- C6 at a newly constructed generator. -/
theorem init_codegen_tensorStruct_witness :
    CodeGen_LLVM.new.init_codegen.tensorStruct = some (.struct "tensorStruct") ∧
      CodeGen_LLVM.new.init_codegen.tensorStructPtr = some (.ptr (.struct "tensorStruct")) ∧
      CodeGen_LLVM.new.init_codegen.Module.bind (fun m => m.structs.lookup "tensorStruct") =
        some [ .int 32, .ptr (.int 32), .int 32, .ptr (.int 32), .ptr (.int 32),
               .ptr (.ptr (.ptr (.int 8))), .ptr (.int 8), .int 32 ] ∧
      CodeGen_LLVM.new.init_codegen.init_codegen = CodeGen_LLVM.new.init_codegen :=
  init_codegen_tensorStruct CodeGen_LLVM.new rfl

end CodeGen_LLVM

namespace FindVars

theorem lookup_filter_ne {κ : Type} [DecidableEq κ] (k key : κ) (h : k ≠ key)
    (m : List (κ × String)) :
    (m.filter (fun kv => decide (kv.1 ≠ key))).lookup k = m.lookup k := by
  induction m with
  | nil => rfl
  | cons a m ih =>
    obtain ⟨a1, a2⟩ := a
    by_cases ha : a1 = key
    · subst ha
      have hk : (k == a1) = false := by simpa using h
      rw [List.filter_cons_of_neg (by simp), ih, List.lookup_cons, hk]
    · rw [List.filter_cons_of_pos (by simpa using ha), List.lookup_cons, List.lookup_cons, ih]

theorem find_assign_self {κ : Type} [DecidableEq κ] (key : κ) (v : String)
    (m : List (κ × String)) : find key (assign key v m) = some v := by
  simp [find, assign, List.lookup]

theorem find_assign_ne {κ : Type} [DecidableEq κ] (k key : κ) (h : k ≠ key) (v : String)
    (m : List (κ × String)) : find k (assign key v m) = find k m := by
  have hk : (k == key) = false := by simpa using h
  simp only [find, assign, List.lookup, hk]
  exact lookup_filter_ne k key h m

theorem count_eq_zero {κ : Type} [DecidableEq κ] (key : κ) (m : List (κ × String)) :
    (count key m == 0) = true ↔ find key m = none := by
  unfold count
  cases find key m <;> simp

theorem count_pos {κ : Type} [DecidableEq κ] (key : κ) (m : List (κ × String)) :
    count key m > 0 ↔ ∃ u, find key m = some u := by
  unfold count
  cases find key m <;> simp

theorem visitGetProperty_inv (G seen : List (Nat × PropertyKey)) (fv : FindVars) (c : Nat)
    (p : Nat) (t : Expr) (pr : TensorProperty) (m i : Int) (n : String)
    (hfun : ∀ q k1 k2, (q, k1) ∈ G → (q, k2) ∈ G → k1 = k2)
    (hmem : (p, (t, pr, m, i)) ∈ G) (hinv : FindVarsInv G seen fv) :
    FindVarsInv G (seen ++ [(p, (t, pr, m, i))]) (visitGetProperty p t pr m i n fv c).1 ∧
      (visitGetProperty p t pr m i n fv c).2 =
        c + (if (t, pr, m, i) ∈ seen.map Prod.snd then 0 else 1) := by
  obtain ⟨hib, hsub, hnamed, hkeys, haddrs⟩ := hinv
  unfold visitGetProperty
  simp only [hib, Bool.not_false, Bool.and_true]
  cases hp : find p fv.varMap with
  | some u =>
    have hc : (count p fv.varMap == 0) = false := by
      cases h : (count p fv.varMap == 0)
      · rfl
      · rw [(count_eq_zero p fv.varMap).1 h] at hp; cases hp
    simp only [hc, Bool.false_eq_true, if_false]
    obtain ⟨k1, hk1⟩ := haddrs p _ hmem u hp
    have hk : k1 = (t, pr, m, i) := hfun p _ _ (hsub _ hk1) hmem
    subst hk
    refine ⟨⟨hib, ?_, ?_, ?_, ?_⟩, ?_⟩
    · intro x hx
      rcases List.mem_append.1 hx with hx | hx
      · exact hsub x hx
      · rw [List.mem_singleton.1 hx]; exact hmem
    · intro q k hq
      rcases List.mem_append.1 hq with hq | hq
      · exact hnamed q k hq
      · rw [List.mem_singleton] at hq
        cases hq
        exact hnamed _ _ hk1
    · intro k u1 hk
      obtain ⟨q, hq⟩ := hkeys k u1 hk
      exact ⟨q, List.mem_append_left _ hq⟩
    · intro q k hq u1 hu1
      obtain ⟨k2, hk2⟩ := haddrs q k hq u1 hu1
      exact ⟨k2, List.mem_append_left _ hk2⟩
    · have : (t, pr, m, i) ∈ seen.map Prod.snd := List.mem_map.2 ⟨_, hk1, rfl⟩
      simp [this]
  | none =>
    have hc : (count p fv.varMap == 0) = true := (count_eq_zero p fv.varMap).2 hp
    simp only [hc, if_true]
    have hpseen : ∀ k, (p, k) ∉ seen := by
      intro k hk
      obtain ⟨u, hu, _⟩ := hnamed p k hk
      rw [hp] at hu; cases hu
    cases hk : find (t, pr, m, i) fv.canonicalPropertyVar with
    | some u =>
      have hpos : count (t, pr, m, i) fv.canonicalPropertyVar > 0 := (count_pos _ _).2 ⟨u, hk⟩
      simp only [hpos, if_true, Option.getD_some]
      obtain ⟨q, hq⟩ := hkeys _ u hk
      refine ⟨⟨rfl, ?_, ?_, ?_, ?_⟩, ?_⟩
      · intro x hx
        rcases List.mem_append.1 hx with hx | hx
        · exact hsub x hx
        · rw [List.mem_singleton.1 hx]; exact hmem
      · intro q1 k1 hq1
        rcases List.mem_append.1 hq1 with hs | hs
        · obtain ⟨u1, hu1, hu2⟩ := hnamed q1 k1 hs
          have hne : q1 ≠ p := by
            intro he
            rw [he] at hs
            exact hpseen _ hs
          exact ⟨u1, by rw [find_assign_ne q1 p hne]; exact hu1, hu2⟩
        · rw [List.mem_singleton] at hs
          cases hs
          exact ⟨u, find_assign_self _ _ _, hk⟩
      · intro k1 u1 hk1
        obtain ⟨q1, hq1⟩ := hkeys k1 u1 hk1
        exact ⟨q1, List.mem_append_left _ hq1⟩
      · intro q1 k1 hq1 u1 hu1
        by_cases hne : q1 = p
        · subst hne
          exact ⟨_, List.mem_append_right _ (List.mem_singleton.2 rfl)⟩
        · rw [find_assign_ne q1 p hne] at hu1
          obtain ⟨k2, hk2⟩ := haddrs q1 k1 hq1 u1 hu1
          exact ⟨k2, List.mem_append_left _ hk2⟩
      · have : (t, pr, m, i) ∈ seen.map Prod.snd := List.mem_map.2 ⟨_, hq, rfl⟩
        simp [this]
    | none =>
      have hpos : ¬ count (t, pr, m, i) fv.canonicalPropertyVar > 0 := by
        rw [count_pos]
        rintro ⟨u, hu⟩
        rw [hk] at hu; cases hu
      have hkseen : ∀ q, (q, (t, pr, m, i)) ∉ seen := by
        intro q hq
        obtain ⟨u, _, hu⟩ := hnamed q _ hq
        rw [hk] at hu; cases hu
      simp only [hpos, if_false, genUniqueName]
      have hcount : c + 1 = c + (if (t, pr, m, i) ∈ seen.map Prod.snd then 0 else 1) := by
        have : (t, pr, m, i) ∉ seen.map Prod.snd := by
          intro h
          obtain ⟨⟨q, k⟩, hq, rfl⟩ := List.mem_map.1 h
          exact hkseen q hq
        simp [this]
      have hinv2 : ∀ fvx : FindVars, fvx.inBlock = false →
          fvx.varMap = assign p (n ++ toString c) fv.varMap →
          fvx.canonicalPropertyVar =
            assign (t, pr, m, i) (n ++ toString c) fv.canonicalPropertyVar →
          FindVarsInv G (seen ++ [(p, (t, pr, m, i))]) fvx := by
        intro fvx hx1 hx2 hx3
        refine ⟨hx1, ?_, ?_, ?_, ?_⟩
        · intro x hx
          rcases List.mem_append.1 hx with hx | hx
          · exact hsub x hx
          · rw [List.mem_singleton.1 hx]; exact hmem
        · intro q1 k1 hq1
          rw [hx2, hx3]
          rcases List.mem_append.1 hq1 with hs | hs
          · obtain ⟨u1, hu1, hu2⟩ := hnamed q1 k1 hs
            have hne : q1 ≠ p := by
              intro he
              rw [he] at hs
              exact hpseen _ hs
            have hne2 : k1 ≠ (t, pr, m, i) := by
              intro he
              rw [he] at hs
              exact hkseen _ hs
            exact ⟨u1, by rw [find_assign_ne q1 p hne]; exact hu1,
              by rw [find_assign_ne k1 _ hne2]; exact hu2⟩
          · rw [List.mem_singleton] at hs
            cases hs
            exact ⟨_, find_assign_self _ _ _, find_assign_self _ _ _⟩
        · intro k1 u1 hk1
          rw [hx3] at hk1
          by_cases hne : k1 = (t, pr, m, i)
          · subst hne
            exact ⟨p, List.mem_append_right _ (List.mem_singleton.2 rfl)⟩
          · rw [find_assign_ne k1 _ hne] at hk1
            obtain ⟨q1, hq1⟩ := hkeys k1 u1 hk1
            exact ⟨q1, List.mem_append_left _ hq1⟩
        · intro q1 k1 hq1 u1 hu1
          rw [hx2] at hu1
          by_cases hne : q1 = p
          · subst hne
            exact ⟨_, List.mem_append_right _ (List.mem_singleton.2 rfl)⟩
          · rw [find_assign_ne q1 p hne] at hu1
            obtain ⟨k2, hk2⟩ := haddrs q1 k1 hq1 u1 hu1
            exact ⟨k2, List.mem_append_left _ hk2⟩
      split
      · exact ⟨hinv2 _ rfl rfl rfl, hcount⟩
      · exact ⟨hinv2 _ rfl rfl rfl, hcount⟩

theorem inv_of_same (G seen : List (Nat × PropertyKey)) (fv fv1 : FindVars)
    (h1 : fv1.inBlock = fv.inBlock) (h2 : fv1.varMap = fv.varMap)
    (h3 : fv1.canonicalPropertyVar = fv.canonicalPropertyVar) (hinv : FindVarsInv G seen fv) :
    FindVarsInv G seen fv1 := by
  obtain ⟨hib, hsub, hnamed, hkeys, haddrs⟩ := hinv
  refine ⟨h1.trans hib, hsub, ?_, ?_, ?_⟩
  · rw [h2, h3]; exact hnamed
  · rw [h3]; exact hkeys
  · rw [h2]; exact haddrs

theorem visitVar_inv (G seen : List (Nat × PropertyKey)) (fv : FindVars) (c : Nat)
    (p : Nat) (name : String) (hp : ∀ k, (p, k) ∉ G) (hinv : FindVarsInv G seen fv) :
    FindVarsInv G seen (visitVar p name fv c).1 := by
  unfold visitVar
  split
  · obtain ⟨hib, hsub, hnamed, hkeys, haddrs⟩ := hinv
    refine ⟨hib, hsub, ?_, hkeys, ?_⟩
    · intro q k hq
      obtain ⟨u, hu1, hu2⟩ := hnamed q k hq
      have hne : q ≠ p := by
        intro he
        rw [he] at hq
        exact hp k (hsub _ hq)
      exact ⟨u, by simp only [genUniqueName]; rw [find_assign_ne q p hne]; exact hu1, hu2⟩
    · intro q k hq u hu
      have hne : q ≠ p := by
        intro he
        rw [he] at hq
        exact hp k hq
      simp only [genUniqueName] at hu
      rw [find_assign_ne q p hne] at hu
      exact haddrs q k hq u hu
  · exact hinv

theorem step_inv (G seen : List (Nat × PropertyKey)) (fv : FindVars) (c : Nat)
    (e : FindVarsVisit)
    (hfun : ∀ q k1 k2, (q, k1) ∈ G → (q, k2) ∈ G → k1 = k2)
    (hgp : ∀ x ∈ gpNodes [e], x ∈ G) (hva : ∀ p ∈ varAddrs [e], ∀ k, (p, k) ∉ G)
    (hinv : FindVarsInv G seen fv) :
    FindVarsInv G (seen ++ gpNodes [e]) (step e (fv, c)).1 := by
  cases e with
  | var p name =>
    simp only [gpNodes, List.append_nil, step]
    exact visitVar_inv G seen fv c p name (hva p (by simp [varAddrs])) hinv
  | getProperty p t pr m i n =>
    simp only [gpNodes, step]
    exact (visitGetProperty_inv G seen fv c p t pr m i n hfun (hgp _ (by simp [gpNodes])) hinv).1
  | forVar v =>
    simp only [gpNodes, List.append_nil, step, visitForVar]
    split
    · exact inv_of_same G seen fv _ rfl rfl rfl hinv
    · exact hinv
  | varDeclVar v =>
    simp only [gpNodes, List.append_nil, step, visitVarDeclVar]
    split
    · exact inv_of_same G seen fv _ rfl rfl rfl hinv
    · exact hinv

end FindVars

theorem gpNodes_cons (e : FindVarsVisit) (es : List FindVarsVisit) :
    gpNodes (e :: es) = gpNodes [e] ++ gpNodes es := by
  cases e <;> simp [gpNodes]

theorem varAddrs_cons (e : FindVarsVisit) (es : List FindVarsVisit) :
    varAddrs (e :: es) = varAddrs [e] ++ varAddrs es := by
  cases e <;> simp [varAddrs]

theorem gpNodes_append (es fs : List FindVarsVisit) :
    gpNodes (es ++ fs) = gpNodes es ++ gpNodes fs := by
  induction es with
  | nil => simp [gpNodes]
  | cons e es ih => rw [List.cons_append, gpNodes_cons, ih, gpNodes_cons e es, List.append_assoc]

theorem varAddrs_append (es fs : List FindVarsVisit) :
    varAddrs (es ++ fs) = varAddrs es ++ varAddrs fs := by
  induction es with
  | nil => simp [varAddrs]
  | cons e es ih =>
    rw [List.cons_append, varAddrs_cons, ih, varAddrs_cons e es, List.append_assoc]

namespace FindVars

theorem pass_inv (G : List (Nat × PropertyKey))
    (hfun : ∀ q k1 k2, (q, k1) ∈ G → (q, k2) ∈ G → k1 = k2) :
    ∀ (es : List FindVarsVisit) (seen : List (Nat × PropertyKey)) (fv : FindVars) (c : Nat),
      (∀ x ∈ gpNodes es, x ∈ G) → (∀ p ∈ varAddrs es, ∀ k, (p, k) ∉ G) →
      FindVarsInv G seen fv → FindVarsInv G (seen ++ gpNodes es) (pass es (fv, c)).1
  | [], seen, fv, c, _, _, hinv => by simpa [gpNodes, pass] using hinv
  | e :: es, seen, fv, c, hgp, hva, hinv => by
    rw [gpNodes_cons] at hgp ⊢
    rw [varAddrs_cons] at hva
    have h1 := step_inv G seen fv c e hfun (fun x hx => hgp x (List.mem_append_left _ hx))
      (fun p hp => hva p (List.mem_append_left _ hp)) hinv
    have h2 := pass_inv G hfun es (seen ++ gpNodes [e]) (step e (fv, c)).1 (step e (fv, c)).2
      (fun x hx => hgp x (List.mem_append_right _ hx))
      (fun p hp => hva p (List.mem_append_right _ hp)) h1
    rw [List.append_assoc] at h2
    exact h2

theorem addInputs_fields : ∀ (l : List Expr) (fv fv1 : FindVars),
    addInputs l fv = .ok fv1 →
      fv1.canonicalPropertyVar = fv.canonicalPropertyVar
  | [], _, _, h => by cases h; rfl
  | v :: rest, fv, fv1, h => by
    unfold addInputs at h
    split at h
    · split at h
      · exact (addInputs_fields rest _ _ h).trans rfl
      · cases h
    · cases h

theorem addOutputs_fields : ∀ (l : List Expr) (fv fv1 : FindVars),
    addOutputs l fv = .ok fv1 →
      fv1.canonicalPropertyVar = fv.canonicalPropertyVar
  | [], _, _, h => by cases h; rfl
  | v :: rest, fv, fv1, h => by
    unfold addOutputs at h
    split at h
    · split at h
      · exact (addOutputs_fields rest _ _ h).trans rfl
      · cases h
    · cases h

theorem new_fields {inputs outputs : List Expr} {fv : FindVars}
    (h : FindVars.new inputs outputs = .ok fv) :
    fv.inBlock = false ∧ fv.canonicalPropertyVar = [] := by
  unfold FindVars.new at h
  simp only [bind, Except.bind] at h
  split at h
  · cases h
  · rename_i fv1 h1
    split at h
    · cases h
    · rename_i fv2 h2
      cases h
      exact ⟨rfl, (addOutputs_fields _ _ _ h2).trans (addInputs_fields _ _ _ h1)⟩

/-- A name recorded for a tuple stays recorded when a `GetProperty` node is
visited. -/
theorem visitGetProperty_keeps (p : Nat) (t : Expr) (pr : TensorProperty) (m i : Int)
    (n : String) (fv : FindVars) (c : Nat) (k : PropertyKey) (u : String)
    (h : find k fv.canonicalPropertyVar = some u) :
    find k (visitGetProperty p t pr m i n fv c).1.canonicalPropertyVar = some u := by
  unfold visitGetProperty
  split
  · dsimp only
    split
    · exact h
    · rename_i hc
      have hne : k ≠ (t, pr, m, i) := by
        intro he
        apply hc
        exact (count_pos _ _).2 ⟨u, he ▸ h⟩
      have h1 : find k (assign (t, pr, m, i) (genUniqueName n c).1 fv.canonicalPropertyVar) =
          some u := by
        rw [find_assign_ne k _ hne]
        exact h
      split <;> exact h1
  · exact h

/-- A name recorded for a tuple stays recorded at every handler call. -/
theorem step_keeps (e : FindVarsVisit) (st : FindVars × Nat) (k : PropertyKey) (u : String)
    (h : find k st.1.canonicalPropertyVar = some u) :
    find k (step e st).1.canonicalPropertyVar = some u := by
  cases e with
  | var p name =>
    simp only [step, visitVar]
    split <;> exact h
  | getProperty p t pr m i n => exact visitGetProperty_keeps p t pr m i n st.1 st.2 k u h
  | forVar var =>
    simp only [step, visitForVar]
    split <;> exact h
  | varDeclVar var =>
    simp only [step, visitVarDeclVar]
    split <;> exact h

/-- A name recorded for a tuple stays recorded to the end of the pass. -/
theorem pass_keeps (k : PropertyKey) (u : String) :
    ∀ (es : List FindVarsVisit) (st : FindVars × Nat),
      find k st.1.canonicalPropertyVar = some u →
        find k (pass es st).1.canonicalPropertyVar = some u
  | [], _, h => h
  | e :: es, st, h => pass_keeps k u es (step e st) (step_keeps e st k u h)

/-- The first visit of a node with a tuple that no visited node has records,
for the tuple, the name that `genUniqueName` returns for the hint of the
node. -/
theorem visitGetProperty_first (G seen : List (Nat × PropertyKey)) (fv : FindVars) (c : Nat)
    (p : Nat) (t : Expr) (pr : TensorProperty) (m i : Int) (n : String)
    (hfun : ∀ q k1 k2, (q, k1) ∈ G → (q, k2) ∈ G → k1 = k2)
    (hmem : (p, (t, pr, m, i)) ∈ G) (hinv : FindVarsInv G seen fv)
    (hnew : (t, pr, m, i) ∉ seen.map Prod.snd) :
    find (t, pr, m, i) (visitGetProperty p t pr m i n fv c).1.canonicalPropertyVar =
      some (genUniqueName n c).1 := by
  obtain ⟨hib, hsub, hnamed, hkeys, haddrs⟩ := hinv
  have hp : find p fv.varMap = none := by
    cases hp : find p fv.varMap with
    | none => rfl
    | some u =>
      exfalso
      obtain ⟨k1, hk1⟩ := haddrs p _ hmem u hp
      have hk : k1 = (t, pr, m, i) := hfun p _ _ (hsub _ hk1) hmem
      subst hk
      exact hnew (List.mem_map.2 ⟨_, hk1, rfl⟩)
  have hk : ¬ count (t, pr, m, i) fv.canonicalPropertyVar > 0 := by
    intro hpos
    obtain ⟨u, hu⟩ := (count_pos _ _).1 hpos
    obtain ⟨q, hq⟩ := hkeys _ u hu
    exact hnew (List.mem_map.2 ⟨_, hq, rfl⟩)
  have hc : (count p fv.varMap == 0) = true := (count_eq_zero p fv.varMap).2 hp
  unfold visitGetProperty
  simp only [hib, hc, Bool.not_false, Bool.and_true, if_true, hk, if_false]
  split <;> exact find_assign_self _ _ _

/-- C2: in a pass of `FindVars` that starts from the state its constructor
leaves, over any sequence of handler calls in which the `GetProperty` nodes
are nodes of their own (no `GetProperty` address is the address of a `Var` or
of an input or output, and one address holds one node), any two `GetProperty`
nodes with the same (tensor, property, mode, index) tuple end up mapped by
`varMap` to the same name; the visit of a `GetProperty` node requests a name
from `genUniqueName` (the counter grows by one) exactly when no node with its
tuple has been visited before in the pass, and requests none otherwise; and
the name that every node with the tuple is mapped to at the end of the pass is
the name that `genUniqueName` returned at that first visit, for the hint of
the node visited then. -/
theorem canonical_property_names (inputs outputs : List Expr) (fv0 : FindVars) (c0 : Nat)
    (vs : List FindVarsVisit)
    (hnew : FindVars.new inputs outputs = .ok fv0)
    (hvar : ∀ p k, (p, k) ∈ gpNodes vs → p ∉ varAddrs vs ∧ find p fv0.varMap = none)
    (hfun : ∀ p k1 k2, (p, k1) ∈ gpNodes vs → (p, k2) ∈ gpNodes vs → k1 = k2) :
    (∀ p1 p2 k, (p1, k) ∈ gpNodes vs → (p2, k) ∈ gpNodes vs →
      ∃ u, find p1 (pass vs (fv0, c0)).1.varMap = some u ∧
        find p2 (pass vs (fv0, c0)).1.varMap = some u) ∧
    (∀ pre post p t pr m i n, vs = pre ++ FindVarsVisit.getProperty p t pr m i n :: post →
      (step (.getProperty p t pr m i n) (pass pre (fv0, c0))).2 =
        (pass pre (fv0, c0)).2 +
          (if (t, pr, m, i) ∈ (gpNodes pre).map Prod.snd then 0 else 1)) ∧
    (∀ pre post p t pr m i n, vs = pre ++ FindVarsVisit.getProperty p t pr m i n :: post →
      (t, pr, m, i) ∉ (gpNodes pre).map Prod.snd →
      ∀ p2, (p2, (t, pr, m, i)) ∈ gpNodes vs →
        find p2 (pass vs (fv0, c0)).1.varMap =
          some (genUniqueName n (pass pre (fv0, c0)).2).1) := by
  obtain ⟨hib, hcan⟩ := new_fields hnew
  have hinit : FindVarsInv (gpNodes vs) [] fv0 := by
    refine ⟨hib, ?_, ?_, ?_, ?_⟩
    · intro x hx; cases hx
    · intro p k hx; cases hx
    · intro k u hk
      rw [hcan] at hk
      cases hk
    · intro p k hp u hu
      rw [(hvar p k hp).2] at hu
      cases hu
  have hva : ∀ p ∈ varAddrs vs, ∀ k, (p, k) ∉ gpNodes vs :=
    fun p hp k hk => (hvar p k hk).1 hp
  have hfin := pass_inv (gpNodes vs) hfun vs [] fv0 c0 (fun x hx => hx) hva hinit
  rw [List.nil_append] at hfin
  have hpre : ∀ pre post e, vs = pre ++ e :: post →
      FindVarsInv (gpNodes vs) (gpNodes pre) (pass pre (fv0, c0)).1 := by
    intro pre post e hvs
    have h := pass_inv (gpNodes vs) hfun pre [] fv0 c0
      (fun x hx => by rw [hvs, gpNodes_append]; exact List.mem_append_left _ hx)
      (fun q hq => hva q (by rw [hvs, varAddrs_append]; exact List.mem_append_left _ hq)) hinit
    rw [List.nil_append] at h
    exact h
  have hmem : ∀ pre post p t pr m i n,
      vs = pre ++ FindVarsVisit.getProperty p t pr m i n :: post →
      (p, (t, pr, m, i)) ∈ gpNodes vs := by
    intro pre post p t pr m i n hvs
    rw [hvs, gpNodes_append]
    exact List.mem_append_right _ (by simp [gpNodes])
  refine ⟨?_, ?_, ?_⟩
  · intro p1 p2 k h1 h2
    obtain ⟨u1, hu1, hk1⟩ := hfin.named p1 k h1
    obtain ⟨u2, hu2, hk2⟩ := hfin.named p2 k h2
    rw [hk1] at hk2
    cases hk2
    exact ⟨u1, hu1, hu2⟩
  · intro pre post p t pr m i n hvs
    exact (visitGetProperty_inv (gpNodes vs) (gpNodes pre) (pass pre (fv0, c0)).1
      (pass pre (fv0, c0)).2 p t pr m i n hfun (hmem _ _ _ _ _ _ _ _ hvs)
      (hpre _ _ _ hvs)).2
  · intro pre post p t pr m i n hvs hfirst p2 hp2
    have h1 := visitGetProperty_first (gpNodes vs) (gpNodes pre) (pass pre (fv0, c0)).1
      (pass pre (fv0, c0)).2 p t pr m i n hfun (hmem _ _ _ _ _ _ _ _ hvs) (hpre _ _ _ hvs) hfirst
    have h2 := pass_keeps _ _ post
      (step (.getProperty p t pr m i n) (pass pre (fv0, c0))) h1
    have hpass : pass post (step (.getProperty p t pr m i n) (pass pre (fv0, c0))) =
        pass vs (fv0, c0) := by
      rw [hvs]
      simp only [pass, List.foldl_append, List.foldl_cons]
    rw [hpass] at h2
    obtain ⟨u, hu, hk⟩ := hfin.named p2 _ hp2
    rw [h2] at hk
    cases hk
    exact hu

end FindVars

namespace Module

theorem quiet_append {t : List Event} {es : List Event} (h : quiet t)
    (hes : ∀ e ∈ es, e.isToolchain = false) : quiet (t ++ es) := by
  intro e he
  rcases List.mem_append.1 he with he | he
  · exact h e he
  · exact hes e he

theorem quiet_log {w : World} {e : Event} (h : quiet w.trace) (he : e.isToolchain = false) :
    quiet (w.log e).trace :=
  quiet_append h (by intro x hx; rw [List.mem_singleton.1 hx]; exact he)

theorem quiet_writeFile {w : World} (path content : String) (h : quiet w.trace) :
    quiet (writeFile path content w).trace :=
  quiet_append h (by intro x hx; rw [List.mem_singleton.1 hx]; rfl)

theorem quiet_appendFile {w : World} (path content : String) (h : quiet w.trace) :
    quiet (appendFile path content w).trace :=
  quiet_append h (by intro x hx; rw [List.mem_singleton.1 hx]; rfl)

theorem generateDefault_frame (env : Env) :
    ∀ (funcs : List Stmt) (d : Bool) (m : Module) (w : World), quiet w.trace →
      Frame m (generateDefault env funcs d m w)
  | [], _, _, _, h => ⟨h, rfl, rfl, rfl, rfl, rfl⟩
  | func :: rest, d, m, w, h => by
    unfold generateDefault
    split
    · exact ⟨quiet_log h rfl, rfl, rfl, rfl, rfl, rfl⟩
    · split
      · exact ⟨quiet_log (quiet_log h rfl) rfl, rfl, rfl, rfl, rfl, rfl⟩
      · exact generateDefault_frame env rest true _ _ (quiet_log (quiet_log h rfl) rfl)

theorem generateLLVM_frame (env : Env) :
    ∀ (funcs : List Stmt) (d : Bool) (g : CodeGen_LLVM) (m : Module) (w : World),
      quiet w.trace → Frame m (generateLLVM env funcs d g m w)
  | [], _, _, _, _, h => ⟨h, rfl, rfl, rfl, rfl, rfl⟩
  | func :: rest, d, g, m, w, h => by
    unfold generateLLVM
    split
    · exact ⟨quiet_log h rfl, rfl, rfl, rfl, rfl, rfl⟩
    · split
      · exact ⟨quiet_log (quiet_log h rfl) rfl, rfl, rfl, rfl, rfl, rfl⟩
      · exact generateLLVM_frame env rest true _ _ _ (quiet_log (quiet_log h rfl) rfl)

theorem generate_frame (env : Env) (path pfx : String) (m : Module) (w : World)
    (h : quiet w.trace) : Frame m (generate env path pfx m w) := by
  unfold generate
  dsimp only
  split
  · split
    · exact generateDefault_frame env _ false { m with header := "", source := "" } w h
    · have hl := generateLLVM_frame env m.funcs false CodeGen_LLVM.new
        { m with header := "", source := "" } w h
      split
      · rename_i e m1 w1 heq
        rw [heq] at hl
        exact hl
      · rename_i g1 m1 w1 heq
        rw [heq] at hl
        split
        · exact ⟨quiet_writeFile _ _ hl.1, hl.2⟩
        · exact ⟨quiet_writeFile _ _ hl.1, hl.2⟩
  · exact ⟨h, rfl, rfl, rfl, rfl, rfl⟩

theorem compileToSource_frame (env : Env) (path pfx : String) (m : Module) (w : World)
    (h : quiet w.trace) : Frame m (compileToSource env path pfx m w) := by
  have hg := generate_frame env path pfx m w h
  unfold compileToSource
  split
  · rename_i e m1 w1 heq
    rw [heq] at hg
    exact hg
  · rename_i m1 w1 heq
    rw [heq] at hg
    exact ⟨quiet_writeFile _ _ (quiet_writeFile _ _ hg.1), hg.2⟩

theorem writeShims_quiet (env : Env) (funcs : List Stmt) (path pfx : String) (w : World)
    (h : quiet w.trace) : quiet (writeShims env funcs path pfx w).trace := by
  have h1 : quiet (w.trace ++ funcs.map (fun _ => Event.generateShim)) :=
    quiet_append h (by
      intro e he
      obtain ⟨_, _, rfl⟩ := List.mem_map.1 he
      rfl)
  unfold writeShims
  dsimp only
  split
  · exact quiet_writeFile _ _ h1
  · exact quiet_appendFile _ _ h1

theorem compileAndLoad_failure (env : Env) (cmd0 fullpath : String) (m : Module) (w : World)
    (cmd : String) (files : Files) (err : Int)
    (hq : ∀ e ∈ w.trace, ∀ c f x, e = Event.system c f x → x = 0)
    (hq2 : ∀ e ∈ w.trace, (∀ h, e ≠ Event.dlclose h) ∧ (∀ p, e ≠ Event.dlopen p))
    (hrun : Event.system cmd files err ∈ (compileAndLoad env cmd0 fullpath m w).2.2.trace)
    (herr : err ≠ 0) :
    (compileAndLoad env cmd0 fullpath m w).1 = .error (compilationFailed cmd err) ∧
      (compileAndLoad env cmd0 fullpath m w).2.1.lib_handle = m.lib_handle ∧
      ∀ e ∈ (compileAndLoad env cmd0 fullpath m w).2.2.trace,
        (∀ h, e ≠ Event.dlclose h) ∧ (∀ p, e ≠ Event.dlopen p) := by
  unfold compileAndLoad at hrun ⊢
  simp only [runSystem] at hrun ⊢
  by_cases h0 : (env.system cmd0 w.files).1 = 0
  · exfalso
    simp only [h0, bne_self_eq_false, Bool.false_eq_true, if_false] at hrun
    have hmem : Event.system cmd files err ∈ w.trace ++ [Event.system cmd0 w.files 0] := by
      revert hrun
      cases m.lib_handle <;> cases env.dlopen fullpath _ <;>
        simp [World.log]
    rcases List.mem_append.1 hmem with h | h
    · exact herr (hq _ h _ _ _ rfl)
    · rw [List.mem_singleton] at h
      injection h with _ _ h3
      exact herr h3
  · have hne : ((env.system cmd0 w.files).1 != 0) = true := by simpa using h0
    simp only [hne, if_true] at hrun ⊢
    rcases List.mem_append.1 hrun with h | h
    · exact absurd (hq _ h _ _ _ rfl) herr
    · rw [List.mem_singleton] at h
      injection h with h1 h2 h3
      subst h1 h3
      refine ⟨rfl, trivial, ?_⟩
      intro e he
      rcases List.mem_append.1 he with he | he
      · exact hq2 e he
      · rw [List.mem_singleton.1 he]
        simp

/-- C7 fails as stated: the error does not carry the exit code. When the
compiler exits with code 1, `system` returns the status 256, and the error of
`compile` ends in `returned 256`; it is not the error that ends in
`returned 1`. -/
theorem compile_reports_wait_status :
    (compile failingEnv (exampleModule [] .C99) emptyWorld).1 =
        .error (.uerror ("Compilation command failed:\n" ++
          "cc -O3 -ffast-math -std=c99 -shared -fPIC /tmp/x.c  -o /tmp/x.so -lm" ++
          "\nreturned 256")) ∧
      (compile failingEnv (exampleModule [] .C99) emptyWorld).1 ≠
        .error (.uerror ("Compilation command failed:\n" ++
          "cc -O3 -ffast-math -std=c99 -shared -fPIC /tmp/x.c  -o /tmp/x.so -lm" ++
          "\nreturned 1")) ∧
      commandsRun (compile failingEnv (exampleModule [] .C99) emptyWorld).2.2.trace =
        ["cc -O3 -ffast-math -std=c99 -shared -fPIC /tmp/x.c  -o /tmp/x.so -lm"] ∧
      (failingEnv.system "cc -O3 -ffast-math -std=c99 -shared -fPIC /tmp/x.c  -o /tmp/x.so -lm"
        [("/tmp/x.c", "#include \"/tmp/x.h\"\n"), ("/tmp/x.h", "")]).1 = 256 ∧
      WEXITSTATUS 256 = 1 := by
  decide

/-- C7, amended: whenever `system` returns a nonzero value for a toolchain
command run by `compile` (the `llc` step or the compile-and-link command), as
it does when the command exits with a nonzero code, `compile` fails with the
error `Compilation command failed:` followed by that command line and
`returned` with the value that `system` returned (the termination status, not
the exit code), the handle of the loaded library is what it was before the
call, and the call has neither closed nor opened a library. -/
theorem compile_toolchain_failure (env : Env) (m : Module) (w : World) (cmd : String)
    (files : Files) (err : Int)
    (hrun : Event.system cmd files err ∈ (compile env m { w with trace := [] }).2.2.trace)
    (herr : err ≠ 0) :
    (compile env m { w with trace := [] }).1 =
        .error (.uerror ("Compilation command failed:\n" ++ cmd ++ "\nreturned " ++
          toString err)) ∧
      (compile env m { w with trace := [] }).2.1.lib_handle = m.lib_handle ∧
      ∀ e ∈ (compile env m { w with trace := [] }).2.2.trace,
        (∀ h, e ≠ Event.dlclose h) ∧ (∀ p, e ≠ Event.dlopen p) := by
  have hq0 : quiet ({ w with trace := [] } : World).trace := by
    intro e he
    cases he
  have hf := compileToSource_frame env m.tmpdir m.libname m { w with trace := [] } hq0
  have quiet_sys : ∀ (t : List Event), quiet t →
      ∀ e ∈ t, ∀ c f x, e = Event.system c f x → x = 0 := by
    intro t ht e he c f x hx
    have := ht e he
    rw [hx] at this
    cases this
  have quiet_dl : ∀ (t : List Event), quiet t →
      ∀ e ∈ t, (∀ h, e ≠ Event.dlclose h) ∧ (∀ p, e ≠ Event.dlopen p) := by
    intro t ht e he
    have := ht e he
    constructor
    · intro h hx
      rw [hx] at this
      cases this
    · intro p hx
      rw [hx] at this
      cases this
  unfold compile at hrun ⊢
  dsimp only at hrun ⊢
  split at hrun
  · rename_i e m1 w1 heq
    rw [heq] at hf
    exact absurd (quiet_sys _ hf.1 _ hrun _ _ _ rfl) herr
  · rename_i m1 w1 heq
    rw [heq] at hf
    obtain ⟨hq1, hlib, _, _, _, _⟩ := hf
    simp only at hq1 hlib
    have hq2 := writeShims_quiet env m1.funcs m1.tmpdir m1.libname w1 hq1
    split at hrun
    · rename_i hllvm
      simp only [hllvm, if_true]
      simp only [runSystem] at hrun ⊢
      by_cases h0 : (env.system (objectCommand m1)
          (writeShims env m1.funcs m1.tmpdir m1.libname w1).files).1 = 0
      · simp only [h0, bne_self_eq_false, Bool.false_eq_true, if_false] at hrun ⊢
        have hres := compileAndLoad_failure env _ _ m1 _ cmd files err
          (by
            intro e he c f x hx
            rcases List.mem_append.1 he with he | he
            · exact quiet_sys _ hq2 e he c f x hx
            · rw [List.mem_singleton.1 he] at hx
              injection hx with _ _ h3
              exact h3.symm)
          (by
            intro e he
            rcases List.mem_append.1 he with he | he
            · exact quiet_dl _ hq2 e he
            · rw [List.mem_singleton.1 he]
              simp)
          hrun herr
        exact ⟨hres.1, hres.2.1.trans hlib, hres.2.2⟩
      · have hne : ((env.system (objectCommand m1)
            (writeShims env m1.funcs m1.tmpdir m1.libname w1).files).1 != 0) = true := by
          simpa using h0
        simp only [hne, if_true] at hrun ⊢
        rcases List.mem_append.1 hrun with h | h
        · exact absurd (quiet_sys _ hq2 _ h _ _ _ rfl) herr
        · rw [List.mem_singleton] at h
          injection h with h1 h2 h3
          subst h1 h3
          refine ⟨rfl, hlib, ?_⟩
          intro e he
          rcases List.mem_append.1 he with he | he
          · exact quiet_dl _ hq2 e he
          · rw [List.mem_singleton.1 he]
            simp
    · rename_i hllvm
      simp only [hllvm, if_false]
      have hres := compileAndLoad_failure env _ _ m1 _ cmd files err
        (quiet_sys _ hq2) (quiet_dl _ hq2) hrun herr
      exact ⟨hres.1, hres.2.1.trans hlib, hres.2.2⟩

/-- C7, amended, at a concrete module: the compiler exits with code 1,
`system` returns 256, `compile` reports that command and the value 256, and
library 7 stays loaded. -/
theorem compile_toolchain_failure_witness :
    (compile failingEnv (exampleModule [] .C99) { emptyWorld with trace := [] }).1 =
        .error (.uerror ("Compilation command failed:\n" ++
          "cc -O3 -ffast-math -std=c99 -shared -fPIC /tmp/x.c  -o /tmp/x.so -lm" ++
          "\nreturned " ++ toString (256 : Int))) ∧
      (compile failingEnv (exampleModule [] .C99)
        { emptyWorld with trace := [] }).2.1.lib_handle = (exampleModule [] .C99).lib_handle ∧
      ∀ e ∈ (compile failingEnv (exampleModule [] .C99) { emptyWorld with trace := [] }).2.2.trace,
        (∀ h, e ≠ Event.dlclose h) ∧ (∀ p, e ≠ Event.dlopen p) :=
  compile_toolchain_failure failingEnv (exampleModule [] .C99) emptyWorld
    "cc -O3 -ffast-math -std=c99 -shared -fPIC /tmp/x.c  -o /tmp/x.so -lm"
    [("/tmp/x.c", "#include \"/tmp/x.h\"\n"), ("/tmp/x.h", "")] 256 (by decide) (by decide)

/-- C8, as stated, fails: after `setSource("int x;")` on a module with empty
source buffer and no functions, the file `/tmp/x.c` that the compiler finds
does not contain exactly `int x;`: the include line of the shims follows. -/
theorem setSource_file_not_exact :
    handedToToolchain "/tmp/x.c"
        (compile (okEnv false false) (setSource "int x;" (exampleModule [] .C99))
          emptyWorld).2.2.trace =
      [some "int x;#include \"/tmp/x.h\"\n"] ∧
    "int x;#include \"/tmp/x.h\"\n" ≠ "int x;" := by
  decide

/-- C9 fails when the target architecture is C99 and LLVM code generation
is enabled: `compileToSource` runs the default (portable C) generator and
writes no `.bc` file, yet `compile` runs `llc` on `/tmp/x.bc`, which does not
exist, and hands `/tmp/x.o` to the compiler. -/
theorem llc_step_without_bitcode :
    generatorsRun (compile (okEnv false true) (exampleModule [addKernel .B] .C99)
        emptyWorld).2.2.trace = [false] ∧
      filesWritten (compile (okEnv false true) (exampleModule [addKernel .B] .C99)
        emptyWorld).2.2.trace = ["/tmp/x.c", "/tmp/x.h", "/tmp/x.c"] ∧
      commandsRun (compile (okEnv false true) (exampleModule [addKernel .B] .C99)
        emptyWorld).2.2.trace =
        [ "llc --filetype=obj /tmp/x.bc -o /tmp/x.o",
          "cc -O3 -ffast-math -shared -fPIC /tmp/x.o /tmp/x.c -o /tmp/x.so -lm" ] ∧
      handedToToolchain "/tmp/x.bc" (compile (okEnv false true)
        (exampleModule [addKernel .B] .C99) emptyWorld).2.2.trace = [none, none] := by
  decide

theorem path_c_ne_h (p : String) : (p ++ ".c" == p ++ ".h") = false := by
  have : p ++ ".c" ≠ p ++ ".h" := by
    intro h
    have h2 := congrArg String.data h
    rw [String.data_append, String.data_append] at h2
    have h3 := List.append_cancel_left h2
    revert h3
    decide
  simpa using this

theorem filterMap_shims {β : Type} (f : Event → Option β) (hf : f Event.generateShim = none)
    (funcs : List Stmt) :
    (funcs.map (fun _ => Event.generateShim)).filterMap f = [] := by
  induction funcs with
  | nil => rfl
  | cons a l ih => simp [List.filterMap_cons, hf, ih]

theorem compileAndLoad_filterMap {β : Type} (f : Event → Option β)
    (hc : ∀ h, f (Event.dlclose h) = none) (ho : ∀ p, f (Event.dlopen p) = none)
    (env : Env) (cmd fullpath : String) (m : Module) (w : World) :
    (compileAndLoad env cmd fullpath m w).2.2.trace.filterMap f =
      w.trace.filterMap f ++
        [Event.system cmd w.files (env.system cmd w.files).1].filterMap f := by
  unfold compileAndLoad
  simp only [runSystem]
  split
  · simp [List.filterMap_append]
  · cases m.lib_handle <;> cases env.dlopen fullpath _ <;>
      simp [World.log, List.filterMap_append, List.filterMap_cons, hc, ho]

/-- The files and the log when `compile` reaches the toolchain, for a module
whose source was supplied by the caller, without CUDA. -/
theorem userSource_prepared (env : Env) (m : Module) (w : World)
    (hcuda : env.should_use_CUDA_codegen = false) (hu : m.moduleFromUserSource = true)
    (hw : w.trace = []) :
    compileToSource env m.tmpdir m.libname m w =
        (.ok (), m, writeFile (m.tmpdir ++ m.libname ++ ".h") m.header
          (writeFile (m.tmpdir ++ m.libname ++ ".c") m.source w)) ∧
      (writeShims env m.funcs m.tmpdir m.libname
        (writeFile (m.tmpdir ++ m.libname ++ ".h") m.header
          (writeFile (m.tmpdir ++ m.libname ++ ".c") m.source w))).files.lookup
          (m.tmpdir ++ m.libname ++ ".c") =
        some (m.source ++ ("#include \"" ++ m.tmpdir ++ m.libname ++ ".h\"\n" ++
          shimsText env m.funcs)) ∧
      (writeShims env m.funcs m.tmpdir m.libname
        (writeFile (m.tmpdir ++ m.libname ++ ".h") m.header
          (writeFile (m.tmpdir ++ m.libname ++ ".c") m.source w))).trace =
        [Event.writeFile (m.tmpdir ++ m.libname ++ ".c"),
          Event.writeFile (m.tmpdir ++ m.libname ++ ".h")] ++
          m.funcs.map (fun _ => Event.generateShim) ++
          [Event.appendFile (m.tmpdir ++ m.libname ++ ".c")] := by
  have hpc := path_c_ne_h (m.tmpdir ++ m.libname)
  have hpc2 : (m.tmpdir ++ m.libname ++ ".c" != m.tmpdir ++ m.libname ++ ".h") = true := by
    simp [bne, hpc]
  refine ⟨?_, ?_, ?_⟩
  · simp [compileToSource, generate, hcuda, hu]
  · simp [writeShims, hcuda, appendFile, writeFile, List.lookup, hpc, hpc2, List.filter_cons]
  · simp [writeShims, hcuda, appendFile, writeFile, hw]

theorem userSource_compile (env : Env) (m : Module) (w : World)
    (hcuda : env.should_use_CUDA_codegen = false) (hu : m.moduleFromUserSource = true) :
    ownSteps (compile env m { w with trace := [] }).2.2.trace =
        [Event.writeFile (m.tmpdir ++ m.libname ++ ".c"),
          Event.writeFile (m.tmpdir ++ m.libname ++ ".h")] ++
          m.funcs.map (fun _ => Event.generateShim) ++
          [Event.appendFile (m.tmpdir ++ m.libname ++ ".c")] ∧
      generatorsRun (compile env m { w with trace := [] }).2.2.trace = [] ∧
      handedToToolchain (m.tmpdir ++ m.libname ++ ".c")
          (compile env m { w with trace := [] }).2.2.trace =
        [some (m.source ++ ("#include \"" ++ m.tmpdir ++ m.libname ++ ".h\"\n" ++
          shimsText env m.funcs))] := by
  obtain ⟨h1, h2, h3⟩ := userSource_prepared env m { w with trace := [] } hcuda hu rfl
  have hcomp : compile env m { w with trace := [] } =
      compileAndLoad env (compileCommand env m) (m.tmpdir ++ m.libname ++ ".so") m
        (writeShims env m.funcs m.tmpdir m.libname
          (writeFile (m.tmpdir ++ m.libname ++ ".h") m.header
            (writeFile (m.tmpdir ++ m.libname ++ ".c") m.source { w with trace := [] }))) := by
    unfold compile
    simp only [h1]
    simp [hu]
  rw [hcomp]
  refine ⟨?_, ?_, ?_⟩
  · unfold ownSteps
    rw [compileAndLoad_filterMap _ (fun _ => rfl) (fun _ => rfl), h3]
    simp [List.filterMap_append, List.filterMap_cons, filterMap_shims, Event.isToolchain]
  · unfold generatorsRun
    rw [compileAndLoad_filterMap _ (fun _ => rfl) (fun _ => rfl), h3]
    simp [List.filterMap_append, List.filterMap_cons, filterMap_shims]
  · unfold handedToToolchain
    rw [compileAndLoad_filterMap _ (fun _ => rfl) (fun _ => rfl), h3]
    simp only [List.filterMap_append, filterMap_shims, List.filterMap_cons, List.filterMap_nil,
      List.append_nil, List.nil_append, h2]

/-- C8, amended: after `setSource(s)` on a module whose source buffer is
empty, in the configuration without CUDA, `compile` runs no code generator on
the functions: its own steps are writing the source and header files, the
shim generator, and appending the shims; it runs one toolchain command, and the
file `<tmpdir><libname>.c` that this command finds holds the supplied text `s`
followed by the include line of the header and the shims of the added
functions. -/
theorem setSource_compile (env : Env) (s : String) (m : Module) (w : World)
    (hcuda : env.should_use_CUDA_codegen = false) (hsrc : m.source = "") :
    ownSteps (compile env (setSource s m) { w with trace := [] }).2.2.trace =
        [Event.writeFile (m.tmpdir ++ m.libname ++ ".c"),
          Event.writeFile (m.tmpdir ++ m.libname ++ ".h")] ++
          m.funcs.map (fun _ => Event.generateShim) ++
          [Event.appendFile (m.tmpdir ++ m.libname ++ ".c")] ∧
      generatorsRun (compile env (setSource s m) { w with trace := [] }).2.2.trace = [] ∧
      handedToToolchain (m.tmpdir ++ m.libname ++ ".c")
          (compile env (setSource s m) { w with trace := [] }).2.2.trace =
        [some (s ++ ("#include \"" ++ m.tmpdir ++ m.libname ++ ".h\"\n" ++
          shimsText env m.funcs))] := by
  have h := userSource_compile env (setSource s m) w hcuda rfl
  have hs : (setSource s m).source = s := by simp [setSource, hsrc]
  rw [hs] at h
  exact h

/-- C8, amended, at a concrete module: the text `int x;` and one function. -/
theorem setSource_compile_witness :
    ownSteps (compile (okEnv false false) (setSource "int x;" (exampleModule [addKernel .B] .C99))
        { emptyWorld with trace := [] }).2.2.trace =
        [Event.writeFile ("/tmp/" ++ "x" ++ ".c"), Event.writeFile ("/tmp/" ++ "x" ++ ".h")] ++
          [addKernel .B].map (fun _ => Event.generateShim) ++
          [Event.appendFile ("/tmp/" ++ "x" ++ ".c")] ∧
      generatorsRun (compile (okEnv false false)
        (setSource "int x;" (exampleModule [addKernel .B] .C99))
        { emptyWorld with trace := [] }).2.2.trace = [] ∧
      handedToToolchain ("/tmp/" ++ "x" ++ ".c")
          (compile (okEnv false false) (setSource "int x;" (exampleModule [addKernel .B] .C99))
            { emptyWorld with trace := [] }).2.2.trace =
        [some ("int x;" ++ ("#include \"" ++ "/tmp/" ++ "x" ++ ".h\"\n" ++
          shimsText (okEnv false false) [addKernel .B]))] :=
  setSource_compile (okEnv false false) "int x;" (exampleModule [addKernel .B] .C99) emptyWorld
    rfl rfl

theorem chars_length : chars.length = 34 := by decide

theorem randint_lt (env : Env) (gen : Nat) : (randint env gen).1 < chars.length := by
  rw [chars_length]
  unfold randint
  simp only [chars_length]
  omega

theorem draws_length (env : Env) : ∀ (count gen : Nat), (draws env count gen).1.length = count
  | 0, _ => rfl
  | count + 1, gen => by
    simp only [draws, List.length_cons, draws_length env count]

theorem draws_lt (env : Env) :
    ∀ (count gen : Nat), ∀ i ∈ (draws env count gen).1, i < chars.length
  | 0, _ => by simp [draws]
  | count + 1, gen => by
    intro i hi
    simp only [draws, List.mem_cons] at hi
    rcases hi with rfl | hi
    · exact randint_lt env gen
    · exact draws_lt env count _ i hi

theorem chars_get_mem : ∀ i, i < 34 → chars.get ⟨i⟩ ∈ chars.toList := by
  decide

/-- C10: for every random engine and every state of it, `setJITLibname`
sets `libname` to twelve characters, each from the alphabet `chars`; the twelve
indices drawn are all below the length of the alphabet, which has the 34
characters `a` to `z` without `l` and `o`, followed by the ten digits. -/
theorem setJITLibname_alphabet (env : Env) (m : Module) (w : World) :
    (setJITLibname env m w).1.libname.length = 12 ∧
      (∀ c ∈ (setJITLibname env m w).1.libname.toList, c ∈ chars.toList) ∧
      (draws env 12 w.gen).1.length = 12 ∧
      (∀ i ∈ (draws env 12 w.gen).1, i < chars.length) ∧
      chars.length = 34 ∧
      chars.toList =
        "abcdefghijklmnopqrstuvwxyz".toList.filter (fun c => c != 'l' && c != 'o') ++
          "0123456789".toList := by
  refine ⟨?_, ?_, draws_length env 12 w.gen, draws_lt env 12 w.gen, chars_length, by decide⟩
  · simp [setJITLibname, String.length, draws_length]
  · intro c hc
    simp only [setJITLibname, String.toList, List.mem_map] at hc
    obtain ⟨i, hi, rfl⟩ := hc
    exact chars_get_mem i (by rw [← chars_length]; exact draws_lt env 12 w.gen i hi)

end Module

namespace FindVars

/-- C2 at a pass in which the values of `A` are read through three
`GetProperty` visits (two nodes, one visited twice) and those of `B` through
one, with a visit of the loop variable `i` in between: the two nodes of `A`
are mapped to `A_vals0`, the name generated at the first visit, the node of
`B` to `B_vals2`, and three names have been requested in all (two for the
tuples and one for `i`). -/
theorem canonical_property_names_witness :
    find 6 (pass exampleVisits (exampleFindVars, 0)).1.varMap = some "A_vals0" ∧
      find 10 (pass exampleVisits (exampleFindVars, 0)).1.varMap = some "A_vals0" ∧
      find 7 (pass exampleVisits (exampleFindVars, 0)).1.varMap = some "B_vals2" ∧
      (pass exampleVisits (exampleFindVars, 0)).2 = 3 :=
  have h := canonical_property_names [tensorVar 2 "B", tensorVar 3 "C"] [tensorVar 1 "A"]
    exampleFindVars 0 exampleVisits (by decide)
    (by
      intro p k h
      simp only [exampleVisits, gpNodes, List.mem_cons, Prod.mk.injEq, List.mem_nil_iff,
        or_false] at h
      rcases h with ⟨rfl, _⟩ | ⟨rfl, _⟩ | ⟨rfl, _⟩ | ⟨rfl, _⟩ <;> decide)
    (by
      intro p k1 k2 h1 h2
      simp only [exampleVisits, gpNodes, List.mem_cons, Prod.mk.injEq, List.mem_nil_iff,
        or_false] at h1 h2
      rcases h1 with ⟨rfl, rfl⟩ | ⟨rfl, rfl⟩ | ⟨rfl, rfl⟩ | ⟨rfl, rfl⟩ <;>
        rcases h2 with ⟨h, rfl⟩ | ⟨h, rfl⟩ | ⟨h, rfl⟩ | ⟨h, rfl⟩ <;>
        first | rfl | (exfalso; revert h; decide))
  ⟨h.2.2 [] _ 6 _ _ _ _ "A_vals" rfl (by decide) 6 (by decide),
   h.2.2 [] _ 6 _ _ _ _ "A_vals" rfl (by decide) 10 (by decide),
   h.2.2 [.getProperty 6 (tensorVar 1 "A") .Values 0 0 "A_vals",
       .forVar (.Var 4 "i" Datatype.Int32), .var 4 "i"] _ 7 _ _ _ _ "B_vals" rfl
     (by decide) 7 (by decide),
   by decide⟩

end FindVars

namespace Module

/-- C12 fails: when `getFuncPtr` yields the null pointer, `callFuncPackedRaw`
raises no error of its own; it goes on to the call through the pointer,
with the parallel configuration of the compiler already in place (in a build
with OpenMP) and not put back. -/
theorem callFuncPackedRaw_null_pointer (env : Env) (rt : Runtime) (m : Module) (name : String)
    (args : List Val) (p : Process) (hnull : getFuncPtr rt m name = none) :
    callFuncPackedRaw env rt m name args p =
        callThrough rt none args (if env.USE_OPENMP then overrideParallel rt p else p) ∧
      (callFuncPackedRaw env rt m name args p).1 = .error (.nullDeref "func_ptr") ∧
      (∀ msg, (callFuncPackedRaw env rt m name args p).1 ≠ .error (.uerror msg)) := by
  have h : callFuncPackedRaw env rt m name args p =
      callThrough rt none args (if env.USE_OPENMP then overrideParallel rt p else p) := by
    cases hopenmp : env.USE_OPENMP <;> simp [callFuncPackedRaw, hopenmp, hnull, callThrough]
  refine ⟨h, ?_, ?_⟩
  · rw [h]; rfl
  · intro msg
    rw [h]
    simp [callThrough]

/-- C12 at a module on which `compile` has not run (null library handle):
the symbol is not found and the call goes through the null pointer, with four
threads and a dynamic schedule left in place. -/
theorem callFuncPackedRaw_null_pointer_witness :
    getFuncPtr exampleRuntime { exampleModule [] .C99 with lib_handle := none } "compute" = none ∧
      callFuncPackedRaw { okEnv false false with USE_OPENMP := true } exampleRuntime
          { exampleModule [] .C99 with lib_handle := none } "compute" [] exampleProcess =
        (.error (.nullDeref "func_ptr"),
          { omp := ⟨.omp_sched_dynamic, 16, 4⟩, mem := exampleProcess.mem }) :=
  ⟨by decide,
   (callFuncPackedRaw_null_pointer { okEnv false false with USE_OPENMP := true } exampleRuntime
      { exampleModule [] .C99 with lib_handle := none } "compute" [] exampleProcess
      (by decide)).1.trans (by decide)⟩

end Module

namespace FindVars

theorem find_assign_eq_none {κ : Type} [DecidableEq κ] (k key : κ) (v : String)
    (m : List (κ × String)) : find k (assign key v m) = none ↔ k ≠ key ∧ find k m = none := by
  by_cases h : k = key
  · subst h
    simp [find_assign_self]
  · simp [find_assign_ne k key h, h]

theorem addInputs_ok_iff : ∀ (l : List Expr) (fv : FindVars),
    (∃ fv1, addInputs l fv = .ok fv1) ↔
      (∀ v ∈ l, isVar v = true) ∧ (l.map nodeAddr).Nodup ∧
        ∀ v ∈ l, find (nodeAddr v) fv.varMap = none
  | [], fv => by simp [addInputs]
  | v :: rest, fv => by
    cases v with
    | Var p name t =>
      by_cases hc : find p fv.varMap = none
      · have hc1 : (count p fv.varMap == 0) = true := (count_eq_zero p fv.varMap).2 hc
        simp only [addInputs, hc1, if_true]
        rw [addInputs_ok_iff rest]
        simp only [List.mem_cons, forall_eq_or_imp, isVar, List.map_cons, List.nodup_cons,
          nodeAddr, hc, true_and, List.mem_map, not_exists, not_and, find_assign_eq_none]
        constructor
        · rintro ⟨h1, h2, h3⟩
          exact ⟨h1, ⟨fun x hx he => (h3 x hx).1 he, h2⟩, fun x hx => (h3 x hx).2⟩
        · rintro ⟨h1, ⟨h2, h3⟩, h4⟩
          exact ⟨h1, h3, fun x hx => ⟨fun he => h2 x hx he, h4 x hx⟩⟩
      · have hc1 : (count p fv.varMap == 0) = false := by
          rw [Bool.eq_false_iff, Ne, count_eq_zero]; exact hc
        simp only [addInputs, hc1]
        simp [nodeAddr, hc]
    | _ => simp [addInputs, isVar]

theorem addInputs_varMap : ∀ (l : List Expr) (fv fv1 : FindVars),
    addInputs l fv = .ok fv1 →
      ∀ k, find k fv1.varMap = none ↔ find k fv.varMap = none ∧ k ∉ l.map nodeAddr
  | [], fv, fv1, h => by cases h; simp
  | v :: rest, fv, fv1, h => by
    unfold addInputs at h
    split at h
    · split at h
      · intro k
        rw [addInputs_varMap rest _ _ h k]
        simp only [find_assign_eq_none, List.map_cons, List.mem_cons, nodeAddr, not_or]
        tauto
      · cases h
    · cases h

theorem addOutputs_ok_iff : ∀ (l : List Expr) (fv : FindVars),
    (∃ fv1, addOutputs l fv = .ok fv1) ↔
      (∀ v ∈ l, isVar v = true) ∧ (l.map nodeAddr).Nodup ∧
        ∀ v ∈ l, find (nodeAddr v) fv.varMap = none
  | [], fv => by simp [addOutputs]
  | v :: rest, fv => by
    cases v with
    | Var p name t =>
      by_cases hc : find p fv.varMap = none
      · have hc1 : (count p fv.varMap == 0) = true := (count_eq_zero p fv.varMap).2 hc
        simp only [addOutputs, hc1, if_true]
        rw [addOutputs_ok_iff rest]
        simp only [List.mem_cons, forall_eq_or_imp, isVar, List.map_cons, List.nodup_cons,
          nodeAddr, hc, true_and, List.mem_map, not_exists, not_and, find_assign_eq_none]
        constructor
        · rintro ⟨h1, h2, h3⟩
          exact ⟨h1, ⟨fun x hx he => (h3 x hx).1 he, h2⟩, fun x hx => (h3 x hx).2⟩
        · rintro ⟨h1, ⟨h2, h3⟩, h4⟩
          exact ⟨h1, h3, fun x hx => ⟨fun he => h2 x hx he, h4 x hx⟩⟩
      · have hc1 : (count p fv.varMap == 0) = false := by
          rw [Bool.eq_false_iff, Ne, count_eq_zero]; exact hc
        simp only [addOutputs, hc1]
        simp [nodeAddr, hc]
    | _ => simp [addOutputs, isVar]

theorem addInputs_error : ∀ (l : List Expr) (fv : FindVars) (e : Err),
    addInputs l fv = .error e →
      e = .ierror "Inputs must be vars in codegen" ∨
        ∃ v ∈ l, e = .ierror ("Duplicate input found in codegen: " ++ varName v)
  | [], _, _, h => by cases h
  | v :: rest, fv, e, h => by
    unfold addInputs at h
    split at h
    · split at h
      · rcases addInputs_error rest _ e h with h1 | ⟨w, hw, h1⟩
        · exact .inl h1
        · exact .inr ⟨w, List.mem_cons_of_mem _ hw, h1⟩
      · cases h
        exact .inr ⟨_, List.mem_cons_self _ _, rfl⟩
    · cases h
      exact .inl rfl

theorem addOutputs_error : ∀ (l : List Expr) (fv : FindVars) (e : Err),
    addOutputs l fv = .error e →
      e = .ierror "Outputs must be vars in codegen" ∨
        e = .ierror "Duplicate output found in codegen"
  | [], _, _, h => by cases h
  | v :: rest, fv, e, h => by
    unfold addOutputs at h
    split at h
    · split at h
      · exact addOutputs_error rest _ e h
      · cases h
        exact .inr rfl
    · cases h
      exact .inl rfl

/-- C13 fails as stated: construction succeeds for two inputs and an output
that are three different nodes all named `B`; and when the same node is passed
as input and as output, the message is `Duplicate output found in codegen`. -/
theorem new_accepts_equal_names :
    (∃ fv, FindVars.new [.Var 2 "B" Datatype.Int32, .Var 3 "B" Datatype.Int32]
        [.Var 1 "B" Datatype.Int32] = .ok fv) ∧
      FindVars.new [.Var 2 "B" Datatype.Int32] [.Var 2 "B" Datatype.Int32] =
        .error (.ierror "Duplicate output found in codegen") :=
  ⟨⟨_, rfl⟩, rfl⟩

/-- C13, amended: constructing `FindVars` succeeds if and only if all inputs
and outputs are `Var` nodes and no node occurs twice among them (nodes are
told apart by address, not by name); and when it fails, it is with one of the
assertions `Inputs must be vars in codegen`, `Duplicate input found in
codegen: ` followed by the name of an input, `Outputs must be vars in codegen`
or `Duplicate output found in codegen`. -/
theorem new_succeeds_iff (inputs outputs : List Expr) :
    ((∃ fv, FindVars.new inputs outputs = .ok fv) ↔
        (∀ v ∈ inputs ++ outputs, isVar v = true) ∧
          ((inputs ++ outputs).map nodeAddr).Nodup) ∧
      ∀ e, FindVars.new inputs outputs = .error e →
        e = .ierror "Inputs must be vars in codegen" ∨
        (∃ v ∈ inputs, e = .ierror ("Duplicate input found in codegen: " ++ varName v)) ∨
        e = .ierror "Outputs must be vars in codegen" ∨
        e = .ierror "Duplicate output found in codegen" := by
  constructor
  · cases h1 : addInputs inputs
        { varMap := [], varDecls := [], localVars := [], canonicalPropertyVar := [],
          outputProperties := [], inputTensors := [], outputTensors := [], inBlock := false } with
    | error e =>
      have hno := (addInputs_ok_iff inputs _).not.1 (by rw [h1]; simp)
      simp only [FindVars.new, h1, bind, Except.bind]
      constructor
      · rintro ⟨_, h⟩
        cases h
      intro hall
      exfalso
      apply hno
      refine ⟨fun v hv => hall.1 v (List.mem_append_left _ hv), ?_, fun v _ => rfl⟩
      have := hall.2
      rw [List.map_append] at this
      exact (List.nodup_append.1 this).1
    | ok fv1 =>
      have hin := (addInputs_ok_iff inputs _).1 ⟨fv1, h1⟩
      have hmap := addInputs_varMap inputs _ fv1 h1
      have hout := addOutputs_ok_iff outputs fv1
      have hsucc : (∃ fv, FindVars.new inputs outputs = .ok fv) ↔
          ∃ fv2, addOutputs outputs fv1 = .ok fv2 := by
        simp only [FindVars.new, h1, bind, Except.bind]
        cases addOutputs outputs fv1 <;> simp [pure, Except.pure]
      have hnil : ∀ k : Nat, find k ([] : List (Nat × String)) = none := fun _ => rfl
      rw [hsucc, hout, List.map_append, List.nodup_append]
      simp only [List.mem_append, hmap, hnil, true_and, List.Disjoint]
      constructor
      · rintro ⟨h2, h3, h4⟩
        refine ⟨fun v hv => hv.elim (hin.1 v) (h2 v), hin.2.1, h3, ?_⟩
        intro a ha hb
        obtain ⟨v, hv, rfl⟩ := List.mem_map.1 hb
        exact h4 v hv ha
      · rintro ⟨h2, _, h3, h4⟩
        exact ⟨fun v hv => h2 v (.inr hv), h3,
          fun v hv ha => h4 ha (List.mem_map_of_mem _ hv)⟩
  · intro e he
    simp only [FindVars.new, bind, Except.bind] at he
    split at he
    · rename_i e1 h1
      cases he
      rcases addInputs_error _ _ _ h1 with h | h
      · exact .inl h
      · exact .inr (.inl h)
    · rename_i fv1 h1
      split at he
      · rename_i e2 h2
        cases he
        rcases addOutputs_error _ _ _ h2 with h | h
        · exact .inr (.inr (.inl h))
        · exact .inr (.inr (.inr h))
      · cases he

/-- C13, amended, at the inputs `[B, C]` and the output `[A]` of the
kernel. -/
theorem new_succeeds_iff_witness :
    ∃ fv, FindVars.new [tensorVar 2 "B", tensorVar 3 "C"] [tensorVar 1 "A"] = .ok fv :=
  (new_succeeds_iff [tensorVar 2 "B", tensorVar 3 "C"] [tensorVar 1 "A"]).1.2
    ⟨by decide, by decide⟩

end FindVars

namespace CodeGen_LLVM

/-- C14 fails as stated: the error raised for a `Neg` node is the message
`Not Implemented for Neg.`, which names the operator and does not name the
backend; the same holds for `While`, whose message is `Not Implemented for
While`, and for `GetProperty` of `ValuesSize`. -/
theorem unsupported_message_without_backend :
    codegenExpr (.Neg (.Literal Datatype.Int32 1)) kernelEntryState =
        .error (.logic_error "Not Implemented for Neg.") ∧
      visit (.While (.Literal Datatype.Int32 1) .BlankLine) kernelEntryState =
        .error (.logic_error "Not Implemented for While") ∧
      codegenExpr (.GetProperty 9 (tensorVar 1 "A") .ValuesSize 0 0 "A_vals_size"
          Datatype.Int32) kernelEntryState =
        .error (.logic_error "GetProperty not implemented for ValuesSize") ∧
      mentions "Neg" "Not Implemented for Neg." = true ∧
      mentions "LLVM" "Not Implemented for Neg." = false ∧
      mentions "llvm" "Not Implemented for Neg." = false ∧
      mentions "LLVM" "Not Implemented for While" = false ∧
      mentions "llvm" "Not Implemented for While" = false ∧
      mentions "LLVM" "GetProperty not implemented for ValuesSize" = false ∧
      mentions "llvm" "GetProperty not implemented for ValuesSize" = false := by
  refine ⟨rfl, rfl, by decide, by decide, by decide, by decide, by decide, by decide,
    by decide, by decide⟩

/-- C14, amended: in every generator state, visiting a node of a kind that
is not lowered raises `logic_error` with the message `Not Implemented for `
followed by the operator and a full stop (no full stop for `While`), and
nothing else happens, the outcome being the same whatever the generator
holds; visiting a `GetProperty` of `ValuesSize` always raises, and the error is `GetProperty not implemented for ValuesSize`
when the tensor is bound and the type of the node has an LLVM type. None of
the messages names the backend. -/
theorem unsupported_nodes_raise :
    (∀ (e : Expr) (op : String) (g : CodeGen_LLVM), e.notLowered = some op →
        op ∈ notLoweredOperators ∧
        codegenExpr e g = .error (.logic_error (notImplemented op))) ∧
      (∀ (s : Stmt) (op : String) (g : CodeGen_LLVM), s.notLowered = some op →
        op ∈ notLoweredOperators ∧
        visit s g = .error (.logic_error (notImplemented op))) ∧
      (∀ (p pt : Nat) (name : String) (tt : Datatype) (mode index : Int) (n : String)
          (type : Datatype) (g : CodeGen_LLVM),
        ∃ err, codegenExpr (.GetProperty p (.Var pt name tt) .ValuesSize mode index n type) g =
            .error err ∧
          ((∃ tv, g.getSymbol name = .ok tv) → (∃ lt, llvmTypeOf type g = .ok lt) →
            err = .logic_error "GetProperty not implemented for ValuesSize")) ∧
      (∀ op ∈ notLoweredOperators,
        mentions "LLVM" (notImplemented op) = false ∧
        mentions "llvm" (notImplemented op) = false) := by
  refine ⟨?_, ?_, ?_, by decide⟩
  · intro e op g h
    cases e <;> simp only [Expr.notLowered] at h <;> cases h <;> exact ⟨by decide, rfl⟩
  · intro s op g h
    cases s <;> simp only [Stmt.notLowered] at h <;> cases h <;>
      refine ⟨by decide, ?_⟩ <;> rw [visit] <;> rfl
  · intro p pt name tt mode index n type g
    rw [codegenExpr]
    cases hs : g.getSymbol name with
    | error e => exact ⟨e, by simp [visitGetProperty, hs, bind, Except.bind], by simp⟩
    | ok tv =>
      cases hl : llvmTypeOf type g with
      | error e => exact ⟨e, by simp [visitGetProperty, hs, hl, bind, Except.bind], by simp⟩
      | ok lt =>
        exact ⟨_, by simp [visitGetProperty, hs, hl, bind, Except.bind, tensorPropertyToString],
          fun _ _ => rfl⟩

/-- C14, amended, at a `Sub` node and a `Print` statement. -/
theorem unsupported_nodes_raise_witness :
    codegenExpr (.Sub (.Literal Datatype.Int32 1) (.Literal Datatype.Int32 2)) CodeGen_LLVM.new =
        .error (.logic_error "Not Implemented for Sub.") ∧
      visit (.Print "x") CodeGen_LLVM.new = .error (.logic_error "Not Implemented for Print.") :=
  ⟨(unsupported_nodes_raise.1 (.Sub (.Literal Datatype.Int32 1) (.Literal Datatype.Int32 2))
      "Sub" CodeGen_LLVM.new rfl).2,
   (unsupported_nodes_raise.2.1 (.Print "x") "Print" CodeGen_LLVM.new rfl).2⟩

end CodeGen_LLVM

namespace CodeGen_LLVM

/-- C15 fails: for the function `if (B_vals[0]) A_vals[0] = 1;` the call
`compile` returns normally, with a module that does not pass the structural
verification (its block `true_bb` has two terminators and its block `false_ bb`
has none); the module built for the addition kernel passes it. -/
theorem visit_Function_returns_with_broken_module :
    (∃ g m, compile (ifKernel false) true CodeGen_LLVM.new = .ok g ∧ g.Module = some m ∧
        verifyModule m = true) ∧
      (∃ g m, compile (addKernel .B) true CodeGen_LLVM.new = .ok g ∧ g.Module = some m ∧
        verifyModule m = false) :=
  ⟨⟨_, _, rfl, rfl, by decide⟩, ⟨_, _, rfl, rfl, by decide⟩⟩

/-- C16 fails for the unsigned types: for an unsigned integer type of any
width, in any generator, `llvmTypeOf` raises the internal error `Unable to find
llvm type for` and yields no type, and the `Literal` visitor raises an internal
error instead of producing a constant; the signed types of the same widths are
mapped, and a signed literal gives a constant. -/
theorem llvmTypeOf_unsigned_raises (bits : Nat) (value : Int) (g : CodeGen_LLVM) :
    llvmTypeOf ⟨.UInt, bits⟩ g = .error (.ierror "Unable to find llvm type for ") ∧
      (∃ msg, visitLiteral ⟨.UInt, bits⟩ value g = .error (.ierror msg)) ∧
      llvmTypeOf ⟨.Int, bits⟩ kernelEntryState = .ok (.int bits) ∧
      visitLiteral ⟨.UInt, 32⟩ 7 kernelEntryState =
        .error (.ierror "Unable to find llvm type for ") ∧
      visitLiteral ⟨.Int, 32⟩ 7 kernelEntryState = .ok (.constInt 32 7) := by
  have h : llvmTypeOf ⟨.UInt, bits⟩ g = .error (.ierror "Unable to find llvm type for ") := rfl
  refine ⟨h, ?_, rfl, by decide, by decide⟩
  have hf : (DatatypeKind.UInt == DatatypeKind.Float) = false := rfl
  have hu : (DatatypeKind.UInt == DatatypeKind.UInt) = true := rfl
  simp only [visitLiteral, Datatype.isFloat, Datatype.isUInt, Datatype.getNumBits, h, hf, hu,
    if_true, Bool.false_eq_true, if_false, bind, Except.bind]
  split <;> exact ⟨_, rfl⟩

/-- C18 fails for `visit(Function)`: after the addition kernel has been
generated the scope stack is one deeper than before and the parameter `B` is
still bound; a second function compiled by the same generator, which has no
parameter `B`, is generated without error, its reference to `B` resolved to
argument 1 of the first function (function 0), and leaves the stack one deeper
again. -/
theorem visit_Function_leaves_scope :
    ∃ g1 g2, compile (addKernel .B) true CodeGen_LLVM.new = .ok g1 ∧
      CodeGen_LLVM.new.symbolTable.scopes.length = 1 ∧
      g1.symbolTable.scopes.length = 2 ∧
      g1.getSymbol "B" = .ok (.arg 0 1 tensorStructPtrTy) ∧
      compile staleKernel false g1 = .ok g2 ∧
      g2.Func = some 1 ∧
      g2.symbolTable.scopes.length = 3 ∧
      (emittedOps g2).map (fun bs => bs.head?.map (fun b => b.get? 4)) =
        some (some (some (.structGEP (.arg 0 1 tensorStructPtrTy) 6))) :=
  ⟨_, _, rfl, rfl, by decide, by decide, rfl, by decide, by decide, by decide⟩

/-- C19 fails for every mode other than 0: the code generated for reading
the dimension of mode `mode` is the same for all modes, and it reads element 0
of the dimension array. For the 3 by 4 matrix `B`, the function that stores
the dimension of mode 1 in `A` stores 3, while element 1 of the dimension
array is 4. -/
theorem getProperty_dimension_ignores_mode :
    (∀ mode : Int, generatedFunction (dimKernel mode) = generatedFunction (dimKernel 0)) ∧
      (generatedFunction (dimKernel 1)).bind
          (fun fn => callFunction fn [.ptr 0 0, .ptr 1 0] (matrixMemory (i32 0)) 2) =
        some (i32 0, matrixMemory (i32 3)) ∧
      loadCell (matrixMemory (i32 0)) 3 1 = some (i32 4) :=
  ⟨fun _ => rfl, by decide, by decide⟩

/-- C20 fails for `IfThenElse`: in the function generated for
`if (B_vals[0]) A_vals[0] = 1; else A_vals[0] = 2;` the block `true_bb` holds
the store of the then branch, a branch to `after_bb`, the store of the else
branch and a second branch to `after_bb`, and the block `false_ bb` is empty;
without else branch, `true_bb` ends with two branches to `after_bb` and
`false_ bb` is empty as well. -/
theorem ifThenElse_blocks_malformed :
    (generatedFunction (ifKernel true)).map blockOps = some
        [ ("entry",
            [ .structGEP (.arg 0 1 tensorStructPtrTy) 6,
              .bitCast (.inst 0 (.ptr (.ptr (.int 8)))) (.ptr (.ptr (.int 32))),
              .load (.inst 1 (.ptr (.ptr (.int 32)))),
              .inBoundsGEP (.inst 2 (.ptr (.int 32))) (.constInt 32 0),
              .load (.inst 3 (.ptr (.int 32))),
              .condBr (.inst 4 (.int 32)) 1 2 ]),
          ("true_bb",
            [ .structGEP (.arg 0 0 tensorStructPtrTy) 6,
              .bitCast (.inst 6 (.ptr (.ptr (.int 8)))) (.ptr (.ptr (.int 32))),
              .load (.inst 7 (.ptr (.ptr (.int 32)))),
              .inBoundsGEP (.inst 8 (.ptr (.int 32))) (.constInt 32 0),
              .store (.constInt 32 1) (.inst 9 (.ptr (.int 32))),
              .br 3,
              .structGEP (.arg 0 0 tensorStructPtrTy) 6,
              .bitCast (.inst 12 (.ptr (.ptr (.int 8)))) (.ptr (.ptr (.int 32))),
              .load (.inst 13 (.ptr (.ptr (.int 32)))),
              .inBoundsGEP (.inst 14 (.ptr (.int 32))) (.constInt 32 0),
              .store (.constInt 32 2) (.inst 15 (.ptr (.int 32))),
              .br 3 ]),
          ("false_ bb", []),
          ("after_bb", [ .br 4 ]),
          ("exit", [ .ret (.constInt 32 0) ]) ] ∧
      (generatedFunction (ifKernel true)).map (fun fn => fn.blocks.map BasicBlock.wellFormed) =
        some [true, false, false, true, true] ∧
      (generatedFunction (ifKernel false)).map
          (fun fn => (blockOps fn).map (fun b => (b.1, b.2.filter Op.isTerminator))) = some
        [ ("entry", [ .condBr (.inst 4 (.int 32)) 1 2 ]),
          ("true_bb", [ .br 3, .br 3 ]),
          ("false_ bb", []),
          ("after_bb", [ .br 4 ]),
          ("exit", [ .ret (.constInt 32 0) ]) ] := by
  refine ⟨by decide, by decide, by decide⟩

end CodeGen_LLVM

theorem bind_eq_ok {α β : Type} {x : Except Err α} {f : α → Except Err β} {b : β} :
    (x >>= f) = .ok b ↔ ∃ a, x = .ok a ∧ f a = .ok b := by
  cases x with
  | error e => simp [bind, Except.bind]
  | ok a => simp [bind, Except.bind]

theorem modifyNth_eq_some {α : Type} (f : α → α) :
    ∀ (i : Nat) (l r : List α), modifyNth f i l = some r →
      ∃ x, l[i]? = some x ∧ r = l.set i (f x)
  | _, [], _, h => by simp [modifyNth] at h
  | 0, x :: xs, r, h => by
    simp only [modifyNth, Option.some.injEq] at h
    exact ⟨x, by simp, by rw [← h]; rfl⟩
  | i + 1, x :: xs, r, h => by
    simp only [modifyNth, Option.map_eq_some'] at h
    obtain ⟨r1, h1, rfl⟩ := h
    obtain ⟨y, hy, rfl⟩ := modifyNth_eq_some f i xs r1 h1
    exact ⟨y, by simpa using hy, rfl⟩

/-! ### Appending instructions to a block -/

theorem appendInsts_nil : ∀ (i : Nat) (l : List BasicBlock), appendInsts [] i l = l
  | _, [] => by simp [appendInsts]
  | 0, b :: bs => by simp [appendInsts]
  | i + 1, b :: bs => by simp [appendInsts, appendInsts_nil i bs]

theorem appendAt_nil (ins : Option Nat) (l : List BasicBlock) : appendAt [] ins l = l := by
  cases ins with
  | none => rfl
  | some i => exact appendInsts_nil i l

theorem length_appendInsts (e : List Inst) :
    ∀ (i : Nat) (l : List BasicBlock), (appendInsts e i l).length = l.length
  | _, [] => by simp [appendInsts]
  | 0, b :: bs => rfl
  | i + 1, b :: bs => by simp [appendInsts, length_appendInsts e i bs]

theorem length_appendAt (e : List Inst) (ins : Option Nat) (l : List BasicBlock) :
    (appendAt e ins l).length = l.length := by
  cases ins with
  | none => rfl
  | some i => exact length_appendInsts e i l

theorem appendInsts_appendInsts (e1 e2 : List Inst) :
    ∀ (i : Nat) (l : List BasicBlock),
      appendInsts e2 i (appendInsts e1 i l) = appendInsts (e1 ++ e2) i l
  | _, [] => by simp [appendInsts]
  | 0, b :: bs => by simp [appendInsts]
  | i + 1, b :: bs => by simp [appendInsts, appendInsts_appendInsts e1 e2 i bs]

theorem appendAt_appendAt (e1 e2 : List Inst) (ins : Option Nat) (l : List BasicBlock) :
    appendAt e2 ins (appendAt e1 ins l) = appendAt (e1 ++ e2) ins l := by
  cases ins with
  | none => rfl
  | some i => exact appendInsts_appendInsts e1 e2 i l

theorem appendInsts_append_left (e : List Inst) :
    ∀ (i : Nat) (l r : List BasicBlock), i < l.length →
      appendInsts e i (l ++ r) = appendInsts e i l ++ r
  | _, [], _, h => by simp at h
  | 0, b :: bs, r, _ => rfl
  | i + 1, b :: bs, r, h => by
    simp only [List.cons_append, appendInsts, List.cons.injEq, true_and]
    exact appendInsts_append_left e i bs r (by simpa using h)

theorem appendInsts_append_right (e : List Inst) :
    ∀ (i : Nat) (l r : List BasicBlock), l.length ≤ i →
      appendInsts e i (l ++ r) = l ++ appendInsts e (i - l.length) r
  | i, [], r, _ => by simp
  | 0, b :: bs, r, h => by simp at h
  | i + 1, b :: bs, r, h => by
    simp only [List.cons_append, appendInsts, List.length_cons, Nat.add_sub_add_right,
      List.cons.injEq, true_and]
    exact appendInsts_append_right e i bs r (by simpa using h)

theorem appendAt_append_left (e : List Inst) (i : Nat) (l r : List BasicBlock)
    (h : i < l.length) : appendAt e (some i) (l ++ r) = appendAt e (some i) l ++ r :=
  appendInsts_append_left e i l r h

theorem appendAt_append_right (e : List Inst) (i : Nat) (l r : List BasicBlock)
    (h : l.length ≤ i) : appendAt e (some i) (l ++ r) = l ++ appendInsts e (i - l.length) r :=
  appendInsts_append_right e i l r h

theorem set_eq_appendInsts (x : Inst) :
    ∀ (i : Nat) (l : List BasicBlock) (b : BasicBlock), l[i]? = some b →
      l.set i ⟨b.name, b.insts ++ [x]⟩ = appendInsts [x] i l
  | _, [], _, h => by simp at h
  | 0, c :: bs, b, h => by
    simp only [List.getElem?_cons_zero, Option.some.injEq] at h
    subst h
    rfl
  | i + 1, c :: bs, b, h => by
    simp only [List.getElem?_cons_succ] at h
    simp [appendInsts, set_eq_appendInsts x i bs b h]

theorem mem_appendInsts (e : List Inst) :
    ∀ (i : Nat) (l : List BasicBlock) (b : BasicBlock), b ∈ appendInsts e i l →
      b ∈ l ∨ ∃ c ∈ l, b = { c with insts := c.insts ++ e }
  | _, [], _, h => by simp [appendInsts] at h
  | 0, c :: bs, b, h => by
    simp only [appendInsts, List.mem_cons] at h
    rcases h with rfl | h
    · exact .inr ⟨c, List.mem_cons_self _ _, rfl⟩
    · exact .inl (List.mem_cons_of_mem _ h)
  | i + 1, c :: bs, b, h => by
    simp only [appendInsts, List.mem_cons] at h
    rcases h with rfl | h
    · exact .inl (List.mem_cons_self _ _)
    · rcases mem_appendInsts e i bs b h with h1 | ⟨d, hd, rfl⟩
      · exact .inl (List.mem_cons_of_mem _ h1)
      · exact .inr ⟨d, List.mem_cons_of_mem _ hd, rfl⟩

theorem mem_appendAt (e : List Inst) (ins : Option Nat) (l : List BasicBlock) (b : BasicBlock)
    (h : b ∈ appendAt e ins l) : b ∈ l ∨ ∃ c ∈ l, b = { c with insts := c.insts ++ e } := by
  cases ins with
  | none => exact .inl h
  | some i => exact mem_appendInsts e i l b h

theorem getElem?_appendInsts_self (e : List Inst) :
    ∀ (i : Nat) (l : List BasicBlock) (b : BasicBlock), l[i]? = some b →
      (appendInsts e i l)[i]? = some ⟨b.name, b.insts ++ e⟩
  | _, [], _, h => by simp at h
  | 0, c :: bs, b, h => by
    simp only [List.getElem?_cons_zero, Option.some.injEq] at h
    subst h
    simp [appendInsts]
  | i + 1, c :: bs, b, h => by
    simp only [List.getElem?_cons_succ] at h
    simp [appendInsts, getElem?_appendInsts_self e i bs b h]

theorem getElem?_appendInsts_ne (e : List Inst) :
    ∀ (i j : Nat) (l : List BasicBlock), i ≠ j → (appendInsts e i l)[j]? = l[j]?
  | _, _, [], _ => by simp [appendInsts]
  | 0, 0, c :: bs, h => absurd rfl h
  | 0, j + 1, c :: bs, _ => by simp [appendInsts]
  | i + 1, 0, c :: bs, _ => by simp [appendInsts]
  | i + 1, j + 1, c :: bs, h => by
    simp only [appendInsts, List.getElem?_cons_succ]
    exact getElem?_appendInsts_ne e i j bs (by omega)

namespace CodeGen_LLVM

theorem blocks_of_module {g : CodeGen_LLVM} {m : LModule} {fi : Nat} {fn : LFunction}
    (hM : g.Module = some m) (hF : g.Func = some fi) (hfn : m.functions[fi]? = some fn) :
    g.blocks = fn.blocks := by
  simp [blocks, curFunc, hM, hF, hfn]

/-- Changing the current function changes the blocks accordingly. -/
theorem modifyFunc_view {f : LFunction → LFunction} {g g1 : CodeGen_LLVM}
    (h : g.modifyFunc f = .ok g1) :
    ∃ fn, g.curFunc = some fn ∧ g1.curFunc = some (f fn) ∧ g1.blocks = (f fn).blocks ∧
      g.blocks = fn.blocks ∧
      g1.nextValue = g.nextValue ∧ g1.insertBlock = g.insertBlock ∧ g1.Func = g.Func ∧
      g1.symbolTable = g.symbolTable := by
  unfold modifyFunc at h
  split at h
  · rename_i m fi hM hF
    split at h
    · rename_i fs hfs
      obtain ⟨fn, hfn, rfl⟩ := modifyNth_eq_some _ _ _ _ hfs
      cases h
      have hlt : fi < m.functions.length := by
        by_contra hc
        rw [List.getElem?_eq_none (by omega)] at hfn
        cases hfn
      refine ⟨fn, ?_, ?_, ?_, ?_, rfl, rfl, rfl, rfl⟩
      · simp [curFunc, hM, hF, hfn]
      · simp [curFunc, hF, hlt]
      · simp [blocks, curFunc, hF, hlt]
      · simp [blocks, curFunc, hM, hF, hfn]
    · cases h
  · cases h

/-- An instruction is appended to the insertion block. -/
theorem emit_view {op : Op} {ty : LType} {name : String} {g g1 : CodeGen_LLVM} {v : LValue}
    (h : g.emit op ty name = .ok (v, g1)) :
    (∃ bi, g.insertBlock = some bi ∧ bi < g.blocks.length) ∧
      g1.blocks = appendAt [⟨g.nextValue, ty, op, name⟩] g.insertBlock g.blocks ∧
      v = .inst g.nextValue ty ∧ g1.nextValue = g.nextValue + 1 ∧
      g1.insertBlock = g.insertBlock ∧ g1.Func = g.Func ∧ g1.symbolTable = g.symbolTable := by
  unfold emit at h
  obtain ⟨g2, h2, h⟩ := bind_eq_ok.1 h
  cases h
  unfold modifyInsertBlock at h2
  split at h2
  · rename_i m fi bi hM hF hB
    split at h2
    · cases h2
    · rename_i fn hfn
      split at h2
      · cases h2
      · rename_i bs hbs
        split at h2
        · rename_i fs hfs
          cases h2
          obtain ⟨b, hb, rfl⟩ := modifyNth_eq_some _ _ _ _ hbs
          obtain ⟨fn1, hfn1, rfl⟩ := modifyNth_eq_some _ _ _ _ hfs
          have hfn2 : m.functions[fi]? = some fn := by simpa using hfn
          have hlt : fi < m.functions.length := by
            by_contra hc
            rw [List.getElem?_eq_none (by omega)] at hfn2
            cases hfn2
          have hbi : bi < fn.blocks.length := by
            by_contra hc
            rw [List.getElem?_eq_none (by omega)] at hb
            cases hb
          refine ⟨⟨bi, hB, ?_⟩, ?_, rfl, rfl, rfl, rfl, rfl⟩
          · rw [blocks_of_module hM hF hfn2]; exact hbi
          · rw [blocks_of_module hM hF hfn2, hB, appendAt, ← set_eq_appendInsts _ bi _ b hb]
            simp [blocks, curFunc, hF, hlt]
        · cases h2
  · cases h2

theorem BasicBlockCreate_view {name : String} {g g1 : CodeGen_LLVM} {idx : Nat}
    (h : g.BasicBlockCreate name = .ok (idx, g1)) :
    idx = g.blocks.length ∧ g1.blocks = g.blocks ++ [⟨name, []⟩] ∧
      g1.nextValue = g.nextValue ∧ g1.insertBlock = g.insertBlock ∧ g1.Func = g.Func ∧
      g1.symbolTable = g.symbolTable := by
  unfold BasicBlockCreate at h
  split at h
  · cases h
  · rename_i fn hfn
    obtain ⟨g2, h2, h⟩ := bind_eq_ok.1 h
    cases h
    obtain ⟨fn1, hc, _, hb1, hb, hn, hi, hf, hs⟩ := modifyFunc_view h2
    rw [hfn] at hc
    cases hc
    exact ⟨by rw [hb], by rw [hb1, hb], hn, hi, hf, hs⟩

theorem addIncoming_view {phiId : Nat} {v : LValue} {bb : Nat} {g g1 : CodeGen_LLVM}
    (h : g.addIncoming phiId v bb = .ok g1) :
    g1.blocks = g.blocks.map (addIncomingBlock phiId v bb) ∧
      g1.nextValue = g.nextValue ∧ g1.insertBlock = g.insertBlock ∧ g1.Func = g.Func ∧
      g1.symbolTable = g.symbolTable := by
  unfold addIncoming at h
  obtain ⟨fn1, _, _, hb1, hb, hn, hi, hf, hs⟩ := modifyFunc_view h
  refine ⟨?_, hn, hi, hf, hs⟩
  rw [hb1, hb]
  rfl

end CodeGen_LLVM

namespace CodeGen_LLVM

/-! ### Expressions only append at the insertion point -/

theorem Appends.refl (g : CodeGen_LLVM) : Appends g g :=
  ⟨rfl, rfl, rfl, Nat.le_refl _, [], by simp, (appendAt_nil _ _).symm⟩

theorem Appends.trans {g g1 g2 : CodeGen_LLVM} (h1 : Appends g g1) (h2 : Appends g1 g2) :
    Appends g g2 := by
  obtain ⟨e1, he1, hb1⟩ := h1.blocks
  obtain ⟨e2, he2, hb2⟩ := h2.blocks
  refine ⟨h2.func.trans h1.func, h2.ins.trans h1.ins, h2.sym.trans h1.sym,
    Nat.le_trans h1.next h2.next, e1 ++ e2, ?_, ?_⟩
  · intro x hx
    rcases List.mem_append.1 hx with hx | hx
    · exact ⟨(he1 x hx).1, Nat.lt_of_lt_of_le (he1 x hx).2 h2.next⟩
    · exact ⟨Nat.le_trans h1.next (he2 x hx).1, (he2 x hx).2⟩
  · rw [hb2, hb1, h1.ins, appendAt_appendAt]

theorem emit_appends {op : Op} {ty : LType} {name : String} {g g1 : CodeGen_LLVM} {v : LValue}
    (h : g.emit op ty name = .ok (v, g1)) : Appends g g1 := by
  obtain ⟨_, hb, _, hn, hi, hf, hs⟩ := emit_view h
  refine ⟨hf, hi, hs, by omega, _, ?_, hb⟩
  intro x hx
  simp only [List.mem_singleton] at hx
  subst hx
  simp only
  omega

theorem Appends.building {g g1 : CodeGen_LLVM} (h : Appends g g1) (hB : g.Building) :
    g1.Building := by
  obtain ⟨e, he, hb⟩ := h.blocks
  obtain ⟨⟨bi, hbi, hlt⟩, hid⟩ := hB
  refine ⟨⟨bi, h.ins.trans hbi, by rw [hb, length_appendAt]; exact hlt⟩, ?_⟩
  intro b hb1 i hi
  rw [hb] at hb1
  rcases mem_appendAt _ _ _ _ hb1 with hb2 | ⟨c, hc, rfl⟩
  · exact Nat.lt_of_lt_of_le (hid b hb2 i hi) h.next
  · rcases List.mem_append.1 hi with hi | hi
    · exact Nat.lt_of_lt_of_le (hid c hc i hi) h.next
    · exact (he i hi).2

theorem CreateLoad_appends {p : LValue} {name : String} {g g1 : CodeGen_LLVM} {v : LValue}
    (h : g.CreateLoad p name = .ok (v, g1)) : Appends g g1 := by
  unfold CreateLoad at h
  split at h
  · exact emit_appends h
  · cases h

theorem CreateStructGEP_appends {p : LValue} {idx : Nat} {name : String} {g g1 : CodeGen_LLVM}
    {v : LValue} (h : g.CreateStructGEP p idx name = .ok (v, g1)) : Appends g g1 := by
  unfold CreateStructGEP at h
  split at h
  · split at h
    · split at h
      · exact emit_appends h
      · cases h
    · cases h
  · cases h

theorem CreateInBoundsGEP_appends {arr loc : LValue} {g g1 : CodeGen_LLVM} {v : LValue}
    (h : g.CreateInBoundsGEP arr loc = .ok (v, g1)) : Appends g g1 := by
  unfold CreateInBoundsGEP at h
  split at h
  · exact emit_appends h
  · cases h

theorem CreateBitCast_appends {p : LValue} {ty : LType} {g g1 : CodeGen_LLVM} {v : LValue}
    (h : g.CreateBitCast p ty = .ok (v, g1)) : Appends g g1 := by
  unfold CreateBitCast at h
  split at h
  · cases h; exact Appends.refl _
  · exact emit_appends h

theorem CreateAdd_appends {a b : LValue} {name : String} {g g1 : CodeGen_LLVM} {v : LValue}
    (h : g.CreateAdd a b name = .ok (v, g1)) : Appends g g1 := by
  unfold CreateAdd at h
  split at h
  · cases h; exact Appends.refl _
  · exact emit_appends h

theorem CreateMul_appends {a b : LValue} {name : String} {g g1 : CodeGen_LLVM} {v : LValue}
    (h : g.CreateMul a b name = .ok (v, g1)) : Appends g g1 := by
  unfold CreateMul at h
  split at h
  · cases h; exact Appends.refl _
  · exact emit_appends h

theorem CreateFAdd_appends {a b : LValue} {g g1 : CodeGen_LLVM} {v : LValue}
    (h : g.CreateFAdd a b = .ok (v, g1)) : Appends g g1 := by
  unfold CreateFAdd at h
  split at h
  · cases h; exact Appends.refl _
  · exact emit_appends h

theorem CreateFMul_appends {a b : LValue} {g g1 : CodeGen_LLVM} {v : LValue}
    (h : g.CreateFMul a b = .ok (v, g1)) : Appends g g1 := by
  unfold CreateFMul at h
  split at h
  · cases h; exact Appends.refl _
  · exact emit_appends h

theorem CreateZExt_appends {a : LValue} {ty : LType} {g g1 : CodeGen_LLVM} {v : LValue}
    (h : g.CreateZExt a ty = .ok (v, g1)) : Appends g g1 := by
  unfold CreateZExt at h
  split at h
  · cases h; exact Appends.refl _
  · split at h
    · cases h; exact Appends.refl _
    · exact emit_appends h

theorem CreateAlloca_appends {ty : LType} {g g1 : CodeGen_LLVM} {v : LValue}
    (h : g.CreateAlloca ty = .ok (v, g1)) : Appends g g1 :=
  emit_appends h

theorem CreateStore_emit {val p : LValue} {g g1 : CodeGen_LLVM}
    (h : g.CreateStore val p = .ok g1) :
    g.emit (.store val p) .void "" = .ok (.inst g.nextValue .void, g1) := by
  unfold CreateStore at h
  obtain ⟨⟨v, g2⟩, h2, h⟩ := bind_eq_ok.1 h
  cases h
  rw [h2, (emit_view h2).2.2.1]

theorem CreateBr_emit {dest : Nat} {g g1 : CodeGen_LLVM} (h : g.CreateBr dest = .ok g1) :
    g.emit (.br dest) .void "" = .ok (.inst g.nextValue .void, g1) := by
  unfold CreateBr at h
  obtain ⟨⟨v, g2⟩, h2, h⟩ := bind_eq_ok.1 h
  cases h
  rw [h2, (emit_view h2).2.2.1]

theorem CreateCondBr_emit {c : LValue} {t f : Nat} {g g1 : CodeGen_LLVM}
    (h : g.CreateCondBr c t f = .ok g1) :
    g.emit (.condBr c t f) .void "" = .ok (.inst g.nextValue .void, g1) := by
  unfold CreateCondBr at h
  obtain ⟨⟨v, g2⟩, h2, h⟩ := bind_eq_ok.1 h
  cases h
  rw [h2, (emit_view h2).2.2.1]

theorem visitVar_appends {name : String} {g g1 : CodeGen_LLVM} {v : LValue}
    (h : visitVar name g = .ok (v, g1)) : Appends g g1 := by
  unfold visitVar at h
  obtain ⟨s, _, h⟩ := bind_eq_ok.1 h
  split at h
  · exact CreateLoad_appends h
  · cases h; exact Appends.refl _

theorem visitGetProperty_appends {tensor : Expr} {property : TensorProperty} {type : Datatype}
    {g g1 : CodeGen_LLVM} {v : LValue}
    (h : visitGetProperty tensor property type g = .ok (v, g1)) : Appends g g1 := by
  unfold visitGetProperty at h
  split at h
  · obtain ⟨tv, _, h⟩ := bind_eq_ok.1 h
    obtain ⟨lt, _, h⟩ := bind_eq_ok.1 h
    split at h
    · obtain ⟨⟨a, ga⟩, ha, h⟩ := bind_eq_ok.1 h
      obtain ⟨⟨b, gb⟩, hb, h⟩ := bind_eq_ok.1 h
      exact ((CreateStructGEP_appends ha).trans (CreateLoad_appends hb)).trans
        (CreateLoad_appends h)
    · obtain ⟨⟨a, ga⟩, ha, h⟩ := bind_eq_ok.1 h
      obtain ⟨⟨b, gb⟩, hb, h⟩ := bind_eq_ok.1 h
      exact ((CreateStructGEP_appends ha).trans (CreateBitCast_appends hb)).trans
        (CreateLoad_appends h)
    all_goals first
      | cases h
      | (obtain ⟨⟨a, ga⟩, ha, h⟩ := bind_eq_ok.1 h
         obtain ⟨⟨b, gb⟩, hb, h⟩ := bind_eq_ok.1 h
         exact ((CreateStructGEP_appends ha).trans (CreateBitCast_appends hb)).trans
           (CreateLoad_appends h))
  · cases h

theorem codegenExpr_appends : ∀ (e : Expr) (g g1 : CodeGen_LLVM) (v : LValue),
    codegenExpr e g = .ok (v, g1) → Appends g g1
  | .Literal type value, g, g1, v, h => by
    rw [codegenExpr] at h
    obtain ⟨a, _, h⟩ := bind_eq_ok.1 h
    cases h
    exact Appends.refl _
  | .Var _ name _, g, g1, v, h => by
    rw [codegenExpr] at h
    exact visitVar_appends h
  | .Add type a b, g, g1, v, h => by
    rw [codegenExpr] at h
    obtain ⟨⟨x, gx⟩, hx, h⟩ := bind_eq_ok.1 h
    obtain ⟨⟨y, gy⟩, hy, h⟩ := bind_eq_ok.1 h
    have h1 := codegenExpr_appends a _ _ _ hx
    have h2 := codegenExpr_appends b _ _ _ hy
    dsimp only at h
    split at h
    · exact (h1.trans h2).trans (CreateFAdd_appends h)
    · exact (h1.trans h2).trans (CreateAdd_appends h)
  | .Mul type a b, g, g1, v, h => by
    rw [codegenExpr] at h
    obtain ⟨⟨x, gx⟩, hx, h⟩ := bind_eq_ok.1 h
    obtain ⟨⟨y, gy⟩, hy, h⟩ := bind_eq_ok.1 h
    have h1 := codegenExpr_appends a _ _ _ hx
    have h2 := codegenExpr_appends b _ _ _ hy
    dsimp only at h
    split at h
    · exact (h1.trans h2).trans (CreateFMul_appends h)
    · exact (h1.trans h2).trans (CreateMul_appends h)
  | .Load arr loc, g, g1, v, h => by
    rw [codegenExpr] at h
    obtain ⟨⟨x, gx⟩, hx, h⟩ := bind_eq_ok.1 h
    obtain ⟨⟨y, gy⟩, hy, h⟩ := bind_eq_ok.1 h
    obtain ⟨⟨z, gz⟩, hz, h⟩ := bind_eq_ok.1 h
    have h1 := codegenExpr_appends loc _ _ _ hx
    have h2 := codegenExpr_appends arr _ _ _ hy
    exact ((h1.trans h2).trans (CreateInBoundsGEP_appends hz)).trans (CreateLoad_appends h)
  | .GetProperty _ tensor property _ _ _ type, g, g1, v, h => by
    rw [codegenExpr] at h
    exact visitGetProperty_appends h
  | .Neg _, _, _, _, h => by rw [codegenExpr] at h; cases h
  | .Sqrt _, _, _, _, h => by rw [codegenExpr] at h; cases h
  | .Sub _ _, _, _, _, h => by rw [codegenExpr] at h; cases h
  | .Div _ _, _, _, _, h => by rw [codegenExpr] at h; cases h
  | .Rem _ _, _, _, _, h => by rw [codegenExpr] at h; cases h
  | .Min _ _, _, _, _, h => by rw [codegenExpr] at h; cases h
  | .Max _ _, _, _, _, h => by rw [codegenExpr] at h; cases h
  | .BitAnd _ _, _, _, _, h => by rw [codegenExpr] at h; cases h
  | .BitOr _ _, _, _, _, h => by rw [codegenExpr] at h; cases h
  | .Eq _ _, _, _, _, h => by rw [codegenExpr] at h; cases h
  | .Neq _ _, _, _, _, h => by rw [codegenExpr] at h; cases h
  | .Gt _ _, _, _, _, h => by rw [codegenExpr] at h; cases h
  | .Lt _ _, _, _, _, h => by rw [codegenExpr] at h; cases h
  | .Gte _ _, _, _, _, h => by rw [codegenExpr] at h; cases h
  | .Lte _ _, _, _, _, h => by rw [codegenExpr] at h; cases h
  | .And _ _, _, _, _, h => by rw [codegenExpr] at h; cases h
  | .Or _ _, _, _, _, h => by rw [codegenExpr] at h; cases h
  | .Cast _ _, _, _, _, h => by rw [codegenExpr] at h; cases h
  | .Call _ _ _, _, _, _, h => by rw [codegenExpr] at h; cases h
  | .Malloc _, _, _, _, h => by rw [codegenExpr] at h; cases h
  | .Sizeof _, _, _, _, h => by rw [codegenExpr] at h; cases h

end CodeGen_LLVM

namespace CodeGen_LLVM

theorem Appends.frame {g g1 : CodeGen_LLVM} (h : Appends g g1) : Frame g g1 := by
  obtain ⟨e, he, hb⟩ := h.blocks
  exact ⟨h.func, h.next, .inl h.ins, e, [], fun x hx => (he x hx).1, by simp [hb]⟩

theorem Frame.same (g : CodeGen_LLVM) : Frame g g := (Appends.refl g).frame

theorem Frame.len {g g1 : CodeGen_LLVM} (h : Frame g g1) :
    g.blocks.length ≤ g1.blocks.length := by
  obtain ⟨e, a, _, hb⟩ := h.blocks
  rw [hb, List.length_append, length_appendAt]
  omega

theorem Frame.comp {g g1 g2 : CodeGen_LLVM}
    (hv : ∃ bi, g.insertBlock = some bi ∧ bi < g.blocks.length)
    (h1 : Frame g g1) (h2 : Frame g1 g2) : Frame g g2 := by
  obtain ⟨e1, a1, he1, hb1⟩ := h1.blocks
  obtain ⟨e2, a2, he2, hb2⟩ := h2.blocks
  obtain ⟨bi, hbi, hlt⟩ := hv
  refine ⟨h2.func.trans h1.func, Nat.le_trans h1.next h2.next, ?_, ?_⟩
  · rcases h2.ins with h | ⟨b, hb, hle⟩
    · rw [h]; exact h1.ins
    · exact .inr ⟨b, hb, Nat.le_trans h1.len hle⟩
  · rcases h1.ins with h | ⟨b, hb, hle⟩
    · refine ⟨e1 ++ e2, a1 ++ a2, ?_, ?_⟩
      · intro x hx
        rcases List.mem_append.1 hx with hx | hx
        · exact he1 x hx
        · exact Nat.le_trans h1.next (he2 x hx)
      · rw [hb2, hb1, h, hbi]
        rw [appendAt_append_left _ _ _ _ (by rw [length_appendAt]; exact hlt),
          appendAt_appendAt, List.append_assoc]
    · refine ⟨e1, appendInsts e2 (b - g.blocks.length) a1 ++ a2, he1, ?_⟩
      rw [hb2, hb1, hb]
      rw [appendAt_append_right _ _ _ _ (by rw [length_appendAt]; exact hle),
        length_appendAt, List.append_assoc]

theorem Frame.above {X : List BasicBlock} {g g1 : CodeGen_LLVM} (h : Frame g g1)
    (ha : Above X g) : Above X g1 := by
  obtain ⟨Y, i, hY, hi, hle⟩ := ha
  obtain ⟨e, a, _, hb⟩ := h.blocks
  refine ⟨appendInsts e (i - X.length) Y ++ a, ?_⟩
  have hb1 : g1.blocks = X ++ (appendInsts e (i - X.length) Y ++ a) := by
    rw [hb, hi, hY]
    rw [appendAt_append_right _ _ _ _ hle, List.append_assoc]
  rcases h.ins with h1 | ⟨b, hb2, hle2⟩
  · exact ⟨i, hb1, h1.trans hi, hle⟩
  · refine ⟨b, hb1, hb2, ?_⟩
    rw [hY, List.length_append] at hle2
    omega

end CodeGen_LLVM

namespace CodeGen_LLVM

/-! ### The builder calls keep the generator building a function -/

theorem throw_bind_ne_ok {α β : Type} (e : Err) (f : α → Except Err β) (b : β) :
    ((throw e : Except Err α) >>= f) ≠ .ok b := by
  intro h
  cases h

theorem blocks_SetInsertPoint (i : Nat) (g : CodeGen_LLVM) :
    (g.SetInsertPoint i).blocks = g.blocks := rfl

theorem Building.setInsertPoint {g : CodeGen_LLVM} (hB : g.Building) (i : Nat)
    (hi : i < g.blocks.length) : (g.SetInsertPoint i).Building :=
  ⟨⟨i, rfl, hi⟩, hB.2⟩

theorem pushSymbol_view {name : String} {v : LValue} {g g1 : CodeGen_LLVM}
    (h : g.pushSymbol name v = .ok g1) :
    ∃ t, g.symbolTable.insert name v = .ok t ∧ g1 = { g with symbolTable := t } := by
  unfold pushSymbol at h
  obtain ⟨t, ht, h⟩ := bind_eq_ok.1 h
  cases h
  exact ⟨t, ht, rfl⟩

theorem removeSymbol_view {name : String} {g g1 : CodeGen_LLVM}
    (h : g.removeSymbol name = .ok g1) :
    ∃ t, g.symbolTable.remove name = .ok t ∧ g1 = { g with symbolTable := t } := by
  unfold removeSymbol at h
  obtain ⟨t, ht, h⟩ := bind_eq_ok.1 h
  cases h
  exact ⟨t, ht, rfl⟩

theorem BasicBlockCreate_building {name : String} {g g1 : CodeGen_LLVM} {idx : Nat}
    (h : g.BasicBlockCreate name = .ok (idx, g1)) (hB : g.Building) : g1.Building := by
  obtain ⟨_, hb, hn, hi, _, _⟩ := BasicBlockCreate_view h
  obtain ⟨⟨bi, hbi, hlt⟩, hid⟩ := hB
  refine ⟨⟨bi, hi.trans hbi, by rw [hb, List.length_append]; omega⟩, ?_⟩
  intro b hb1 i hi1
  rw [hb] at hb1
  rcases List.mem_append.1 hb1 with hb2 | hb2
  · rw [hn]; exact hid b hb2 i hi1
  · simp only [List.mem_singleton] at hb2
    subst hb2
    simp at hi1

theorem addIncomingInst_id (phiId : Nat) (v : LValue) (bb : Nat) (i : Inst) :
    (addIncomingInst phiId v bb i).id = i.id := by
  unfold addIncomingInst
  split
  · split <;> rfl
  · rfl

theorem addIncomingInst_of_ne {phiId : Nat} (v : LValue) (bb : Nat) {i : Inst}
    (h : i.id ≠ phiId) : addIncomingInst phiId v bb i = i := by
  unfold addIncomingInst
  split
  · rw [if_neg h]
  · rfl

theorem addIncomingBlock_of_ne {phiId : Nat} (v : LValue) (bb : Nat) {b : BasicBlock}
    (h : ∀ i ∈ b.insts, i.id ≠ phiId) : addIncomingBlock phiId v bb b = b := by
  unfold addIncomingBlock
  have : b.insts.map (addIncomingInst phiId v bb) = b.insts := by
    conv_rhs => rw [← List.map_id b.insts]
    exact List.map_congr_left (fun i hi => addIncomingInst_of_ne v bb (h i hi))
  rw [this]

theorem map_addIncomingBlock_of_lt {phiId : Nat} (v : LValue) (bb : Nat)
    {X : List BasicBlock} (h : ∀ b ∈ X, ∀ i ∈ b.insts, i.id < phiId) :
    X.map (addIncomingBlock phiId v bb) = X := by
  conv_rhs => rw [← List.map_id X]
  exact List.map_congr_left
    (fun b hb => addIncomingBlock_of_ne v bb (fun i hi => Nat.ne_of_lt (h b hb i hi)))

theorem addIncoming_building {phiId : Nat} {v : LValue} {bb : Nat} {g g1 : CodeGen_LLVM}
    (h : g.addIncoming phiId v bb = .ok g1) (hB : g.Building) : g1.Building := by
  obtain ⟨hb, hn, hi, _, _⟩ := addIncoming_view h
  obtain ⟨⟨bi, hbi, hlt⟩, hid⟩ := hB
  refine ⟨⟨bi, hi.trans hbi, by rw [hb, List.length_map]; exact hlt⟩, ?_⟩
  intro b hb1 i hi1
  rw [hb] at hb1
  obtain ⟨c, hc, rfl⟩ := List.mem_map.1 hb1
  simp only [addIncomingBlock, List.mem_map] at hi1
  obtain ⟨j, hj, rfl⟩ := hi1
  rw [addIncomingInst_id, hn]
  exact hid c hc j hj

theorem CreateICmpSLT_inst {id : Nat} {ty : LType} {b : LValue} {g : CodeGen_LLVM} :
    g.CreateICmpSLT (.inst id ty) b = g.emit (.icmpSLT (.inst id ty) b) (.int 1) "" := rfl

theorem CreateAdd_inst {id : Nat} {ty : LType} {b : LValue} {name : String}
    {g : CodeGen_LLVM} :
    g.CreateAdd (.inst id ty) b name = g.emit (.add (.inst id ty) b) ty name := rfl

end CodeGen_LLVM

namespace CodeGen_LLVM

theorem GetInsertBlock_view {g : CodeGen_LLVM} {pre : Nat} (h : g.GetInsertBlock = .ok pre) :
    g.insertBlock = some pre := by
  unfold GetInsertBlock at h
  split at h
  · cases h; assumption
  · cases h

/-- The first part of the lowering of a loop: the four blocks are created,
the pre-header branches to the header, and the header gets the PHI node of the
loop variable (still without incoming values), the comparison and the
conditional branch. -/
theorem For_header_steps {name : String} {T : LType} {ve : LValue}
    {g2 g3 g4 g5 g6 g7 g8 g9 g10 g11 : CodeGen_LLVM}
    {pre header body latch exit : Nat} {phi cond : LValue}
    (hB : g2.Building) (hpre : g2.insertBlock = some pre)
    (h3 : g2.BasicBlockCreate "for_header" = .ok (header, g3))
    (h4 : g3.BasicBlockCreate "for_body" = .ok (body, g4))
    (h5 : g4.BasicBlockCreate "for_latch" = .ok (latch, g5))
    (h6 : g5.BasicBlockCreate "for_exit" = .ok (exit, g6))
    (h7 : g6.CreateBr header = .ok g7)
    (h8 : (g7.SetInsertPoint header).CreatePHI T name = .ok (phi, g8))
    (h9 : g8.pushSymbol name phi = .ok g9)
    (h10 : g9.CreateICmpSLT phi ve = .ok (cond, g10))
    (h11 : g10.CreateCondBr cond body exit = .ok g11) :
    header = g2.blocks.length ∧ body = g2.blocks.length + 1 ∧ latch = g2.blocks.length + 2 ∧
      exit = g2.blocks.length + 3 ∧ pre < g2.blocks.length ∧
      (g7.SetInsertPoint header).nextValue = g2.nextValue + 1 ∧
      phi = .inst (g2.nextValue + 1) T ∧
      g11.blocks = appendAt [⟨g2.nextValue, .void, .br g2.blocks.length, ""⟩] (some pre) g2.blocks ++
        [ ⟨"for_header",
            [ ⟨g2.nextValue + 1, T, .phi [], name⟩,
              ⟨g2.nextValue + 2, .int 1, .icmpSLT (.inst (g2.nextValue + 1) T) ve, ""⟩,
              ⟨g2.nextValue + 3, .void,
                .condBr (.inst (g2.nextValue + 2) (.int 1)) (g2.blocks.length + 1)
                  (g2.blocks.length + 3), ""⟩ ]⟩,
          ⟨"for_body", []⟩, ⟨"for_latch", []⟩, ⟨"for_exit", []⟩ ] ∧
      g11.nextValue = g2.nextValue + 4 ∧ g11.insertBlock = some g2.blocks.length ∧
      g11.Func = g2.Func ∧ g2.symbolTable.insert name phi = .ok g11.symbolTable ∧
      g11.Building := by
  obtain ⟨⟨bi, hbi, hlt⟩, _⟩ := id hB
  rw [hpre] at hbi
  cases hbi
  obtain ⟨rfl, hb3, hn3, hi3, hf3, hs3⟩ := BasicBlockCreate_view h3
  obtain ⟨rfl, hb4, hn4, hi4, hf4, hs4⟩ := BasicBlockCreate_view h4
  obtain ⟨rfl, hb5, hn5, hi5, hf5, hs5⟩ := BasicBlockCreate_view h5
  obtain ⟨rfl, hb6, hn6, hi6, hf6, hs6⟩ := BasicBlockCreate_view h6
  have B6 : g6.Building := BasicBlockCreate_building h6 (BasicBlockCreate_building h5
    (BasicBlockCreate_building h4 (BasicBlockCreate_building h3 hB)))
  have hl3 : g3.blocks.length = g2.blocks.length + 1 := by rw [hb3]; simp
  have hl4 : g4.blocks.length = g2.blocks.length + 2 := by rw [hb4, hb3]; simp
  have hl5 : g5.blocks.length = g2.blocks.length + 3 := by rw [hb5, hb4, hb3]; simp
  have hb6' : g6.blocks = g2.blocks ++
      [⟨"for_header", []⟩, ⟨"for_body", []⟩, ⟨"for_latch", []⟩, ⟨"for_exit", []⟩] := by
    rw [hb6, hb5, hb4, hb3]; simp
  have hi6' : g6.insertBlock = some pre := by rw [hi6, hi5, hi4, hi3, hpre]
  have hn6' : g6.nextValue = g2.nextValue := by rw [hn6, hn5, hn4, hn3]
  -- the branch from the pre-header
  have e7 := CreateBr_emit h7
  obtain ⟨_, hb7, _, hn7, hi7, hf7, hs7⟩ := emit_view e7
  have B7 : g7.Building := (emit_appends e7).building B6
  rw [hi6', hb6', appendAt_append_left _ _ _ _ hlt, hn6'] at hb7
  rw [hn6'] at hn7
  -- the PHI node
  obtain ⟨_, hb8, hphi, hn8, hi8, hf8, hs8⟩ := emit_view h8
  have hlen7 : g7.blocks.length = g2.blocks.length + 4 := by
    rw [hb7, List.length_append, length_appendAt]; rfl
  have B7' : (g7.SetInsertPoint g2.blocks.length).Building :=
    B7.setInsertPoint _ (by rw [hlen7]; omega)
  have B8 : g8.Building := (emit_appends h8).building B7'
  have hX : (appendAt [⟨g2.nextValue, .void, .br g2.blocks.length, ""⟩] (some pre)
      g2.blocks).length = g2.blocks.length := length_appendAt _ _ _
  simp only [SetInsertPoint, blocks_SetInsertPoint] at hb8 hn8 hi8 hf8 hs8 hphi
  rw [show ({ g7 with insertBlock := some g2.blocks.length } : CodeGen_LLVM).blocks = g7.blocks
    from rfl, hb7, appendAt_append_right _ _ _ _ (by rw [hX]), hX, Nat.sub_self, hn7] at hb8
  rw [hn7] at hn8 hphi
  -- the symbol
  obtain ⟨t, ht, rfl⟩ := pushSymbol_view h9
  -- the comparison
  subst hphi
  rw [CreateICmpSLT_inst] at h10
  obtain ⟨_, hb10, hcond, hn10, hi10, hf10, hs10⟩ := emit_view h10
  have B9 : ({ g8 with symbolTable := t } : CodeGen_LLVM).Building := B8
  have B10 : g10.Building := (emit_appends h10).building B9
  simp only at hb10 hn10 hi10 hf10 hs10 hcond
  rw [show ({ g8 with symbolTable := t } : CodeGen_LLVM).blocks = g8.blocks from rfl, hi8, hb8,
    appendAt_append_right _ _ _ _ (by rw [hX]), hX, Nat.sub_self, hn8] at hb10
  rw [hn8] at hn10 hcond
  -- the conditional branch
  subst hcond
  have e11 := CreateCondBr_emit h11
  obtain ⟨_, hb11, _, hn11, hi11, hf11, hs11⟩ := emit_view e11
  have B11 : g11.Building := (emit_appends e11).building B10
  rw [hi10, hi8, hb10, appendAt_append_right _ _ _ _ (by rw [hX]), hX, Nat.sub_self,
    hn10] at hb11
  refine ⟨rfl, hl3, hl4, hl5, hlt, hn7, rfl, ?_, by rw [hn11, hn10], by rw [hi11, hi10, hi8],
    by rw [hf11, hf10, hf8, hf7, hf6, hf5, hf4, hf3], ?_, B11⟩
  · rw [hb11, hl3, hl5]
    rfl
  · rw [hs11, hs10]
    rw [hs8, hs7, hs6, hs5, hs4, hs3] at ht
    exact ht

end CodeGen_LLVM

namespace CodeGen_LLVM

/-- The second part of the lowering of a loop: the latch gets the increment,
the addition and the branch back to the header, and the PHI node gets its two
incoming pairs. -/
theorem For_latch_steps {name : String} {T : LType} {vs ve vi incr : LValue}
    {increment : Expr} {X : List BasicBlock} {k pre n : Nat}
    {g11 g12 g13 g14 g15 g16 : CodeGen_LLVM}
    (hB : g11.Building) (hXn : X.length = n) (hXid : ∀ b ∈ X, ∀ i ∈ b.insts, i.id < k)
    (hb11 : g11.blocks = X ++
      [ ⟨"for_header",
          [ ⟨k, T, .phi [], name⟩,
            ⟨k + 1, .int 1, .icmpSLT (.inst k T) ve, ""⟩,
            ⟨k + 2, .void, .condBr (.inst (k + 1) (.int 1)) (n + 1) (n + 3), ""⟩ ]⟩,
        ⟨"for_body", []⟩, ⟨"for_latch", []⟩, ⟨"for_exit", []⟩ ])
    (hn11 : g11.nextValue = k + 3)
    (h12 : codegenExpr increment (g11.SetInsertPoint (n + 2)) = .ok (vi, g12))
    (h13 : g12.CreateAdd (.inst k T) vi "" = .ok (incr, g13))
    (h14 : g13.CreateBr n = .ok g14)
    (h15 : g14.addIncoming k vs pre = .ok g15)
    (h16 : g15.addIncoming k incr (n + 2) = .ok g16) :
    ∃ L a, (∀ x ∈ L, k + 3 ≤ x.id ∧ x.id < a) ∧ k + 3 ≤ a ∧ incr = .inst a T ∧
      g16.blocks = X ++
        [ ⟨"for_header",
            [ ⟨k, T, .phi [(vs, pre), (.inst a T, n + 2)], name⟩,
              ⟨k + 1, .int 1, .icmpSLT (.inst k T) ve, ""⟩,
              ⟨k + 2, .void, .condBr (.inst (k + 1) (.int 1)) (n + 1) (n + 3),
                ""⟩ ]⟩,
          ⟨"for_body", []⟩,
          ⟨"for_latch", L ++ [⟨a, T, .add (.inst k T) vi, ""⟩, ⟨a + 1, .void, .br n, ""⟩]⟩,
          ⟨"for_exit", []⟩ ] ∧
      g16.nextValue = a + 2 ∧ g16.insertBlock = some (n + 2) ∧
      g16.Func = g11.Func ∧ g16.symbolTable = g11.symbolTable ∧ g16.Building := by
  subst hXn
  have hlen : g11.blocks.length = X.length + 4 := by rw [hb11]; simp
  have Bl : (g11.SetInsertPoint (X.length + 2)).Building :=
    hB.setInsertPoint _ (by rw [hlen]; omega)
  -- the increment
  have A12 := codegenExpr_appends _ _ _ _ h12
  have B12 := A12.building Bl
  obtain ⟨L, hL, hb12⟩ := A12.blocks
  have hi12 : g12.insertBlock = some (X.length + 2) := A12.ins
  have hnl : (g11.SetInsertPoint (X.length + 2)).nextValue = k + 3 := hn11
  rw [hnl] at hL
  rw [show (g11.SetInsertPoint (X.length + 2)).insertBlock = some (X.length + 2) from rfl,
    blocks_SetInsertPoint, hb11, appendAt_append_right _ _ _ _ (by omega),
    Nat.add_sub_cancel_left] at hb12
  simp only [appendInsts, List.nil_append] at hb12
  -- the addition
  rw [CreateAdd_inst] at h13
  obtain ⟨_, hb13, hincr, hn13, hi13, hf13, hs13⟩ := emit_view h13
  have B13 := (emit_appends h13).building B12
  rw [hi12, hb12, appendAt_append_right _ _ _ _ (by omega), Nat.add_sub_cancel_left] at hb13
  simp only [appendInsts] at hb13
  -- the branch back
  have e14 := CreateBr_emit h14
  obtain ⟨_, hb14, _, hn14, hi14, hf14, hs14⟩ := emit_view e14
  have B14 := (emit_appends e14).building B13
  rw [hi13, hi12, hb13, appendAt_append_right _ _ _ _ (by omega), Nat.add_sub_cancel_left,
    hn13] at hb14
  simp only [appendInsts, List.append_assoc, List.singleton_append] at hb14
  -- the incoming values
  have hk : k + 3 ≤ g12.nextValue := by
    have := A12.next
    rw [hnl] at this
    exact this
  have hlatch : ∀ i ∈ L ++ [(⟨g12.nextValue, T, .add (.inst k T) vi, ""⟩ : Inst),
      ⟨g12.nextValue + 1, .void, .br X.length, ""⟩], i.id ≠ k := by
    intro i hi
    simp only [List.mem_append, List.mem_cons, List.mem_singleton, List.not_mem_nil,
      or_false] at hi
    rcases hi with hi | rfl | rfl
    · have := (hL i hi).1
      omega
    · simp only; omega
    · simp only; omega
  obtain ⟨hb15, hn15, hi15, hf15, hs15⟩ := addIncoming_view h15
  obtain ⟨hb16, hn16, hi16, hf16, hs16⟩ := addIncoming_view h16
  have B16 := addIncoming_building h16 (addIncoming_building h15 B14)
  refine ⟨L, g12.nextValue, hL, hk, hincr, ?_, by rw [hn16, hn15, hn14, hn13],
    by rw [hi16, hi15, hi14, hi13, hi12], ?_, ?_, B16⟩
  · rw [hb16, hb15, hb14, hincr]
    have hl1 : ∀ (v : LValue) (bb : Nat), addIncomingBlock k v bb
        ⟨"for_latch", L ++ [(⟨g12.nextValue, T, .add (.inst k T) vi, ""⟩ : Inst),
          ⟨g12.nextValue + 1, .void, .br X.length, ""⟩]⟩ =
        ⟨"for_latch", L ++ [(⟨g12.nextValue, T, .add (.inst k T) vi, ""⟩ : Inst),
          ⟨g12.nextValue + 1, .void, .br X.length, ""⟩]⟩ :=
      fun v bb => addIncomingBlock_of_ne v bb hlatch
    simp only [List.map_append, List.map_cons, List.map_nil,
      map_addIncomingBlock_of_lt _ _ hXid, hl1]
    simp [addIncomingBlock, addIncomingInst]
  · rw [hf16, hf15, hf14, hf13]; exact A12.func
  · rw [hs16, hs15, hs14, hs13]; exact A12.sym

end CodeGen_LLVM

namespace CodeGen_LLVM

/-- The handler `visit(const For*)`, step by step. -/
theorem visit_For_steps {p : Nat} {name : String} {ty : Datatype}
    {start end_ increment : Expr} {contents : Stmt} {g g' : CodeGen_LLVM}
    (hB : g.Building)
    (h : visit (.For (.Var p name ty) start end_ increment contents) g = .ok g') :
    ∃ vs ve vi pre j a E L gb ga,
      ForSteps name start end_ increment contents g g' vs ve vi pre j a E L gb ga := by
  rw [visit] at h
  obtain ⟨⟨vs, g1⟩, h1, q1⟩ := bind_eq_ok.1 h
  clear h
  obtain ⟨⟨ve, g2⟩, h2, q2⟩ := bind_eq_ok.1 q1
  clear q1
  dsimp only at q2
  split at q2
  · exact absurd q2 (throw_bind_ne_ok _ _ _)
  rename_i hsty
  obtain ⟨_, _, q3⟩ := bind_eq_ok.1 q2
  clear q2
  split at q3
  · exact absurd q3 (throw_bind_ne_ok _ _ _)
  rename_i hety
  obtain ⟨_, _, q4⟩ := bind_eq_ok.1 q3
  clear q3
  obtain ⟨pre, hpre, q5⟩ := bind_eq_ok.1 q4
  clear q4
  obtain ⟨⟨header, g3⟩, h3, q6⟩ := bind_eq_ok.1 q5
  clear q5
  obtain ⟨⟨body, g4⟩, h4, q7⟩ := bind_eq_ok.1 q6
  clear q6
  obtain ⟨⟨latch, g5⟩, h5, q8⟩ := bind_eq_ok.1 q7
  clear q7
  obtain ⟨⟨exit, g6⟩, h6, q9⟩ := bind_eq_ok.1 q8
  clear q8
  obtain ⟨g7, h7, q10⟩ := bind_eq_ok.1 q9
  clear q9
  obtain ⟨⟨phi, g8⟩, h8, q11⟩ := bind_eq_ok.1 q10
  clear q10
  obtain ⟨g9, h9, q12⟩ := bind_eq_ok.1 q11
  clear q11
  obtain ⟨⟨cond, g10⟩, h10, q13⟩ := bind_eq_ok.1 q12
  clear q12
  obtain ⟨g11, h11, q14⟩ := bind_eq_ok.1 q13
  clear q13
  obtain ⟨⟨vi, g12⟩, h12, q15⟩ := bind_eq_ok.1 q14
  clear q14
  obtain ⟨⟨incr, g13⟩, h13, q16⟩ := bind_eq_ok.1 q15
  clear q15
  obtain ⟨g14, h14, q17⟩ := bind_eq_ok.1 q16
  clear q16
  obtain ⟨g15, h15, q18⟩ := bind_eq_ok.1 q17
  clear q17
  obtain ⟨g16, h16, q19⟩ := bind_eq_ok.1 q18
  clear q18
  obtain ⟨ga, hga, q20⟩ := bind_eq_ok.1 q19
  clear q19
  obtain ⟨g17, h17, q21⟩ := bind_eq_ok.1 q20
  clear q20
  dsimp only at h1 h2 hpre h3 h4 h5 h6 h7 h8 h9 h10 h11 h12 h13 h14 h15 h16 hga h17 q21
  -- start and end
  have A12 := (codegenExpr_appends _ _ _ _ h1).trans (codegenExpr_appends _ _ _ _ h2)
  have B2 := A12.building hB
  have hpre2 := GetInsertBlock_view hpre
  have hpre0 : g.insertBlock = some pre := by rw [← A12.ins]; exact hpre2
  obtain ⟨E, hE, hb2⟩ := A12.blocks
  have hlen2 : g2.blocks.length = g.blocks.length := by rw [hb2, length_appendAt]
  -- the header
  obtain ⟨rfl, rfl, rfl, rfl, hlt, hphiId, rfl, hb11, hn11, hi11, hf11, hs11, B11⟩ :=
    For_header_steps B2 hpre2 h3 h4 h5 h6 h7 h8 h9 h10 h11
  rw [hphiId] at h15 h16
  -- the latch
  have hX : (appendAt [(⟨g2.nextValue, .void, .br g2.blocks.length, ""⟩ : Inst)] (some pre)
      g2.blocks).length = g2.blocks.length := length_appendAt _ _ _
  have hXid : ∀ b ∈ appendAt [(⟨g2.nextValue, .void, .br g2.blocks.length, ""⟩ : Inst)]
      (some pre) g2.blocks, ∀ i ∈ b.insts, i.id < g2.nextValue + 1 := by
    intro b hb i hi
    rcases mem_appendAt _ _ _ _ hb with hb1 | ⟨c, hc, rfl⟩
    · exact Nat.lt_succ_of_lt (B2.2 b hb1 i hi)
    · rcases List.mem_append.1 hi with hi | hi
      · exact Nat.lt_succ_of_lt (B2.2 c hc i hi)
      · simp only [List.mem_singleton] at hi
        subst hi
        exact Nat.lt_succ_self _
  obtain ⟨L, a, hL, ha, rfl, hb16, hn16, hi16, hf16, hs16, B16⟩ :=
    For_latch_steps B11 hX hXid hb11 (by rw [hn11]) h12 h13 h14 h15 h16
  -- the end
  obtain ⟨t, ht, rfl⟩ := removeSymbol_view q21
  have hsym : g16.symbolTable = g11.symbolTable := hs16
  have hlen16 : g16.blocks.length = g2.blocks.length + 4 := by
    rw [hb16, List.length_append, hX]; rfl
  refine ⟨vs, ve, vi, pre, g2.nextValue, a, E, L, g16.SetInsertPoint (g2.blocks.length + 1), ga,
    ⟨g1, h1, g2, h2, rfl⟩, by simpa using hsty, by simpa using hety, hpre0,
    by rw [← hlen2]; exact hlt, hE, ?_, by omega, ?_, ?_, ?_, ?_, ?_, ?_, ?_, hga, ?_⟩
  · intro x hx
    have := hL x hx
    omega
  · exact ⟨g11.SetInsertPoint (g2.blocks.length + 2), g12, h12,
      by rw [← hlen2]; rfl, hsym.symm⟩
  · have hXeq : ∀ m : Nat,
        appendAt [(⟨g2.nextValue, .void, .br m, ""⟩ : Inst)] (some pre) g2.blocks =
          appendAt (E ++ [⟨g2.nextValue, .void, .br m, ""⟩]) (some pre) g.blocks := by
      intro m
      rw [hb2, hpre0, appendAt_appendAt]
    rw [blocks_SetInsertPoint, hb16, hXeq, ← hlen2]
    rfl
  · rw [← hlen2]; rfl
  · exact hf16.trans (hf11.trans A12.func)
  · exact hn16
  · rw [← A12.sym]
    exact hs11.trans (by rw [← hsym]; rfl)
  · exact B16.setInsertPoint _ (by rw [hlen16]; omega)
  · have hs17 : g17.symbolTable = ga.symbolTable := (emit_view (CreateBr_emit h17)).2.2.2.2.2.2
    exact ⟨g17, t, by rw [← hlen2]; exact h17, by rw [← hs17]; exact ht, by rw [← hlen2]⟩

end CodeGen_LLVM

namespace CodeGen_LLVM

theorem emitExternalCall_appends {funcName : String} {returnType : LType}
    {argTypes : List LType} {args : List LValue} {name : String} {g g1 : CodeGen_LLVM}
    {v : LValue} (h : g.emitExternalCall funcName returnType argTypes args name = .ok (v, g1)) :
    Appends g g1 := by
  unfold emitExternalCall at h
  split at h
  · cases h
  · rename_i m hM
    have A := emit_appends h
    have hb0 : ∀ decls, ({ g with Module := some { m with declarations := decls } } :
        CodeGen_LLVM).blocks = g.blocks := by
      intro decls
      simp only [blocks, curFunc, hM]
      cases g.Func <;> rfl
    obtain ⟨e, he, hb⟩ := A.blocks
    exact ⟨A.func, A.ins, A.sym, A.next, e, he, by rw [hb, hb0]⟩

theorem Above.of_append {X Y : List BasicBlock} {g : CodeGen_LLVM} {i : Nat}
    (hb : g.blocks = X ++ Y) (hi : g.insertBlock = some i) (hle : X.length ≤ i) : Above X g :=
  ⟨Y, i, hb, hi, hle⟩

/-- The conclusion of the frame property for a visit that starts by
appending `extra` at the insertion point `pre` and creating blocks, and goes on
in the new blocks. -/
theorem Frame.of_above {g g5 g9 : CodeGen_LLVM} {pre : Nat} {extra : List Inst}
    {Y : List BasicBlock} {i : Nat}
    (hpre : g.insertBlock = some pre)
    (hextra : ∀ x ∈ extra, g.nextValue ≤ x.id)
    (hb5 : g5.blocks = appendAt extra (some pre) g.blocks ++ Y)
    (hi5 : g5.insertBlock = some i) (hle : g.blocks.length ≤ i)
    (hf5 : g5.Func = g.Func) (hn5 : g.nextValue ≤ g5.nextValue)
    (hF : Frame g5 g9) (j : Nat) (hj : g.blocks.length ≤ j) :
    Frame g (g9.SetInsertPoint j) := by
  have hA : Above (appendAt extra (some pre) g.blocks) g5 :=
    Above.of_append hb5 hi5 (by rw [length_appendAt]; exact hle)
  obtain ⟨Y9, _, hb9, _, _⟩ := hF.above hA
  exact ⟨hF.func.trans hf5, Nat.le_trans hn5 hF.next, .inr ⟨j, rfl, hj⟩, extra, Y9, hextra,
    by rw [blocks_SetInsertPoint, hb9, hpre]⟩

end CodeGen_LLVM

namespace CodeGen_LLVM

/-- A loop whose variable is not a `Var` node is not lowered. -/
theorem visit_For_var {var start end_ increment : Expr} {contents : Stmt}
    {g g1 : CodeGen_LLVM} (h : visit (.For var start end_ increment contents) g = .ok g1) :
    ∃ p name ty, var = .Var p name ty := by
  cases var with
  | Var p name ty => exact ⟨p, name, ty, rfl⟩
  | _ =>
    exfalso
    rw [visit] at h
    obtain ⟨⟨vs, g1⟩, h1, q1⟩ := bind_eq_ok.1 h
    obtain ⟨⟨ve, g2⟩, h2, q2⟩ := bind_eq_ok.1 q1
    dsimp only at q2
    split at q2
    · exact absurd q2 (throw_bind_ne_ok _ _ _)
    obtain ⟨_, _, q3⟩ := bind_eq_ok.1 q2
    split at q3
    · exact absurd q3 (throw_bind_ne_ok _ _ _)
    obtain ⟨_, _, q4⟩ := bind_eq_ok.1 q3
    obtain ⟨pre, hpre, q5⟩ := bind_eq_ok.1 q4
    obtain ⟨⟨header, g3⟩, h3, q6⟩ := bind_eq_ok.1 q5
    obtain ⟨⟨body, g4⟩, h4, q7⟩ := bind_eq_ok.1 q6
    obtain ⟨⟨latch, g5⟩, h5, q8⟩ := bind_eq_ok.1 q7
    obtain ⟨⟨exit, g6⟩, h6, q9⟩ := bind_eq_ok.1 q8
    obtain ⟨g7, h7, q10⟩ := bind_eq_ok.1 q9
    cases q10

mutual
/-- The frame property of the statement handlers: a successful visit of a
statement without function definitions, by a generator that is building a
function, leaves the blocks that were there as they are, up to instructions
appended to the insertion block, and leaves a generator that is building a
function. -/
theorem visit_frame : ∀ (s : Stmt) (g g1 : CodeGen_LLVM), s.noFunction = true → g.Building →
    visit s g = .ok g1 → Frame g g1 ∧ g1.Building
  | .null, _, _, _, _, h => by rw [visit] at h; cases h
  | .Case _ _, _, _, _, _, h => by rw [visit] at h; cases h
  | .Switch _ _, _, _, _, _, h => by rw [visit] at h; cases h
  | .While _ _, _, _, _, _, h => by rw [visit] at h; cases h
  | .Assign _ _, _, _, _, _, h => by rw [visit] at h; cases h
  | .Yield _, _, _, _, _, h => by rw [visit] at h; cases h
  | .Free _, _, _, _, _, h => by rw [visit] at h; cases h
  | .Comment _, _, _, _, _, h => by rw [visit] at h; cases h
  | .Break, _, _, _, _, h => by rw [visit] at h; cases h
  | .Print _, _, _, _, _, h => by rw [visit] at h; cases h
  | .Function _ _ _ _, _, _, hnf, _, _ => by simp [Stmt.noFunction] at hnf
  | .BlankLine, g, g1, _, hB, h => by
    rw [visit] at h
    cases h
    exact ⟨Frame.same _, hB⟩
  | .Block contents, g, g1, hnf, hB, h => by
    rw [visit] at h
    rw [Stmt.noFunction] at hnf
    exact visitAll_frame contents g g1 hnf hB h
  | .Scope s, g, g1, hnf, hB, h => by
    rw [visit] at h
    obtain ⟨g2, h2, q⟩ := bind_eq_ok.1 h
    cases q
    rw [Stmt.noFunction] at hnf
    have hB1 : g.pushScope.Building := hB
    obtain ⟨F, B⟩ := visit_frame s _ _ hnf hB1 h2
    exact ⟨⟨F.func, F.next, F.ins, F.blocks⟩, B⟩
  | .Store arr loc data, g, g1, _, hB, h => by
    rw [visit] at h
    obtain ⟨⟨a, ga⟩, h1, q1⟩ := bind_eq_ok.1 h
    obtain ⟨⟨b, gb⟩, h2, q2⟩ := bind_eq_ok.1 q1
    obtain ⟨⟨c, gc⟩, h3, q3⟩ := bind_eq_ok.1 q2
    obtain ⟨⟨d, gd⟩, h4, q4⟩ := bind_eq_ok.1 q3
    have A := ((((codegenExpr_appends _ _ _ _ h1).trans (codegenExpr_appends _ _ _ _ h2)).trans
      (CreateInBoundsGEP_appends h3)).trans (codegenExpr_appends _ _ _ _ h4)).trans
      (emit_appends (CreateStore_emit q4))
    exact ⟨A.frame, A.building hB⟩
  | .VarDecl var rhs, g, g1, _, hB, h => by
    cases var with
    | Var p name t =>
      rw [visit] at h
      obtain ⟨ty, _, q1⟩ := bind_eq_ok.1 h
      obtain ⟨⟨ptr, g2⟩, h2, q2⟩ := bind_eq_ok.1 q1
      obtain ⟨⟨v, g3⟩, h3, q3⟩ := bind_eq_ok.1 q2
      obtain ⟨g4, h4, q4⟩ := bind_eq_ok.1 q3
      obtain ⟨t, _, rfl⟩ := pushSymbol_view q4
      have A := ((CreateAlloca_appends h2).trans (codegenExpr_appends _ _ _ _ h3)).trans
        (emit_appends (CreateStore_emit h4))
      have F := A.frame
      have B := A.building hB
      exact ⟨⟨F.func, F.next, F.ins, F.blocks⟩, B⟩
    | _ => simp [visit] at h
  | .Allocate var num_elements is_realloc, g, g1, _, hB, h => by
    rw [visit] at h
    obtain ⟨⟨v, g2⟩, h1, q1⟩ := bind_eq_ok.1 h
    obtain ⟨⟨n, g3⟩, h2, q2⟩ := bind_eq_ok.1 q1
    obtain ⟨⟨ne, g4⟩, h3, q3⟩ := bind_eq_ok.1 q2
    have A3 := ((codegenExpr_appends _ _ _ _ h1).trans (codegenExpr_appends _ _ _ _ h2)).trans
      (CreateZExt_appends h3)
    dsimp only at q3
    split at q3
    · obtain ⟨⟨size, g5⟩, h4, q4⟩ := bind_eq_ok.1 q3
      obtain ⟨⟨r, g6⟩, h5, q5⟩ := bind_eq_ok.1 q4
      cases q5
      have A := (A3.trans (CreateMul_appends h4)).trans (emitExternalCall_appends h5)
      exact ⟨A.frame, A.building hB⟩
    · obtain ⟨⟨r, g5⟩, h4, q4⟩ := bind_eq_ok.1 q3
      cases q4
      have A := A3.trans (emitExternalCall_appends h4)
      exact ⟨A.frame, A.building hB⟩
  | .IfThenElse cond then_ otherwise, g, g1, hnf, hB, h => by
    rw [visit] at h
    rw [Stmt.noFunction, Bool.and_eq_true] at hnf
    obtain ⟨⟨tb, g2⟩, h1, q1⟩ := bind_eq_ok.1 h
    obtain ⟨⟨fb, g3⟩, h2, q2⟩ := bind_eq_ok.1 q1
    obtain ⟨⟨ab, g4⟩, h3, q3⟩ := bind_eq_ok.1 q2
    obtain ⟨⟨c, g5⟩, h4, q4⟩ := bind_eq_ok.1 q3
    obtain ⟨g6, h5, q5⟩ := bind_eq_ok.1 q4
    obtain ⟨g7, h6, q6⟩ := bind_eq_ok.1 q5
    obtain ⟨g8, h7, q7⟩ := bind_eq_ok.1 q6
    obtain ⟨g9, h8, q8⟩ := bind_eq_ok.1 q7
    obtain ⟨g10, h9, q9⟩ := bind_eq_ok.1 q8
    cases q9
    obtain ⟨⟨pre, hpre, hlt⟩, _⟩ := id hB
    obtain ⟨rfl, hb2, hn2, hi2, hf2, _⟩ := BasicBlockCreate_view h1
    obtain ⟨rfl, hb3, hn3, hi3, hf3, _⟩ := BasicBlockCreate_view h2
    obtain ⟨rfl, hb4, hn4, hi4, hf4, _⟩ := BasicBlockCreate_view h3
    have B4 : g4.Building := BasicBlockCreate_building h3 (BasicBlockCreate_building h2
      (BasicBlockCreate_building h1 hB))
    have hl2 : g2.blocks.length = g.blocks.length + 1 := by rw [hb2]; simp
    have hl3 : g3.blocks.length = g.blocks.length + 2 := by rw [hb3, hb2]; simp
    have hb4' : g4.blocks = g.blocks ++
        [⟨"true_bb", []⟩, ⟨"false_ bb", []⟩, ⟨"after_bb", []⟩] := by
      rw [hb4, hb3, hb2]; simp
    have hi4' : g4.insertBlock = some pre := by rw [hi4, hi3, hi2, hpre]
    have A6 := (codegenExpr_appends _ _ _ _ h4).trans (emit_appends (CreateCondBr_emit h5))
    have B6 := A6.building B4
    obtain ⟨e, he, hb6⟩ := A6.blocks
    rw [hi4', hb4', appendAt_append_left _ _ _ _ hlt] at hb6
    have hlen6 : g6.blocks.length = g.blocks.length + 3 := by
      rw [hb6, List.length_append, length_appendAt]; rfl
    have B6' : (g6.SetInsertPoint g.blocks.length).Building :=
      B6.setInsertPoint _ (by rw [hlen6]; omega)
    obtain ⟨F7, B7⟩ := visit_frame then_ _ _ hnf.1 B6' h6
    have A8 := emit_appends (CreateBr_emit h7)
    have B8 := A8.building B7
    have F9B9 : Frame g8 g9 ∧ g9.Building := by
      split at h8
      · cases h8
        exact ⟨Frame.same _, B8⟩
      · exact visit_frame otherwise _ _ hnf.2 B8 h8
    obtain ⟨F9, B9⟩ := F9B9
    have A10 := emit_appends (CreateBr_emit h9)
    have B10 := A10.building B9
    have F := Frame.comp B6'.1 F7 (Frame.comp B7.1 A8.frame (Frame.comp B8.1 F9 A10.frame))
    have hlen10 := F.len
    rw [blocks_SetInsertPoint, hlen6] at hlen10
    have B1 : (g10.SetInsertPoint g3.blocks.length).Building :=
      B10.setInsertPoint _ (by rw [hl3]; omega)
    refine ⟨?_, B1⟩
    rw [hl3]
    refine Frame.of_above hpre (fun x hx => ?_) (by rw [blocks_SetInsertPoint]; exact hb6) rfl
      (Nat.le_refl _) ?_ ?_ F _ (by omega)
    · have := (he x hx).1
      rw [hn4, hn3, hn2] at this
      exact this
    · exact A6.func.trans (hf4.trans (hf3.trans hf2))
    · have := A6.next
      rw [hn4, hn3, hn2] at this
      exact this
  | .For var start end_ increment contents, g, g1, hnf, hB, h => by
    obtain ⟨p, name, ty, rfl⟩ := visit_For_var h
    rw [Stmt.noFunction] at hnf
    obtain ⟨vs, ve, vi, pre, j, a, E, L, gb, ga, S⟩ := visit_For_steps hB h
    obtain ⟨Fb, Ba⟩ := visit_frame contents gb ga hnf S.building S.body
    obtain ⟨gf, t, hbr, ht, rfl⟩ := S.final
    have Af := emit_appends (CreateBr_emit hbr)
    have Bf := Af.building Ba
    have F := Frame.comp S.building.1 Fb Af.frame
    have hlenf := F.len
    rw [S.blocks, List.length_append, length_appendAt] at hlenf
    simp only [List.length_cons, List.length_nil] at hlenf
    obtain ⟨gs, hs, ge, he, hj⟩ := S.start_ok
    have hgj : g.nextValue ≤ j := by
      rw [← hj]
      exact ((codegenExpr_appends _ _ _ _ hs).trans (codegenExpr_appends _ _ _ _ he)).next
    have hextra : ∀ x ∈ E ++ [(⟨j, .void, .br g.blocks.length, ""⟩ : Inst)],
        g.nextValue ≤ x.id := by
      intro x hx
      rcases List.mem_append.1 hx with hx | hx
      · exact (S.E_ids x hx).1
      · simp only [List.mem_singleton] at hx
        subst hx
        exact hgj
    have F1 := Frame.of_above S.pre_ins hextra S.blocks S.ins (by omega) S.func
      (by rw [S.next]; have := S.a_ge; omega) F (g.blocks.length + 3) (by omega)
    have B1 : (gf.SetInsertPoint (g.blocks.length + 3)).Building :=
      Bf.setInsertPoint _ (by omega)
    exact ⟨⟨F1.func, F1.next, F1.ins, F1.blocks⟩, B1⟩
/-- The frame property of the loop over the statements of a block. -/
theorem visitAll_frame : ∀ (l : List Stmt) (g g1 : CodeGen_LLVM),
    Stmt.noFunctionAll l = true → g.Building → visitAll l g = .ok g1 → Frame g g1 ∧ g1.Building
  | [], g, g1, _, hB, h => by
    rw [visitAll] at h
    cases h
    exact ⟨Frame.same _, hB⟩
  | s :: rest, g, g1, hnf, hB, h => by
    rw [visitAll] at h
    obtain ⟨g2, h2, q⟩ := bind_eq_ok.1 h
    rw [Stmt.noFunctionAll, Bool.and_eq_true] at hnf
    obtain ⟨F1, B1⟩ := visit_frame s g g2 hnf.1 hB h2
    obtain ⟨F2, B2⟩ := visitAll_frame rest g2 g1 hnf.2 B1 q
    exact ⟨Frame.comp hB.1 F1 F2, B2⟩
end

end CodeGen_LLVM

namespace CodeGen_LLVM

theorem insert_get {name : String} {v : LValue} {m t : ScopedMap}
    (h : m.insert name v = .ok t) : t.get name = .ok v := by
  unfold ScopedMap.insert at h
  split at h
  · cases h
  · cases h
    simp [ScopedMap.get, ScopedMap.getFrom, List.lookup]

/-- C17: for every `For` node whose contents hold no function definition,
visited by a generator that is building a function, a successful visit leaves
the function in the shape `ForLowered`: exactly four new blocks `for_header`,
`for_body`, `for_latch`, `for_exit` besides those of the contents, the
pre-header branching to the header, the header holding the PHI node with
exactly the two incoming pairs (start, pre-header) and (variable + increment,
latch), the signed comparison and the conditional branch to the body or else
the exit, the end of the body branching to the latch, the latch branching to
the header, the loop variable bound while the contents are visited and removed
when the insertion point is left at `for_exit`. -/
theorem visit_For_shape (p : Nat) (name : String) (ty : Datatype)
    (start end_ increment : Expr) (contents : Stmt) (g g1 : CodeGen_LLVM)
    (hbuilding : g.Building) (hcontents : contents.noFunction = true)
    (hvisit : visit (.For (.Var p name ty) start end_ increment contents) g = .ok g1) :
    ForLowered name start end_ increment contents g g1 := by
  obtain ⟨vs, ve, vi, pre, j, a, E, L, gb, ga, S⟩ := visit_For_steps hbuilding hvisit
  obtain ⟨Fb, Ba⟩ := visit_frame contents gb ga hcontents S.building S.body
  obtain ⟨gf, t, hbr, ht, rfl⟩ := S.final
  obtain ⟨⟨bi, hbi, hlt⟩, hbf, _, _, _, _, _⟩ := emit_view (CreateBr_emit hbr)
  obtain ⟨e, added0, _, hba⟩ := Fb.blocks
  have hX : (appendAt (E ++ [(⟨j, .void, .br g.blocks.length, ""⟩ : Inst)]) (some pre)
      g.blocks).length = g.blocks.length := length_appendAt _ _ _
  rw [S.ins, S.blocks, appendAt_append_right _ _ _ _ (by rw [hX]; omega), hX,
    Nat.add_sub_cancel_left] at hba
  simp only [appendInsts, List.nil_append] at hba
  obtain ⟨gs, hs, ge, he, _⟩ := S.start_ok
  obtain ⟨gl, gl1, hinc, hgl, hsym⟩ := S.increment_ok
  obtain ⟨last, hlast1, hlast2⟩ : ∃ b, gf.blocks[bi]? = some b ∧
      b.insts.getLast? = some ⟨ga.nextValue, .void, .br (g.blocks.length + 2), ""⟩ := by
    obtain ⟨c, hc⟩ : ∃ c, ga.blocks[bi]? = some c :=
      ⟨ga.blocks[bi], List.getElem?_eq_getElem hlt⟩
    refine ⟨_, by rw [hbf, hbi]; exact getElem?_appendInsts_self _ _ _ _ hc, ?_⟩
    simp
  have hgb : gb.blocks.length = g.blocks.length + 4 := by
    rw [S.blocks, List.length_append, hX]; rfl
  rw [hbi] at hbf
  rcases Fb.ins with hins | ⟨b, hb, hle⟩
  · -- the contents end in `for_body`
    rw [S.ins] at hins
    rw [hins] at hbi
    cases hbi
    refine ⟨vs, ve, vi, pre, j, a, E, L, e ++ [⟨ga.nextValue, .void, .br (g.blocks.length + 2), ""⟩],
      added0, gb, ga, S.pre_ins, ⟨gs, ge, hs, he⟩, ⟨gl, gl1, hinc, hgl, hsym⟩, ?_, hgb, S.ins,
      insert_get S.sym, S.body, ?_, ⟨_, last, hins, hlast1, hlast2⟩, rfl, ht⟩
    · show gf.blocks = _
      rw [hbf, hba, List.append_assoc,
        appendAt_append_right _ _ _ _ (by rw [hX]; omega), hX, Nat.add_sub_cancel_left]
      simp [appendInsts]
    · rw [hba]
      simp only [List.length_append, hX, List.length_cons, List.length_nil]
  · -- the contents end in a block of their own
    rw [hb] at hbi
    cases hbi
    rw [hgb] at hle
    refine ⟨vs, ve, vi, pre, j, a, E, L, e,
      appendInsts [⟨ga.nextValue, .void, .br (g.blocks.length + 2), ""⟩]
        (bi - (g.blocks.length + 4)) added0,
      gb, ga, S.pre_ins, ⟨gs, ge, hs, he⟩, ⟨gl, gl1, hinc, hgl, hsym⟩, ?_, hgb, S.ins,
      insert_get S.sym, S.body, ?_, ⟨_, last, hb, hlast1, hlast2⟩, rfl, ht⟩
    · show gf.blocks = _
      rw [hbf, hba, appendAt_append_right _ _ _ _
        (by simp only [List.length_append, hX, List.length_cons, List.length_nil]; omega)]
      simp only [List.length_append, hX, List.length_cons, List.length_nil]
    · rw [hba]
      simp only [List.length_append, hX, List.length_cons, List.length_nil,
        length_appendInsts]

theorem kernelEntryState_building : kernelEntryState.Building :=
  ⟨⟨0, rfl, by decide⟩, by decide⟩

/-- C17 at the loop of the addition kernel. -/
theorem visit_For_shape_witness :
    ForLowered "i" (.Literal Datatype.Int32 0)
      (.GetProperty 5 (tensorVar 2 "B") .Dimension 0 0 "B1_dimension" Datatype.Int32)
      (.Literal Datatype.Int32 1)
      (.Store (.GetProperty 6 (tensorVar 1 "A") .Values 0 0 "A_vals" Datatype.Int32)
        (.Var 4 "i" Datatype.Int32)
        (.Add Datatype.Int32
          (.Load (.GetProperty 7 (tensorVar 2 "B") .Values 0 0 "B_vals" Datatype.Int32)
            (.Var 4 "i" Datatype.Int32))
          (.Load (.GetProperty 8 (tensorVar 3 "C") .Values 0 0 "C_vals" Datatype.Int32)
            (.Var 4 "i" Datatype.Int32))))
      kernelEntryState (stateAfterStmt kernelLoop kernelEntryState) :=
  visit_For_shape 4 "i" Datatype.Int32 _ _ _ _ kernelEntryState
    (stateAfterStmt kernelLoop kernelEntryState) kernelEntryState_building rfl (by decide)

end CodeGen_LLVM

namespace CodeGen_LLVM

theorem setArg_blocks (idx : Nat) (name : String) (fn : LFunction) :
    (setArg idx name fn).blocks = fn.blocks := by
  unfold setArg
  split <;> rfl

theorem bindArgs_view (inputs outputs : List Expr) :
    ∀ (remaining idx : Nat) (g g1 : CodeGen_LLVM),
      bindArgs inputs outputs remaining idx g = .ok g1 →
        g1.blocks = g.blocks ∧ g1.insertBlock = g.insertBlock ∧ g1.nextValue = g.nextValue ∧
          g1.Func = g.Func
  | 0, _, g, g1, h => by
    rw [bindArgs] at h
    cases h
    exact ⟨rfl, rfl, rfl, rfl⟩
  | remaining + 1, idx, g, g1, h => by
    rw [bindArgs] at h
    split at h
    · split at h
      · obtain ⟨g2, h2, q2⟩ := bind_eq_ok.1 h
        obtain ⟨g3, h3, q3⟩ := bind_eq_ok.1 q2
        obtain ⟨fn, _, _, hb1, hb, hn, hi, hf, _⟩ := modifyFunc_view h2
        obtain ⟨t, _, rfl⟩ := pushSymbol_view h3
        obtain ⟨kb, ki, kn, kf⟩ := bindArgs_view inputs outputs remaining (idx + 1) _ _ q3
        refine ⟨kb.trans ?_, ki.trans hi, kn.trans hn, kf.trans hf⟩
        show g2.blocks = g.blocks
        rw [hb1, hb, setArg_blocks]
      · cases h
    · cases h

/-- The body of a function is visited by a generator that is building a
function: after the prologue the function has the one, empty, block `entry`,
which is the insertion block. -/
theorem functionPrologue_building {name : String} {inputs outputs : List Expr}
    {g g1 : CodeGen_LLVM} (h : functionPrologue name inputs outputs g = .ok g1) :
    g1.Building ∧ g1.blocks = [⟨"entry", []⟩] ∧ g1.insertBlock = some 0 := by
  unfold functionPrologue at h
  obtain ⟨g2, h2, q2⟩ := bind_eq_ok.1 h
  obtain ⟨kb, ki, _, _⟩ := bindArgs_view _ _ _ _ _ _ q2
  unfold createFunction at h2
  obtain ⟨fv, _, q3⟩ := bind_eq_ok.1 h2
  split at q3
  · rename_i m tsp hM hT
    obtain ⟨⟨entry, g3⟩, h3, q4⟩ := bind_eq_ok.1 q3
    cases q4
    obtain ⟨rfl, hb3, _, _, _, _⟩ := BasicBlockCreate_view h3
    have hb0 : ({ g with
        Module := some { m with functions := m.functions ++
          [{ name := name, retTy := .int 32,
             args := (List.replicate (inputs.length + outputs.length) tsp).map
               (fun t => ⟨"", t, []⟩),
             blocks := [] }] },
        Func := some m.functions.length } : CodeGen_LLVM).blocks = [] := by
      simp [blocks, curFunc]
    rw [hb0] at hb3
    have hblocks : g1.blocks = [⟨"entry", []⟩] := by
      rw [kb]
      show g3.blocks = _
      rw [hb3]
      rfl
    have hins : g1.insertBlock = some 0 := by
      rw [ki, hb0]
      rfl
    refine ⟨⟨⟨0, hins, by rw [hblocks]; decide⟩, ?_⟩, hblocks, hins⟩
    intro b hb i hi
    rw [hblocks, List.mem_singleton] at hb
    subst hb
    simp at hi
  · cases q3

end CodeGen_LLVM

namespace CodeGen_LLVM

/-- A generator that is building a function can emit an instruction. -/
theorem emit_building (op : Op) (ty : LType) (name : String) (g : CodeGen_LLVM)
    (hB : g.Building) : ∃ g1, g.emit op ty name = .ok (.inst g.nextValue ty, g1) := by
  obtain ⟨⟨bi, hbi, hlt⟩, _⟩ := hB
  unfold blocks at hlt
  cases hc : g.curFunc with
  | none => rw [hc] at hlt; simp at hlt
  | some fn =>
    rw [hc] at hlt
    unfold curFunc at hc
    split at hc
    · rename_i m fi hM hF
      have hfn : m.functions[fi]? = some fn := by simpa using hc
      obtain ⟨b, hb⟩ : ∃ b, fn.blocks[bi]? = some b :=
        ⟨fn.blocks[bi], List.getElem?_eq_getElem hlt⟩
      let b1 : BasicBlock := { b with insts := b.insts ++ [⟨g.nextValue, ty, op, name⟩] }
      let fn1 : LFunction := { fn with blocks := fn.blocks.set bi b1 }
      let m1 : LModule := { m with functions := m.functions.set fi fn1 }
      refine ⟨{ g with Module := some m1, nextValue := g.nextValue + 1 }, ?_⟩
      simp only [emit, modifyInsertBlock, hM, hF, hbi, List.get?_eq_getElem?, hfn,
        modifyNth_of_getElem? _ _ _ _ hb, modifyNth_of_getElem? _ _ _ _ hfn, bind, Except.bind,
        pure, Except.pure]
    · cases hc

theorem CreateZExt_building (v : LValue) (ty : LType) (g : CodeGen_LLVM) (hB : g.Building) :
    ∃ z gz, g.CreateZExt v ty = .ok (z, gz) := by
  unfold CreateZExt
  split
  · exact ⟨_, _, rfl⟩
  · split
    · exact ⟨_, _, rfl⟩
    · obtain ⟨g1, h⟩ := emit_building (.zext v ty) ty "" g hB
      exact ⟨_, _, h⟩

theorem CreateMul_building (a b : LValue) (name : String) (g : CodeGen_LLVM) (hB : g.Building) :
    ∃ z gz, g.CreateMul a b name = .ok (z, gz) := by
  unfold CreateMul
  split
  · exact ⟨_, _, rfl⟩
  · obtain ⟨g1, h⟩ := emit_building (.mul a b) a.getType name g hB
    exact ⟨_, _, h⟩

/-- What `emitExternalCall` does to the function being built: the call is
appended at the insertion point. -/
theorem emitExternalCall_view {funcName : String} {returnType : LType}
    {argTypes : List LType} {args : List LValue} {name : String} {g g1 : CodeGen_LLVM}
    {v : LValue} (h : g.emitExternalCall funcName returnType argTypes args name = .ok (v, g1)) :
    g1.blocks = appendAt [⟨g.nextValue, returnType, .call funcName args, name⟩]
        g.insertBlock g.blocks ∧
      v = .inst g.nextValue returnType ∧ g1.nextValue = g.nextValue + 1 ∧
      g1.insertBlock = g.insertBlock ∧ g1.symbolTable = g.symbolTable := by
  unfold emitExternalCall at h
  split at h
  · cases h
  · rename_i m hM
    obtain ⟨_, hb, hv, hn, hi, _, hs⟩ := emit_view h
    have hb0 : ∀ decls, ({ g with Module := some { m with declarations := decls } } :
        CodeGen_LLVM).blocks = g.blocks := by
      intro decls
      simp only [blocks, curFunc, hM]
      cases g.Func <;> rfl
    exact ⟨by rw [hb, hb0], hv, hn, hi, hs⟩

theorem emitExternalCall_building (funcName : String) (returnType : LType)
    (argTypes : List LType) (args : List LValue) (name : String) (g : CodeGen_LLVM)
    (hB : g.Building) :
    ∃ v g1, g.emitExternalCall funcName returnType argTypes args name = .ok (v, g1) := by
  obtain ⟨⟨bi, hbi, hlt⟩, hid⟩ := hB
  unfold emitExternalCall
  cases hM : g.Module with
  | none =>
    exfalso
    simp [blocks, curFunc, hM] at hlt
  | some m =>
    have hb0 : ∀ decls, ({ g with Module := some { m with declarations := decls } } :
        CodeGen_LLVM).blocks = g.blocks := by
      intro decls
      simp only [blocks, curFunc, hM]
      cases g.Func <;> rfl
    have hB0 : ∀ decls, ({ g with Module := some { m with declarations := decls } } :
        CodeGen_LLVM).Building :=
      fun decls => ⟨⟨bi, hbi, by rw [hb0]; exact hlt⟩, by rw [hb0]; exact hid⟩
    dsimp only
    obtain ⟨g1, h⟩ := emit_building (.call funcName args) returnType name _ (hB0 _)
    exact ⟨_, _, h⟩

/-- C21 fails: in a generator that is building a function, for every
`Allocate` node whose variable and number of elements can be generated, the
visit succeeds and appends, after the code of the two expressions and the
extension of the number of elements to 64 bits, exactly the call: for a
reallocation `realloc(var, size)` where `size` is the product of the extended
number of elements and the constant 4, otherwise `calloc(num_elements, 4)`.
The constant 4 stands where the byte size of the element type is expected,
whatever the type of the variable; and the pointer the call returns is bound
to nothing: the call is the last instruction that the visit appends, and the
symbol table is what it was before the visit. -/
theorem visit_Allocate_constant_size (var num_elements : Expr) (is_realloc : Bool)
    (g gv gn : CodeGen_LLVM) (vv vn : LValue) (hbuilding : g.Building)
    (hvar : codegenExpr var g = .ok (vv, gv))
    (hnum : codegenExpr num_elements gv = .ok (vn, gn)) :
    ∃ (z size : LValue) (gz gm g1 : CodeGen_LLVM),
      gn.CreateZExt vn (.int 64) = .ok (z, gz) ∧
      (if is_realloc then gz.CreateMul z (.constInt 64 4) "realloc.size" = .ok (size, gm)
        else size = .constInt 64 4 ∧ gm = gz) ∧
      visit (.Allocate var num_elements is_realloc) g = .ok g1 ∧
      g1.blocks =
        appendAt [allocationCall is_realloc vv z size gm.nextValue] g.insertBlock gm.blocks ∧
      g1.nextValue = gm.nextValue + 1 ∧
      g1.insertBlock = g.insertBlock ∧
      g1.symbolTable = g.symbolTable := by
  have A1 := codegenExpr_appends _ _ _ _ hvar
  have A2 := A1.trans (codegenExpr_appends _ _ _ _ hnum)
  obtain ⟨z, gz, hz⟩ := CreateZExt_building vn (.int 64) gn (A2.building hbuilding)
  have A3 := A2.trans (CreateZExt_appends hz)
  cases is_realloc with
  | true =>
    obtain ⟨size, gm, hm⟩ := CreateMul_building z (.constInt 64 4) "realloc.size" gz
      (A3.building hbuilding)
    have A4 := A3.trans (CreateMul_appends hm)
    obtain ⟨r, g1, hc⟩ := emitExternalCall_building "realloc" (.ptr (.int 8))
      [.ptr (.int 8), .int 64] [vv, size] "realloc.ret" gm (A4.building hbuilding)
    obtain ⟨hb, _, hn, hi, hs⟩ := emitExternalCall_view hc
    refine ⟨z, size, gz, gm, g1, hz, hm, ?_, ?_, hn, hi.trans A4.ins, hs.trans A4.sym⟩
    · rw [visit]
      have hc1 : gm.emitExternalCall "realloc" (LType.int 8).getPointerTo
          [(LType.int 8).getPointerTo, .int 64] [vv, size] "realloc.ret" = .ok (r, g1) := hc
      simp only [hvar, hnum, hz, hm, hc1, bind, Except.bind, pure, Except.pure, if_true]
    · rw [hb, A4.ins]
      rfl
  | false =>
    obtain ⟨r, g1, hc⟩ := emitExternalCall_building "calloc" (.ptr (.int 8))
      [.int 64, .int 64] [z, .constInt 64 4] "calloc.ret" gz (A3.building hbuilding)
    obtain ⟨hb, _, hn, hi, hs⟩ := emitExternalCall_view hc
    refine ⟨z, .constInt 64 4, gz, gz, g1, hz, ⟨rfl, rfl⟩, ?_, ?_, hn, hi.trans A3.ins,
      hs.trans A3.sym⟩
    · rw [visit]
      have hc1 : gz.emitExternalCall "calloc" (LType.int 8).getPointerTo
          [.int 64, .int 64] [z, .constInt 64 4] "calloc.ret" = .ok (r, g1) := hc
      simp only [hvar, hnum, hz, hc1, bind, Except.bind, pure, Except.pure, Bool.false_eq_true,
        if_false]
    · rw [hb, A3.ins]
      rfl

/-- C21 at the allocation of three values for the tensor `A` of the kernel,
whose elements are of type `double` (8 bytes each): the visit succeeds, the
call appended is `calloc(3, 4)`, a request for 12 bytes where 24 are needed,
and the symbol table is unchanged. The function `grow` generated for this
allocation alone reads the values pointer of `A`, calls `calloc(3, 4)` and
returns: the pointer that `calloc` returns is used by no instruction. The call
is the same when the elements are of type `int32_t`, and the reallocation of
three values of type `double` asks for 12 bytes as well. -/
theorem visit_Allocate_constant_size_witness :
    (∃ g1 gm : CodeGen_LLVM, visit (.Allocate (valuesOfA Datatype.Float64) (.Literal Datatype.Int32 3) false)
          kernelEntryState = .ok g1 ∧
        g1.blocks = appendAt [⟨gm.nextValue, .ptr (.int 8),
            .call "calloc" [.constInt 64 3, .constInt 64 4], "calloc.ret"⟩]
          kernelEntryState.insertBlock gm.blocks ∧
        g1.symbolTable = kernelEntryState.symbolTable) ∧
      (valuesOfA Datatype.Float64).type.getNumBytes = 8 ∧
      (generatedFunction (allocKernel Datatype.Float64 (.Literal Datatype.Int32 3) false)).map
          blockOps = some
        [ ("entry",
            [ .structGEP (.arg 0 0 tensorStructPtrTy) 6,
              .bitCast (.inst 0 (.ptr (.ptr (.int 8)))) (.ptr (.ptr .double)),
              .load (.inst 1 (.ptr (.ptr .double))),
              .call "calloc" [.constInt 64 3, .constInt 64 4],
              .br 1 ]),
          ("exit", [ .ret (.constInt 32 0) ]) ] ∧
      (generatedFunction (allocKernel Datatype.Int32 (.Literal Datatype.Int32 3) false)).map
          (fun fn => (blockOps fn).map (fun b => b.2.get? 3)) =
        some [some (.call "calloc" [.constInt 64 3, .constInt 64 4]), none] ∧
      (generatedFunction (allocKernel Datatype.Float64 (.Literal Datatype.Int32 3) true)).map
          (fun fn => (blockOps fn).map (fun b => b.2.get? 3)) =
        some [some (.call "realloc" [.inst 2 (.ptr .double), .constInt 64 12]), none] := by
  refine ⟨?_, by decide, by decide, by decide, by decide⟩
  obtain ⟨z, size, gz, gm, g1, hz, hs, hv, hb, _, _, hsym⟩ :=
    visit_Allocate_constant_size (valuesOfA Datatype.Float64) (.Literal Datatype.Int32 3) false
      kernelEntryState _ _ _ _ kernelEntryState_building rfl rfl
  cases hz
  obtain ⟨rfl, rfl⟩ := hs
  exact ⟨g1, _, hv, hb, hsym⟩

end CodeGen_LLVM

namespace CodeGen_LLVM

end CodeGen_LLVM

end taco
